import Mathlib

/-!
# RLGymPPO_CPP: experience buffer, collector pool, PPO learner and orchestrator

A shallow embedding of `PPO/ExperienceBuffer.cpp`, `Threading/ThreadAgent.cpp`,
`Threading/ThreadAgentManager.cpp`, `PPO/PPOLearner.cpp` and `Learner.cpp`, followed by the
properties established about them.

Conventions of the embedding:

* A tensor is the list of its rows along dimension 0.  The trailing dimensions are folded into
  the row type `α`; a row is `none` when it holds the NaN fill written by `fill_(NaN)`.
* Calls into the tensor backend that can throw return `Except Fault _`.
* Loops whose trip count is not structurally evident carry a fuel argument and report
  `Fault.fuel` when it runs out.
* `std::default_random_engine` and `std::shuffle` are implementation-defined in C++; they are an
  interface (`RandomEngine`) constrained by what the standard guarantees.
* Networks are lists of parameter tensors over exact rationals; the forward and backward passes,
  the optimizer step and the serialisation of the tensor library are an interface (`Torch`).
* The file system is the list of the paths that exist, each a directory or a file with its
  content.
-/

namespace RLGPC

/-! ## Faults -/

/-- Ways a modelled call can fail to return normally: `backend` is a C++ exception thrown by the
tensor library, `fatal` is `RG_ERR_CLOSE`, `fuel` is a loop model that ran out of fuel,
`spinning` is a spin-wait whose exit condition does not hold in the state it was entered in (it
returns only after other threads have made progress), and `undefined` is undefined behaviour of
C++ (an integer division by zero, a null pointer dereference). -/
inductive Fault where
  | backend
  | fatal
  | fuel
  | spinning
  | undefined
  deriving DecidableEq, Repr

/-! ## Tensors -/

/-- Rows of a tensor along dimension 0; `none` is a row of NaN fill. -/
abbrev Tensor (α : Type) := List (Option α)

namespace Tensor

variable {α : Type}

/-- Leading dimension, `t.size(0)`. -/
def size0 (t : Tensor α) : Nat := t.length

/-- Rows `[start, stop)`, as `t.slice(0, start, stop)`: both bounds are clamped to the size. -/
def slice (t : Tensor α) (start stop : Nat) : Tensor α := (t.take stop).drop start

/-- In-place `dst.slice(0, start, stop).copy_(src)`, returning the updated `dst`.  The source
must have as many rows as the view, or a single row (which is broadcast); anything else throws. -/
def sliceCopy (dst : Tensor α) (start stop : Nat) (src : Tensor α) : Except Fault (Tensor α) :=
  let view := dst.slice start stop
  if src.length = view.length then
    .ok (dst.take start ++ src ++ dst.drop (start + view.length))
  else
    match src with
    | [row] => .ok (dst.take start ++ List.replicate view.length row ++ dst.drop (start + view.length))
    | _ => .error Fault.backend

/-- Rows at the given positions, `t.index_select(0, indices)`; an out-of-range position throws. -/
def index_select (t : Tensor α) (indices : List Nat) : Except Fault (Tensor α) :=
  indices.mapM fun i =>
    match t[i]? with
    | some row => .ok row
    | none => .error Fault.backend

/-- The tensor `torch::cat({t1, t2}, 0)`. -/
def cat (t1 t2 : Tensor α) : Tensor α := t1 ++ t2

end Tensor

/-! ## ExperienceTensors -/

/-- The struct `ExperienceTensors` (without `RG_PARANOID_MODE`), fields in declaration order,
which is the order `begin() .. end()` walks them. -/
structure ExperienceTensors (α : Type) where
  states : Tensor α
  actions : Tensor α
  logProbs : Tensor α
  rewards : Tensor α
  nextStates : Tensor α
  dones : Tensor α
  truncated : Tensor α
  values : Tensor α
  advantages : Tensor α
  deriving DecidableEq, Repr

/-- Names of the nine tensors of `ExperienceTensors`. -/
inductive Field where
  | states
  | actions
  | logProbs
  | rewards
  | nextStates
  | dones
  | truncated
  | values
  | advantages
  deriving DecidableEq, Repr

namespace ExperienceTensors

variable {α : Type}

/-- A default-constructed `ExperienceTensors()`: every tensor undefined (no rows). -/
def empty : ExperienceTensors α :=
  { states := [], actions := [], logProbs := [], rewards := [], nextStates := [],
    dones := [], truncated := [], values := [], advantages := [] }

/-- The tensor stored under a field name. -/
def get (d : ExperienceTensors α) : Field → Tensor α
  | .states => d.states
  | .actions => d.actions
  | .logProbs => d.logProbs
  | .rewards => d.rewards
  | .nextStates => d.nextStates
  | .dones => d.dones
  | .truncated => d.truncated
  | .values => d.values
  | .advantages => d.advantages

/-- Every tensor has leading dimension `n`. -/
def Uniform (d : ExperienceTensors α) (n : Nat) : Prop := ∀ f : Field, (d.get f).length = n

/-- The pointer walk `while (dataItr != data.end() && _dataItr != _data.end())` of
`SubmitExperience`: the body runs once per field, in declaration order, on the pair of tensors
of that field, and may replace both. -/
def forEachPair (body : Tensor α → Tensor α → Except Fault (Tensor α × Tensor α))
    (data _data : ExperienceTensors α) :
    Except Fault (ExperienceTensors α × ExperienceTensors α) := do
  let r1 ← body data.states _data.states
  let r2 ← body data.actions _data.actions
  let r3 ← body data.logProbs _data.logProbs
  let r4 ← body data.rewards _data.rewards
  let r5 ← body data.nextStates _data.nextStates
  let r6 ← body data.dones _data.dones
  let r7 ← body data.truncated _data.truncated
  let r8 ← body data.values _data.values
  let r9 ← body data.advantages _data.advantages
  pure ({ states := r1.1, actions := r2.1, logProbs := r3.1, rewards := r4.1,
          nextStates := r5.1, dones := r6.1, truncated := r7.1, values := r8.1,
          advantages := r9.1 },
        { states := r1.2, actions := r2.2, logProbs := r3.2, rewards := r4.2,
          nextStates := r5.2, dones := r6.2, truncated := r7.2, values := r8.2,
          advantages := r9.2 })

end ExperienceTensors

/-! ## Random engine -/

/-- The part of `<random>` and `<algorithm>` the buffer relies on.  `ctor s` is
`std::default_random_engine rng(s)`, `reseed g s` is `rng.seed(s)`, and `shuffle g l` is
`std::shuffle(l.begin(), l.end(), g)` returning the rearranged range and the advanced engine.
The two laws are the guarantees of the C++ standard: reseeding puts the engine in the state of a
newly constructed one, and `shuffle` rearranges the range (it neither adds nor loses an element). -/
structure RandomEngine where
  State : Type
  ctor : Int → State
  reseed : State → Int → State
  shuffle : State → List Nat → List Nat × State
  reseed_eq : ∀ g s, reseed g s = ctor s
  shuffle_perm : ∀ g l, List.Perm (shuffle g l).1 l

/-- The `torch::Device` a buffer is tagged with. -/
inductive Device where
  | cpu
  | cuda (index : Nat)
  deriving DecidableEq, Repr

/-! ## ExperienceBuffer -/

/-- The class `ExperienceBuffer`; `maxSize` and `curSize` are row counts. -/
structure ExperienceBuffer (E : RandomEngine) (α : Type) where
  device : Device
  seed : Int
  data : ExperienceTensors α
  curSize : Nat
  maxSize : Nat
  rng : E.State

/-- The struct `ExperienceBuffer::SampleSet`. -/
structure SampleSet (α : Type) where
  actions : Tensor α
  logProbs : Tensor α
  states : Tensor α
  values : Tensor α
  advantages : Tensor α
  deriving DecidableEq, Repr

namespace ExperienceBuffer

variable {E : RandomEngine} {α : Type}

/-- The constructor `ExperienceBuffer(maxSize, seed, device)`. -/
def ctor (maxSize : Nat) (seed : Int) (device : Device) : ExperienceBuffer E α :=
  { device := device, seed := seed, data := ExperienceTensors.empty, curSize := 0,
    maxSize := maxSize, rng := E.ctor seed }

/-- The static helper `_Concat(t1, t2, size)`. -/
def _Concat (t1 t2 : Tensor α) (size : Nat) : Tensor α :=
  let len1 := t1.size0
  let len2 := t2.size0
  if len2 ≥ size then
    t2.slice (len2 - size) len2
  else if len1 + len2 > size then
    Tensor.cat (t1.slice (len1 + len2 - size) len1) t2
  else
    Tensor.cat t1 t2

/-- Body of the loop of `SubmitExperience` for one pair `(ourTen, addTen)`; returns the updated
pair.  `overflow` is `std::max((curSize + addAmount) - maxSize, 0)`; it never exceeds `curSize`
because `addAmount` has been capped at `maxSize`, so the index arithmetic stays in the naturals. -/
def submitBody (maxSize curSize : Nat) (empty : Bool) (ourTen addTen : Tensor α) :
    Except Fault (Tensor α × Tensor α) := do
  let addAmount₀ := addTen.size0
  let addTen := if addAmount₀ > maxSize then addTen.slice (addAmount₀ - maxSize) addAmount₀ else addTen
  let addAmount := if addAmount₀ > maxSize then maxSize else addAmount₀
  let overflow := Nat.max ((curSize + addAmount) - maxSize) 0
  let startIdx := curSize - overflow
  let endIdx := curSize + addAmount - overflow
  let ourTen ←
    (if empty then
      pure (List.replicate maxSize none)
    else if overflow > 0 then
      let fromData := ourTen.slice overflow curSize
      Tensor.sliceCopy ourTen 0 (curSize - overflow) fromData
    else
      pure ourTen : Except Fault (Tensor α))
  let ourTen ← Tensor.sliceCopy ourTen startIdx endIdx addTen
  pure (ourTen, addTen)

/-- The method `SubmitExperience(_data)`.  Returns the buffer afterwards together with the
caller's `_data`, whose tensors the loop may have replaced by their last `maxSize` rows. -/
def SubmitExperience (b : ExperienceBuffer E α) (_data : ExperienceTensors α) :
    Except Fault (ExperienceBuffer E α × ExperienceTensors α) := do
  let empty := b.curSize == 0
  let (data, _data) ←
    ExperienceTensors.forEachPair (submitBody b.maxSize b.curSize empty) b.data _data
  let curSize := min (b.curSize + _data.states.size0) b.maxSize
  pure ({ b with data := data, curSize := curSize }, _data)

/-- The method `_GetSamples(indices, size)`, the index range given as a list. -/
def _GetSamples (b : ExperienceBuffer E α) (indices : List Nat) : Except Fault (SampleSet α) := do
  let actions ← b.data.actions.index_select indices
  let logProbs ← b.data.logProbs.index_select indices
  let states ← b.data.states.index_select indices
  let values ← b.data.values.index_select indices
  let advantages ← b.data.advantages.index_select indices
  pure { actions := actions, logProbs := logProbs, states := states, values := values,
         advantages := advantages }

/-- The loop `for (startIdx = 0; startIdx + batchSize <= curSize; startIdx += batchSize)` of
`GetAllBatchesShuffled`, generic in what is built from each block
`indices.data() + startIdx, batchSize`. -/
def batchLoop {β : Type} (get : List Nat → Except Fault β) (indices : List Nat)
    (batchSize curSize : Nat) : Nat → Nat → List β → Except Fault (List β)
  | 0, _, _ => .error Fault.fuel
  | fuel + 1, startIdx, result =>
    if startIdx + batchSize ≤ curSize then
      match get ((indices.drop startIdx).take batchSize) with
      | .ok s => batchLoop get indices batchSize curSize fuel (startIdx + batchSize) (result ++ [s])
      | .error e => .error e
    else
      .ok result

/-- The method `GetAllBatchesShuffled(batchSize)`: the batches and the buffer afterwards (its
engine has advanced unless the call returned early). -/
def GetAllBatchesShuffled (b : ExperienceBuffer E α) (batchSize : Int) :
    Except Fault (List (SampleSet α) × ExperienceBuffer E α) :=
  if b.curSize = 0 ∨ batchSize ≤ 0 then
    .ok ([], b)
  else
    let indices := List.range b.curSize
    let shuffled := E.shuffle b.rng indices
    let b' := { b with rng := shuffled.2 }
    match batchLoop b'._GetSamples shuffled.1 batchSize.toNat b.curSize (b.curSize + 1) 0 [] with
    | .ok result => .ok (result, b')
    | .error e => .error e

/-- The index blocks handed to `_GetSamples` by one `GetAllBatchesShuffled` call: the same loop
over the same shuffled index vector, keeping each block instead of the rows it selects. -/
def shuffledBlocks (b : ExperienceBuffer E α) (batchSize : Int) : Except Fault (List (List Nat)) :=
  if b.curSize = 0 ∨ batchSize ≤ 0 then
    .ok []
  else
    let indices := List.range b.curSize
    let shuffled := E.shuffle b.rng indices
    batchLoop (fun blk => .ok blk) shuffled.1 batchSize.toNat b.curSize (b.curSize + 1) 0 []

/-- The method `Clear()`. -/
def Clear (b : ExperienceBuffer E α) : ExperienceBuffer E α :=
  { b with data := ExperienceTensors.empty, curSize := 0, rng := E.reseed b.rng b.seed }

/-- Invariant of the storage: `curSize` never exceeds the capacity, and once rows are held
every field tensor has exactly `maxSize` rows. -/
def WF (b : ExperienceBuffer E α) : Prop :=
  b.curSize ≤ b.maxSize ∧ (b.curSize ≠ 0 → b.data.Uniform b.maxSize)

/-- Buffer states a program can reach from `ExperienceBuffer(maxSize, seed, device)` through
the public methods, each submitted batch having one leading dimension for all its fields. -/
inductive Reachable (maxSize : Nat) (seed : Int) (device : Device) :
    ExperienceBuffer E α → Prop where
  | ctor : Reachable maxSize seed device (ExperienceBuffer.ctor maxSize seed device)
  | submit {b b' : ExperienceBuffer E α} {d d' : ExperienceTensors α} {n : Nat} :
      Reachable maxSize seed device b → d.Uniform n → SubmitExperience b d = .ok (b', d') →
      Reachable maxSize seed device b'
  | shuffled {b b' : ExperienceBuffer E α} {batchSize : Int} {out : List (SampleSet α)} :
      Reachable maxSize seed device b → GetAllBatchesShuffled b batchSize = .ok (out, b') →
      Reachable maxSize seed device b'
  | clear {b : ExperienceBuffer E α} :
      Reachable maxSize seed device b → Reachable maxSize seed device (Clear b)

/-- A run of `SubmitExperience` calls, one per batch, in arrival order. -/
def submitAll (b : ExperienceBuffer E α) : List (ExperienceTensors α) →
    Except Fault (ExperienceBuffer E α)
  | [] => .ok b
  | d :: ds =>
    match SubmitExperience b d with
    | .ok (b', _) => submitAll b' ds
    | .error e => .error e

/-- A call on the public interface of a buffer. -/
inductive Call (α : Type) where
  | submit (d : ExperienceTensors α)
  | shuffled (batchSize : Int)
  | clear

/-- What one `GetAllBatchesShuffled` call of a run produced: the index blocks it drew and the
batches it returned. -/
structure Drawn (α : Type) where
  blocks : Except Fault (List (List Nat))
  batches : List (SampleSet α)

/-- A sequence of calls on one buffer, in order; the log holds one entry per
`GetAllBatchesShuffled` call.  A call that throws ends the run. -/
def run (b : ExperienceBuffer E α) : List (Call α) →
    Except Fault (List (Drawn α) × ExperienceBuffer E α)
  | [] => .ok ([], b)
  | .submit d :: calls =>
    match SubmitExperience b d with
    | .ok (b', _) => run b' calls
    | .error e => .error e
  | .shuffled batchSize :: calls =>
    match GetAllBatchesShuffled b batchSize with
    | .ok (out, b') =>
      match run b' calls with
      | .ok (log, b'') => .ok ({ blocks := shuffledBlocks b batchSize, batches := out } :: log, b'')
      | .error e => .error e
    | .error e => .error e
  | .clear :: calls => run (Clear b) calls

end ExperienceBuffer

/-- Consecutive blocks of `batchSize` entries of `indices`, starting at `startIdx`, as long as a
whole block fits below `curSize`. -/
def blocksOf (indices : List Nat) (batchSize curSize startIdx : Nat) : List (List Nat) :=
  (List.range ((curSize - startIdx) / batchSize)).map fun k =>
    (indices.drop (startIdx + k * batchSize)).take batchSize

/-- The last `k` rows of a tensor (all of it when it has fewer). -/
def lastRows {α : Type} (k : Nat) (t : Tensor α) : Tensor α := t.drop (t.length - k)

/-- Naive concatenation, per field, of all submitted batches in arrival order. -/
def history {α : Type} (f : Field) (ds : List (ExperienceTensors α)) : Tensor α :=
  (ds.map fun d => d.get f).flatten

/-- A batch whose nine tensors all hold the same rows. -/
def batchOf {α : Type} (rows : List α) : ExperienceTensors α :=
  let t : Tensor α := rows.map some
  { states := t, actions := t, logProbs := t, rewards := t, nextStates := t, dones := t,
    truncated := t, values := t, advantages := t }

/-! ## A concrete engine -/

/-- One step of `std::minstd_rand0` (the `default_random_engine` of libstdc++). -/
def minstdNext (x : Nat) : Nat := (16807 * x) % 2147483647

/-- State of `std::minstd_rand0` after seeding with `s`. -/
def minstdSeed (s : Int) : Nat :=
  let x := (s % 18446744073709551616).toNat % 2147483647
  if x = 0 then 1 else x

/-- A Fisher-Yates pass driven by `minstdNext`: position `k` of what is left is drawn and
moved to the front, `n` times. -/
def minstdShuffle : Nat → Nat → List Nat → List Nat × Nat
  | 0, g, l => (l, g)
  | _ + 1, g, [] => ([], g)
  | n + 1, g, x :: xs =>
    let g' := minstdNext g
    let k := g' % (xs.length + 1)
    match (x :: xs).drop k with
    | [] => (x :: xs, g')
    | y :: rest =>
      let r := minstdShuffle n g' ((x :: xs).take k ++ rest)
      (y :: r.1, r.2)

/-- An instance of `RandomEngine`: `minstd_rand0` with the Fisher-Yates pass above. -/
def minstdEngine : RandomEngine where
  State := Nat
  ctor := minstdSeed
  reseed := fun _ s => minstdSeed s
  shuffle := fun g l => minstdShuffle l.length g l
  reseed_eq := fun _ _ => rfl
  shuffle_perm := by
    have key : ∀ (n g : Nat) (l : List Nat), List.Perm (minstdShuffle n g l).1 l := by
      intro n
      induction n with
      | zero => intro g l; exact List.Perm.refl l
      | succ n ih =>
        intro g l
        cases l with
        | nil => exact List.Perm.refl []
        | cons x xs =>
          simp only [minstdShuffle]
          split
          · exact List.Perm.refl _
          · rename_i y rest hdrop
            have hsplit := List.take_append_drop (minstdNext g % (xs.length + 1)) (x :: xs)
            rw [hdrop] at hsplit
            refine List.Perm.trans (List.Perm.cons y (ih _ _)) ?_
            refine List.Perm.trans List.perm_middle.symm ?_
            rw [hsplit]
    exact fun g l => key l.length g l

/-- A buffer of capacity 8, seed 7, holding eight rows: the state after one submission of
`batchOf [10, .., 17]` to a new buffer. -/
def sampleBuffer : ExperienceBuffer minstdEngine Int :=
  { device := Device.cpu, seed := 7, data := batchOf [10, 11, 12, 13, 14, 15, 16, 17],
    curSize := 8, maxSize := 8, rng := minstdSeed 7 }

/-! ## Trajectories -/

/-- One transition of one player as a trajectory row.  `payload` gathers observation, action,
log-probability, reward and next observation; `done` and `truncated` are the float entries of
the `dones` and `truncateds` tensors, which the code only ever writes from a `bool`, so as 0
or 1. -/
structure Transition (α : Type) where
  payload : α
  done : Int
  truncated : Int
  deriving DecidableEq, Repr

/-- Modelled from the spec: `GameTrajectory` (declared in `Threading/GameTrajectory.h`, which is
not among the sources): an ordered sequence of transitions, `size` being its length as the
callers read it from the member of that name. -/
structure GameTrajectory (α : Type) where
  data : List (Transition α)
  size : Nat
  deriving DecidableEq, Repr

namespace GameTrajectory

variable {α : Type}

/-- Modelled from the spec: a default-constructed `GameTrajectory` holds no transition. -/
def empty : GameTrajectory α := { data := [], size := 0 }

/-- Modelled from the spec: `AppendSingleStep` adds one transition at the end (the length of a
segment grows by one per step). -/
def AppendSingleStep (traj : GameTrajectory α) (step : Transition α) : GameTrajectory α :=
  { data := traj.data ++ [step], size := traj.size + 1 }

/-- Modelled from the spec: `Clear` leaves the segment empty. -/
def Clear (_traj : GameTrajectory α) : GameTrajectory α := empty

/-- Modelled from the spec: `MultiAppend` concatenates the given segments, in order, after the
rows already held (the returned trajectory is the concatenation of every harvested segment). -/
def MultiAppend (result : GameTrajectory α) (trajs : List (GameTrajectory α)) :
    Except Fault (GameTrajectory α) :=
  .ok { data := result.data ++ (trajs.map fun t => t.data).flatten,
        size := result.size + (trajs.map fun t => t.size).sum }

/-- The assignment
`traj.data.truncateds[traj.size - 1] = (traj.data.dones[traj.size - 1].item<float>() == 0)`;
indexing past the rows throws. -/
def fixLast (traj : GameTrajectory α) : Except Fault (GameTrajectory α) :=
  match traj.data[traj.size - 1]? with
  | none => .error Fault.backend
  | some row =>
    .ok { traj with
          data := traj.data.set (traj.size - 1)
            { row with truncated := if row.done = 0 then 1 else 0 } }

end GameTrajectory

/-! ## ThreadAgent -/

/-- The fields of `ThreadAgent` the collection logic reads and writes.  `trajectories[i][j]` is
the segment of player `j` of game `i`; the constructor sizes `trajectories[i]` to the game's
`playerAmount`, so that length stands for `playerAmount` below. -/
structure ThreadAgent (α : Type) where
  index : Nat
  numGames : Nat
  trajectories : List (List (GameTrajectory α))
  stepsCollected : Nat
  maxCollect : Nat
  deriving DecidableEq, Repr

/-- The fields of `ThreadAgentManager` the collection logic reads and writes; `renderSender`
tells whether the pointer is non-null. -/
structure ThreadAgentManager (α : Type) where
  agents : List (ThreadAgent α)
  maxCollect : Nat
  renderSender : Bool
  renderDuringTraining : Bool
  disableCollection : Bool
  deriving DecidableEq, Repr

/-- Threads a state through a list, replacing each element; the first failure ends the walk.
The shape of the nested range-`for` loops of `CollectTimesteps`. -/
def mapAccumM {σ β : Type} (f : σ → β → Except Fault (σ × β)) :
    σ → List β → Except Fault (σ × List β)
  | s, [] => .ok (s, [])
  | s, x :: xs =>
    match f s x with
    | .error e => .error e
    | .ok (s₁, x') =>
      match mapAccumM f s₁ xs with
      | .error e => .error e
      | .ok (s₂, xs') => .ok (s₂, x' :: xs')

namespace ThreadAgent

variable {α : Type}

/-- The constructor `ThreadAgent(manager, numGames, maxCollect, envCreateFn, index)`;
`playerAmount i` is `match->playerAmount` of the `i`-th environment created. -/
def ctor (numGames maxCollect : Nat) (playerAmount : Nat → Nat) (index : Nat) : ThreadAgent α :=
  { index := index, numGames := numGames,
    trajectories := (List.range numGames).map fun i =>
      List.replicate (playerAmount i) GameTrajectory.empty,
    stepsCollected := 0, maxCollect := maxCollect }

/-- The loop `for (int j = 0; j < numPlayers; ++j)` of `Run`: one `AppendSingleStep` per player
of a game, `done` being `static_cast<float>(stepResult.done)` and `truncated` being `0.0f`. -/
def appendPlayers (done : Bool) (payload : Nat → α) :
    Nat → List (GameTrajectory α) → List (GameTrajectory α)
  | _, [] => []
  | j, traj :: rest =>
    traj.AppendSingleStep { payload := payload j, done := if done then 1 else 0, truncated := 0 }
      :: appendPlayers done payload (j + 1) rest

/-- The loop `for (int i = 0, playerOffset = 0; i < numGames; ++i)` of `Run`, run under
`trajMutex`: per game, one transition per player and `stepsCollected += numPlayers`.  Returns
the trajectories and the counter afterwards. -/
def appendGames (done : Nat → Bool) (payload : Nat → Nat → α) :
    Nat → List (List (GameTrajectory α)) → Nat → List (List (GameTrajectory α)) × Nat
  | _, [], stepsCollected => ([], stepsCollected)
  | i, trajSet :: rest, stepsCollected =>
    let numPlayers := trajSet.length
    let r := appendGames done payload (i + 1) rest (stepsCollected + numPlayers)
    (appendPlayers (done i) (payload i) 0 trajSet :: r.1, r.2)

/-- The value of `render` in `Run`. -/
def render (renderSender renderDuringTraining : Bool) (a : ThreadAgent α) : Bool :=
  let render := renderSender
  if render && renderDuringTraining && a.index != 0 then false else render

/-- Neither spin-wait at the top of the loop of `Run` holds the worker back:
`stepsCollected > maxCollect` is false and `disableCollection` is false. -/
def canTick (disableCollection : Bool) (a : ThreadAgent α) : Bool :=
  !(a.stepsCollected > a.maxCollect) && !disableCollection

/-- What one pass of the loop of `Run` does to the agent once the games have stepped: unless
rendering, the transitions are appended and counted; when rendering nothing is recorded. -/
def tick (renderSender renderDuringTraining : Bool) (done : Nat → Bool)
    (payload : Nat → Nat → α) (a : ThreadAgent α) : ThreadAgent α :=
  if !(render renderSender renderDuringTraining a) then
    let r := appendGames done payload 0 a.trajectories a.stepsCollected
    { a with trajectories := r.1, stepsCollected := r.2 }
  else
    a

/-- The first `k` passes of the loop `while (shouldRun)` of `Run`, the games of pass `p`
answering with `done p` and `payload p`: a pass that finds one of the two spin-waits closed
leaves the agent as it is, any other pass is a `tick`. -/
def passes (renderSender renderDuringTraining disableCollection : Bool)
    (done : Nat → Nat → Bool) (payload : Nat → Nat → Nat → α) : Nat → ThreadAgent α → ThreadAgent α
  | 0, a => a
  | k + 1, a =>
    let a := passes renderSender renderDuringTraining disableCollection done payload k a
    if a.canTick disableCollection then
      a.tick renderSender renderDuringTraining (done k) (payload k)
    else a

/-- Total length of the segments an agent holds. -/
def segmentTotal (a : ThreadAgent α) : Nat :=
  (a.trajectories.map fun trajSet => (trajSet.map fun t => t.size).sum).sum

end ThreadAgent

namespace ThreadAgentManager

variable {α : Type}

/-- The accumulators of the harvest: `trajs` and `totalTimesteps`. -/
abbrev Harvest (α : Type) := List (GameTrajectory α) × Nat

/-- Body of `for (auto& traj : trajSet)` in `CollectTimesteps`.  `totalTimesteps += traj.size`
reads the size after `std::move(traj)`, which leaves that member as it was. -/
def harvestTraj (acc : Harvest α) (traj : GameTrajectory α) :
    Except Fault (Harvest α × GameTrajectory α) :=
  if traj.size > 0 then
    match traj.fixLast with
    | .error e => .error e
    | .ok moved => .ok ((acc.1 ++ [moved], acc.2 + traj.size), traj.Clear)
  else
    .ok (acc, traj)

/-- Body of `for (auto* agent : agents)` in `CollectTimesteps`, under the agent's `trajMutex`. -/
def harvestAgent (acc : Harvest α) (agent : ThreadAgent α) :
    Except Fault (Harvest α × ThreadAgent α) :=
  match mapAccumM (mapAccumM harvestTraj) acc agent.trajectories with
  | .error e => .error e
  | .ok (acc', trajectories) =>
    .ok (acc', { agent with trajectories := trajectories, stepsCollected := 0 })

/-- The sum read by one pass of the wait loop of `CollectTimesteps`. -/
def totalSteps (mgr : ThreadAgentManager α) : Nat :=
  (mgr.agents.map fun agent => agent.stepsCollected).sum

/-- The method `CollectTimesteps(amount)`, given `GameTrajectory::MultiAppend`.  In a state
where the counters sum to less than `amount` the wait loop keeps spinning.  An exception in the
`try` block, and a concatenation of the wrong size, end in `RG_ERR_CLOSE`. -/
def CollectTimesteps
    (MultiAppend : GameTrajectory α → List (GameTrajectory α) → Except Fault (GameTrajectory α))
    (mgr : ThreadAgentManager α) (amount : Nat) :
    Except Fault (GameTrajectory α × ThreadAgentManager α) :=
  if mgr.totalSteps ≥ amount then
    match mapAccumM harvestAgent ([], 0) mgr.agents with
    | .error _ => .error Fault.fatal
    | .ok ((trajs, totalTimesteps), agents) =>
      match MultiAppend GameTrajectory.empty trajs with
      | .error _ => .error Fault.fatal
      | .ok result =>
        if result.size ≠ totalTimesteps then
          .error Fault.fatal
        else
          .ok (result, { mgr with agents := agents })
  else
    .error Fault.spinning

/-- States of the collector pool reachable from newly constructed agents by worker ticks,
harvests and changes of `disableCollection`. -/
inductive Reachable
    (MultiAppend : GameTrajectory α → List (GameTrajectory α) → Except Fault (GameTrajectory α)) :
    ThreadAgentManager α → Prop where
  | init (mgr : ThreadAgentManager α) :
      (∀ a ∈ mgr.agents, ∃ numGames maxCollect playerAmount index,
        a = ThreadAgent.ctor numGames maxCollect playerAmount index) →
      Reachable MultiAppend mgr
  | tick {mgr : ThreadAgentManager α} (pre post : List (ThreadAgent α)) (a : ThreadAgent α)
      (done : Nat → Bool) (payload : Nat → Nat → α) :
      Reachable MultiAppend mgr → mgr.agents = pre ++ a :: post →
      a.canTick mgr.disableCollection = true →
      Reachable MultiAppend
        { mgr with agents :=
            pre ++ a.tick mgr.renderSender mgr.renderDuringTraining done payload :: post }
  | collect {mgr mgr' : ThreadAgentManager α} (amount : Nat) (result : GameTrajectory α) :
      Reachable MultiAppend mgr → CollectTimesteps MultiAppend mgr amount = .ok (result, mgr') →
      Reachable MultiAppend mgr'
  | setDisableCollection {mgr : ThreadAgentManager α} (v : Bool) :
      Reachable MultiAppend mgr → Reachable MultiAppend { mgr with disableCollection := v }

end ThreadAgentManager

/-- A segment holds exactly `size` rows. -/
def GameTrajectory.Exact {α : Type} (t : GameTrajectory α) : Prop := t.size = t.data.length

/-- Every segment of the agent holds exactly `size` rows. -/
def ThreadAgent.Exact {α : Type} (a : ThreadAgent α) : Prop :=
  ∀ trajSet ∈ a.trajectories, ∀ t ∈ trajSet, GameTrajectory.Exact t

namespace ThreadAgentManager

variable {α : Type}

/-- The accumulators agree: `totalTimesteps` is the total size of `trajs`. -/
def Agree (acc : Harvest α) : Prop := acc.2 = (acc.1.map fun t => t.size).sum

/-- A harvested segment: the non-empty stored segment `traj` after the fix of its last row. -/
def Harvested (traj seg : GameTrajectory α) : Prop := 0 < traj.size ∧ traj.fixLast = .ok seg

/-- What the harvest leaves in place of a stored segment. -/
def Emptied (traj traj' : GameTrajectory α) : Prop :=
  traj'.size = 0 ∧ (traj.Exact → traj'.Exact)

/-- What the stored agents are after a harvest. -/
def Drained (a a' : ThreadAgent α) : Prop :=
  a'.stepsCollected = 0 ∧ a'.segmentTotal = 0 ∧ (a.Exact → a'.Exact)

end ThreadAgentManager

/-- A pool of two workers for one-versus-one games: worker 0 runs two games, worker 1 one. -/
def samplePool : ThreadAgentManager Nat :=
  { agents := [ThreadAgent.ctor 2 100 (fun _ => 2) 0, ThreadAgent.ctor 1 100 (fun _ => 2) 1],
    maxCollect := 200, renderSender := false, renderDuringTraining := false,
    disableCollection := false }

/-- The sample pool after worker 0 ticked twice (the second step ending game 1) and worker 1
once. -/
def samplePoolTicked : ThreadAgentManager Nat :=
  { samplePool with
    agents :=
      [((ThreadAgent.ctor 2 100 (fun _ => 2) 0 : ThreadAgent Nat).tick false false
          (fun _ => false) (fun i j => 10 * i + j)).tick false false
          (fun i => i == 1) (fun i j => 100 + 10 * i + j),
       (ThreadAgent.ctor 1 100 (fun _ => 2) 1 : ThreadAgent Nat).tick false false
          (fun _ => false) (fun i j => 200 + 10 * i + j)] }

/-- The result of `CollectTimesteps(6)` on the ticked sample pool (ten rows are waiting). -/
def sampleCollect : GameTrajectory Nat × ThreadAgentManager Nat :=
  match ThreadAgentManager.CollectTimesteps GameTrajectory.MultiAppend samplePoolTicked 6 with
  | .ok p => p
  | .error _ => (GameTrajectory.empty, samplePoolTicked)

/-! ## PPO learner: configuration and loss -/

/-- Modelled from the spec: the fields of `PPOLearnerConfig` (declared in
`PPO/PPOLearnerConfig.h`, which is not among the sources) that `PPOLearner.cpp` reads.  The
sizes are 64-bit integers, the learning rates and coefficients are floats, kept as exact
rationals.  The defaults only make records short to write; no property depends on them. -/
structure PPOLearnerConfig where
  epochs : Int := 0
  batchSize : Int := 0
  miniBatchSize : Int := 0
  clipRange : ℚ := 0
  entCoef : ℚ := 0
  policyLR : ℚ := 0
  criticLR : ℚ := 0
  halfPrecModels : Bool := false
  autocastLearn : Bool := false
  measureGradientNoise : Bool := false
  deriving DecidableEq, Repr

/-- The smallest `int64_t`. -/
def int64Min : Int := -9223372036854775808

/-- The remainder `a % b` of C++ on `int64_t`: it truncates toward zero, and is undefined for a
zero divisor and for `INT64_MIN % -1`. -/
def cRem (a b : Int) : Except Fault Int :=
  if b = 0 ∨ (a = int64Min ∧ b = -1) then .error Fault.undefined else .ok (Int.tmod a b)

namespace PPOLearner

/-- The two checks at the top of the constructor `PPOLearner(obsSpaceSize, actSpaceSize, _config,
_device)`: the value is the `config` the learner stores. -/
def checkConfig (_config : PPOLearnerConfig) : Except Fault PPOLearnerConfig :=
  let config := _config
  let config :=
    if config.miniBatchSize = 0 then { config with miniBatchSize := config.batchSize } else config
  match cRem config.batchSize config.miniBatchSize with
  | .error e => .error e
  | .ok r => if r ≠ 0 then .error Fault.fatal else .ok config

/-- The tensor function `clamp(x, lo, hi)`, entry by entry: `min(max(x, lo), hi)`. -/
def clamp (x lo hi : ℚ) : ℚ := min (max x lo) hi

/-- The reduction `t.mean()` of a non-empty tensor (of an empty one torch gives NaN, which the
rationals do not have; the quotient by zero is 0 here). -/
def mean (t : List ℚ) : ℚ := t.sum / t.length

/-- The policy loss of `fnRunMinibatch`:
`clipped = clamp(ratio, 1 - clipRange, 1 + clipRange)` and
`policyLoss = -min(ratio * advantages, clipped * advantages).mean()`, over exact rationals. -/
def policyLoss (ratio advantages : List ℚ) (clipRange : ℚ) : ℚ :=
  -(mean (List.zipWith min (List.zipWith (fun r a => r * a) ratio advantages)
      (List.zipWith (fun c a => c * a)
        (ratio.map fun r => clamp r (1 - clipRange) (1 + clipRange)) advantages)))

/-- The SB3 clip fraction of `fnRunMinibatch`:
`mean((abs(ratio - 1) > clipRange).to(kFloat))`. -/
def clipFraction (ratio : List ℚ) (clipRange : ℚ) : ℚ :=
  mean (ratio.map fun r => if abs (r - 1) > clipRange then 1 else 0)

end PPOLearner

/-! ## Networks, optimizers and the tensor backend -/

/-- The entries of one parameter tensor, flattened; `numel()` is the length. -/
abbrev ParamTensor := List ℚ

/-- A `torch::nn::Sequential`: its modules, each with its parameter tensors. -/
abbrev Sequential := List (List ParamTensor)

/-- The function `GetSeqSizes(seq)`: `numel()` of every parameter of every module, in order. -/
def GetSeqSizes (seq : Sequential) : List Nat :=
  (seq.map fun module => module.map fun param => param.length).flatten

/-- A `torch::optim::Adam`: its learning rate and its running state (kept opaque). -/
structure Adam where
  lr : ℚ
  state : List ℚ
  deriving DecidableEq, Repr

/-- The test `device.is_cpu()`. -/
def Device.is_cpu : Device → Bool
  | .cpu => true
  | .cuda _ => false

/-- The class `PPOLearner`: networks, half-precision mirrors (absent when the pointer is null),
optimizers, configuration, device, the size of the mini-batch thread pool once it exists, and
the update counter. -/
structure PPOLearner where
  policy : Sequential
  policyHalf : Option Sequential
  valueNet : Sequential
  valueNetHalf : Option Sequential
  policyOptimizer : Adam
  valueOptimizer : Adam
  config : PPOLearnerConfig
  device : Device
  minibatchThreadPool : Option Nat
  cumulativeModelUpdates : Int
  deriving DecidableEq, Repr

/-! ## Running statistics and the stats file -/

/-- A `double`: a finite value (kept exact), an infinity, or NaN. -/
inductive Double where
  | finite (x : ℚ)
  | inf (negative : Bool)
  | nan
  deriving DecidableEq, Repr

/-- The test `std::isnan(v)`. -/
def Double.isnan : Double → Bool
  | .nan => true
  | _ => false

/-- Modelled from the spec: `WelfordRunningStat` (declared in `Util/WelfordRunningStat.h`, which
is not among the sources), with the four members `Learner.cpp` saves and restores. -/
structure WelfordRunningStat where
  runningMean : List Double
  runningVariance : List Double
  shape : Nat
  count : Nat
  deriving DecidableEq, Repr

/-- Modelled from the spec: the constructor `WelfordRunningStat(shape)` starts from zero mean,
zero variance and zero count over `shape` dimensions. -/
def WelfordRunningStat.ctor (shape : Nat) : WelfordRunningStat :=
  { runningMean := List.replicate shape (Double.finite 0),
    runningVariance := List.replicate shape (Double.finite 0), shape := shape, count := 0 }

/-- An entry of a JSON array of numbers as read back from a file: the JSON library writes a
finite number so that it parses to the same value, and writes `null` for a non-finite one. -/
inductive JsonNumber where
  | number (x : ℚ)
  | null
  deriving DecidableEq, Repr

/-- What `dump` followed by `parse` makes of a `double` stored in a JSON value. -/
def Double.dump : Double → JsonNumber
  | .finite x => .number x
  | _ => .null

/-- The conversion `get<double>()` of a parsed entry; `null` is a type error, which throws. -/
def JsonNumber.getDouble : JsonNumber → Except Fault Double
  | .number x => .ok (Double.finite x)
  | .null => .error Fault.backend

/-- The template `MakeJSONArray(list)`: the values that are not NaN, in order. -/
def MakeJSONArray (list : List Double) : List Double :=
  list.filter fun v => !v.isnan

/-- The value under `"skill_rating"`: an object of ratings per mode, or one number. -/
inductive SkillJson where
  | perMode (ratings : List (String × ℚ))
  | single (rating : ℚ)
  deriving DecidableEq, Repr

/-- The JSON document of a stats file as `json::parse` returns it. -/
structure StatsJson where
  cumulative_timesteps : Nat
  cumulative_model_updates : Int
  epoch : Nat
  skill_rating : Option SkillJson
  mean : List JsonNumber
  var : List JsonNumber
  shape : Nat
  count : Nat
  run_id : Option String
  deriving DecidableEq, Repr

/-! ## Files -/

/-- What a file holds: a stats document, a saved network, a saved optimizer, or other bytes
(`raw ""` is an empty file). -/
inductive FileContent where
  | stats (j : StatsJson)
  | model (seq : Sequential)
  | optim (state : Adam)
  | raw (bytes : String)
  deriving DecidableEq, Repr

/-- A `std::filesystem::path`, by components; the empty path is the empty list. -/
abbrev Path := List String

/-- A node of the file system. -/
inductive Node where
  | dir
  | file (content : FileContent)
  deriving DecidableEq, Repr

/-- The file system: the nodes that exist, by path. -/
abbrev FileSystem := List (Path × Node)

/-- An entry produced by `std::filesystem::directory_iterator`. -/
structure DirEntry where
  name : String
  isDirectory : Bool
  deriving DecidableEq, Repr

namespace FileSystem

/-- The node at a path, if the path exists. -/
def node (fs : FileSystem) (p : Path) : Option Node :=
  (fs.find? fun e => e.1 == p).map fun e => e.2

/-- The test `std::filesystem::exists(p)`. -/
def pathExists (fs : FileSystem) (p : Path) : Bool := (fs.node p).isSome

/-- The test `std::filesystem::is_directory(p)`. -/
def is_directory (fs : FileSystem) (p : Path) : Bool := fs.node p == some Node.dir

/-- The content an input stream on `p` reads; `none` when the stream is not `good()`. -/
def read (fs : FileSystem) (p : Path) : Option FileContent :=
  match fs.node p with
  | some (Node.file content) => some content
  | _ => none

/-- The entries of `std::filesystem::directory_iterator(p)`; the constructor throws when `p` is
not a directory. -/
def directory_iterator (fs : FileSystem) (p : Path) : Except Fault (List DirEntry) :=
  if fs.is_directory p then
    .ok (fs.filterMap fun e =>
      match e.1.getLast? with
      | some name =>
        if e.1.dropLast == p then some { name := name, isDirectory := e.2 == Node.dir } else none
      | none => none)
  else
    .error Fault.backend

/-- Opening an output stream on `p` and writing `content`; `none` when the stream cannot be
opened (the parent is not a directory, or `p` is a directory).  A one-component path lies in
the working directory. -/
def write (fs : FileSystem) (p : Path) (content : FileContent) : Option FileSystem :=
  if p == [] || fs.is_directory p || !(p.dropLast == [] || fs.is_directory p.dropLast) then
    none
  else
    some ((fs.filter fun e => !(e.1 == p)) ++ [(p, Node.file content)])

/-- The call `std::filesystem::create_directories(p, ec)`; `none` when `ec` is set (a
component of `p` exists and is not a directory). -/
def create_directories (fs : FileSystem) (p : Path) : Option FileSystem :=
  (List.range (p.length + 1)).foldl
    (fun acc k =>
      match acc with
      | none => none
      | some fs =>
        let q := p.take k
        if q == [] || fs.is_directory q then some fs
        else if fs.pathExists q then none
        else some (fs ++ [(q, Node.dir)]))
    (some fs)

/-- The call `std::filesystem::remove_all(p, ec)`: `p` and everything below it goes; a path
that does not exist is not an error. -/
def remove_all (fs : FileSystem) (p : Path) : FileSystem :=
  fs.filter fun e => !(p.isPrefixOf e.1)

end FileSystem

/-- The test `isspace(c)` of the C locale. -/
def isspace (c : Char) : Bool :=
  c == ' ' || c == '\t' || c == '\n' || c == '\x0b' || c == '\x0c' || c == '\r'

/-- The largest `int64_t`. -/
def int64Max : Int := 9223372036854775807

/-- The function `std::stoll(str)`: leading white space is skipped, an optional sign and the
longest run of decimal digits are read, and what follows is ignored.  `none` stands for the two
exceptions: `invalid_argument` when there is no digit, `out_of_range` when the value does not
fit `int64_t`. -/
def stoll (str : String) : Option Int :=
  let s := str.toList.dropWhile isspace
  let negative := s.head? == some '-'
  let s := if s.head? == some '-' || s.head? == some '+' then s.drop 1 else s
  let digits := s.takeWhile Char.isDigit
  if digits == [] then
    none
  else
    let magnitude : Int := digits.foldl (fun acc c => 10 * acc + (c.toNat - 48 : Nat)) 0
    let value := if negative then -magnitude else magnitude
    if value < int64Min || value > int64Max then none else some value

/-- The function `std::to_string` on an integer: its decimal form. -/
def to_string (v : Int) : String := toString v

/-! ## Single-precision arithmetic -/

/-- Rounding to the nearest integer, a tie going to the even one. -/
def roundHalfEven (q : ℚ) : Int :=
  let f := ⌊q⌋
  if q - f < 1 / 2 then f
  else if 1 / 2 < q - f then f + 1
  else if f % 2 = 0 then f else f + 1

/-- The value of the C++ type `float` (IEEE 754 binary32, rounding to nearest, ties to even)
that a conversion or an arithmetic operation with the exact result `x` yields: `x` is rounded to
a multiple of `2 ^ (e - 23)`, where `2 ^ e <= |x| < 2 ^ (e + 1)` and `e` is at least `-126`.
Overflow to infinity is left out: the function is applied to 64-bit integers and to products
and quotients of their conversions, which stay far below `2 ^ 128`. -/
def float32 (x : ℚ) : ℚ :=
  let e := max (Int.log 2 |x|) (-126)
  let ulp : ℚ := 2 ^ (e - 23)
  roundHalfEven (x / ulp) * ulp

/-! ## The tensor backend seen from the learner -/

/-- The operations of the tensor library the learner calls on networks and optimizers, kept
abstract.  `Grads` is the content of the `.grad` buffers of one network; `policyBackward` and
`valueBackward` are the forward pass, loss and `backward()` of one mini-batch `[start, stop)`,
accumulating into the buffers; `step` is `optimizer->step()`; `toHalf` is the cast done by
`_CopyModelParamsHalf`; `load` is `torch::load(seq, stream, device)` and `loadOptim` is
`optim->load(archive)`, both of which may throw. -/
structure Torch (α : Type) where
  Grads : Type
  zero_grad : Grads
  policyBackward : Sequential → SampleSet α → Int → Int → ℚ → PPOLearnerConfig → Grads → Grads
  valueBackward : Sequential → SampleSet α → Int → Int → ℚ → Grads → Grads
  clip_grad_norm_ : Grads → Grads
  step : Adam → Sequential → Grads → Adam × Sequential
  toHalf : Sequential → Sequential
  load : Sequential → FileContent → Except Fault Sequential
  loadOptim : Adam → FileContent → Except Fault Adam

namespace PPOLearner

variable {E : RandomEngine} {α : Type}

/-- The locals of `Learn` that outlive a batch, with the learner itself. -/
structure LearnState where
  ppo : PPOLearner
  numIterations : Int
  numMinibatchIterations : Int
  deriving DecidableEq, Repr

/-- The loop `for (int mbs = 0; mbs < config.batchSize; mbs += stride)` of both dispatch
branches, collecting the `(start, stop)` pairs handed to `fnRunMinibatch`, with
`stop = min(start + stride, config.batchSize)`.  On the CPU branch `stride` is
`realMinibatchSize`, on the other branch it is `config.miniBatchSize`. -/
def dispatchLoop (batchSize stride : Int) :
    Nat → Int → List (Int × Int) → Except Fault (List (Int × Int))
  | 0, _, _ => .error Fault.fuel
  | fuel + 1, mbs, jobs =>
    if mbs < batchSize then
      let start := mbs
      let stop := min (start + stride) batchSize
      dispatchLoop batchSize stride fuel (mbs + stride) (jobs ++ [(start, stop)])
    else
      .ok jobs

/-- The local `float batchSizeRatio = (stop - start) / static_cast<float>(config.batchSize)` of
`fnRunMinibatch`: the `int` difference and the batch size are converted to `float` and divided
in single precision.  The lambda is only called inside the dispatch loops, where
`config.batchSize` is positive. -/
def batchSizeRatio (ppo : PPOLearner) (job : Int × Int) : ℚ :=
  let start := job.1
  let stop := job.2
  float32 (float32 ((stop - start : Int) : ℚ) / float32 (ppo.config.batchSize : ℚ))

/-- The lambda `fnRunMinibatch(start, stop)` as far as gradients go: each network that is
trained accumulates the gradient of its loss scaled by `batchSizeRatio`. -/
def fnRunMinibatch (T : Torch α) (ppo : PPOLearner) (batch : SampleSet α)
    (trainPolicy trainCritic : Bool) (grads : T.Grads × T.Grads) (job : Int × Int) :
    T.Grads × T.Grads :=
  let start := job.1
  let stop := job.2
  let batchSizeRatio : ℚ := batchSizeRatio ppo job
  let policyGrads :=
    if trainPolicy then
      T.policyBackward ppo.policy batch start stop batchSizeRatio ppo.config grads.1
    else grads.1
  let valueGrads :=
    if trainCritic then T.valueBackward ppo.valueNet batch start stop batchSizeRatio grads.2
    else grads.2
  (policyGrads, valueGrads)

/-- The `(start, stop)` pairs one batch is cut into.  On CPU the thread pool is created on first
use with `hardware_concurrency() * 3 / 2` threads (`numThreads += numThreads / 2`) and the
stride is `batchSize / threads.size()`, a division by zero when the pool is empty; elsewhere the
stride is `miniBatchSize`.  The loop gets `batchSize + 1` units of fuel, which is enough
whenever the stride is positive; with a stride of zero or less the source loop does not end.
Returns the pool as well. -/
def dispatch (hardware_concurrency : Nat) (ppo : PPOLearner) :
    Except Fault (List (Int × Int) × Option Nat) :=
  if ppo.device.is_cpu then
    let pool : Nat :=
      match ppo.minibatchThreadPool with
      | some threads => threads
      | none => hardware_concurrency + hardware_concurrency / 2
    if pool = 0 then
      .error Fault.undefined
    else
      let realMinibatchSize := Int.tdiv ppo.config.batchSize (pool : Int)
      match dispatchLoop ppo.config.batchSize realMinibatchSize
          (ppo.config.batchSize.toNat + 1) 0 [] with
      | .error e => .error e
      | .ok jobs => .ok (jobs, some pool)
  else
    match dispatchLoop ppo.config.batchSize ppo.config.miniBatchSize
        (ppo.config.batchSize.toNat + 1) 0 [] with
    | .error e => .error e
    | .ok jobs => .ok (jobs, ppo.minibatchThreadPool)

/-- The body of `for (auto& batch : batches)` in `Learn`: gradients are zeroed, the mini-batches
run (on CPU concurrently; their accumulation is taken in dispatch order), gradients are
clipped, each trained network takes one optimizer step, and the mirrors are refreshed. -/
def learnBatch (T : Torch α) (hardware_concurrency : Nat) (trainPolicy trainCritic : Bool)
    (st : LearnState) (batch : SampleSet α) : Except Fault LearnState :=
  match dispatch hardware_concurrency st.ppo with
  | .error e => .error e
  | .ok (jobs, pool) =>
    let ppo := { st.ppo with minibatchThreadPool := pool }
    let grads := jobs.foldl (fnRunMinibatch T ppo batch trainPolicy trainCritic)
      (T.zero_grad, T.zero_grad)
    let policyGrads := if trainPolicy then T.clip_grad_norm_ grads.1 else grads.1
    let valueGrads := if trainCritic then T.clip_grad_norm_ grads.2 else grads.2
    let policyStep :=
      if trainPolicy then T.step ppo.policyOptimizer ppo.policy policyGrads
      else (ppo.policyOptimizer, ppo.policy)
    let valueStep :=
      if trainCritic then T.step ppo.valueOptimizer ppo.valueNet valueGrads
      else (ppo.valueOptimizer, ppo.valueNet)
    .ok { ppo := { ppo with
            policyOptimizer := policyStep.1, policy := policyStep.2,
            valueOptimizer := valueStep.1, valueNet := valueStep.2,
            policyHalf := ppo.policyHalf.map fun _ => T.toHalf policyStep.2,
            valueNetHalf := ppo.valueNetHalf.map fun _ => T.toHalf valueStep.2 },
          numIterations := st.numIterations + 1,
          numMinibatchIterations := st.numMinibatchIterations + jobs.length }

/-- The loop `for (auto& batch : batches)`. -/
def learnBatches (T : Torch α) (hardware_concurrency : Nat) (trainPolicy trainCritic : Bool) :
    LearnState → List (SampleSet α) → Except Fault LearnState
  | st, [] => .ok st
  | st, batch :: rest =>
    match learnBatch T hardware_concurrency trainPolicy trainCritic st batch with
    | .error e => .error e
    | .ok st' => learnBatches T hardware_concurrency trainPolicy trainCritic st' rest

/-- The loop `for (int epoch = 0; epoch < config.epochs; epoch++)`, by the number of passes
left. -/
def learnEpochs (T : Torch α) (hardware_concurrency : Nat) (trainPolicy trainCritic : Bool) :
    Nat → LearnState → ExperienceBuffer E α → Except Fault (LearnState × ExperienceBuffer E α)
  | 0, st, expBuffer => .ok (st, expBuffer)
  | epochs + 1, st, expBuffer =>
    match expBuffer.GetAllBatchesShuffled st.ppo.config.batchSize with
    | .error e => .error e
    | .ok (batches, expBuffer') =>
      match learnBatches T hardware_concurrency trainPolicy trainCritic st batches with
      | .error e => .error e
      | .ok st' => learnEpochs T hardware_concurrency trainPolicy trainCritic epochs st' expBuffer'

/-- The method `Learn(expBuffer, report)`, in a build with (`cudaSupport = true`) or without
`RG_CUDA_SUPPORT`.  Of the report only the update counter is kept. -/
def Learn (T : Torch α) (cudaSupport : Bool) (hardware_concurrency : Nat) (ppo : PPOLearner)
    (expBuffer : ExperienceBuffer E α) : Except Fault (PPOLearner × ExperienceBuffer E α) :=
  let autocast := ppo.config.autocastLearn
  if autocast && !cudaSupport then
    .error Fault.fatal
  else
    let trainPolicy := decide (ppo.config.policyLR ≠ 0)
    let trainCritic := decide (ppo.config.criticLR ≠ 0)
    match learnEpochs T hardware_concurrency trainPolicy trainCritic ppo.config.epochs.toNat
        { ppo := ppo, numIterations := 0, numMinibatchIterations := 0 } expBuffer with
    | .error e => .error e
    | .ok (st, expBuffer') =>
      let numIterations := max st.numIterations 1
      .ok ({ st.ppo with cumulativeModelUpdates := st.ppo.cumulativeModelUpdates + numIterations },
           expBuffer')

/-- The array `MODEL_FILE_NAMES`, by index. -/
def MODEL_FILE_NAMES : Nat → String
  | 0 => "PPO_POLICY.lt"
  | _ => "PPO_CRITIC.lt"

/-- The array `OPTIM_FILE_NAMES`, by index. -/
def OPTIM_FILE_NAMES : Nat → String
  | 0 => "PPO_POLICY_OPTIM.lt"
  | _ => "PPO_CRITIC_OPTIM.lt"

/-- The function `TorchLoadSaveSeq(seq, path, device, load)`: the network and the file system
afterwards. -/
def TorchLoadSaveSeq (T : Torch α) (seq : Sequential) (path : Path) (load : Bool)
    (fs : FileSystem) : Except Fault (Sequential × FileSystem) :=
  if load then
    match fs.read path with
    | none => .error Fault.fatal
    | some streamIn =>
      let sizesBefore := GetSeqSizes seq
      match T.load seq streamIn with
      | .error _ => .error Fault.fatal
      | .ok seq' =>
        let sizesAfter := GetSeqSizes seq'
        if sizesBefore ≠ sizesAfter then .error Fault.fatal else .ok (seq', fs)
  else
    match fs.write path (FileContent.model seq) with
    | none => .error Fault.fatal
    | some fs' => .ok (seq, fs')

/-- One pass of the loop that loads an optimizer in `TorchLoadSaveAll`: a missing or empty file
leaves the optimizer as it is (a warning is logged); an exception is fatal. -/
def loadOptimizer (T : Torch α) (optim : Adam) (path : Path) (fs : FileSystem) :
    Except Fault Adam :=
  if !fs.pathExists path then
    .ok optim
  else if fs.read path == some (FileContent.raw "") then
    .ok optim
  else
    match fs.read path with
    | none => .error Fault.fatal
    | some content =>
      match T.loadOptim optim content with
      | .error _ => .error Fault.fatal
      | .ok optim' => .ok optim'

/-- The function `TorchLoadSaveAll(learner, folderPath, load)`. -/
def TorchLoadSaveAll (T : Torch α) (learner : PPOLearner) (folderPath : Path) (load : Bool)
    (fs : FileSystem) : Except Fault (PPOLearner × FileSystem) :=
  if load && !fs.pathExists (folderPath ++ [(MODEL_FILE_NAMES 0)]) then
    .error Fault.fatal
  else
    match TorchLoadSaveSeq T learner.policy (folderPath ++ [(MODEL_FILE_NAMES 0)]) load fs with
    | .error e => .error e
    | .ok (policy, fs₁) =>
      match
        (if !load || fs₁.pathExists (folderPath ++ [(MODEL_FILE_NAMES 1)]) then
          TorchLoadSaveSeq T learner.valueNet (folderPath ++ [(MODEL_FILE_NAMES 1)]) load fs₁
        else .ok (learner.valueNet, fs₁)) with
      | .error e => .error e
      | .ok (valueNet, fs₂) =>
        let learner := { learner with policy := policy, valueNet := valueNet }
        let learner :=
          if load then
            { learner with
              policyHalf := learner.policyHalf.map fun _ => T.toHalf learner.policy,
              valueNetHalf := learner.valueNetHalf.map fun _ => T.toHalf learner.valueNet }
          else learner
        if load then
          match loadOptimizer T learner.policyOptimizer
              (folderPath ++ [OPTIM_FILE_NAMES 0]) fs₂ with
          | .error e => .error e
          | .ok policyOptimizer =>
            match loadOptimizer T learner.valueOptimizer
                (folderPath ++ [OPTIM_FILE_NAMES 1]) fs₂ with
            | .error e => .error e
            | .ok valueOptimizer =>
              .ok ({ learner with policyOptimizer := policyOptimizer,
                                  valueOptimizer := valueOptimizer }, fs₂)
        else
          match fs₂.write (folderPath ++ [OPTIM_FILE_NAMES 0])
              (FileContent.optim learner.policyOptimizer) with
          | none => .error Fault.backend
          | some fs₃ =>
            match fs₃.write (folderPath ++ [OPTIM_FILE_NAMES 1])
                (FileContent.optim learner.valueOptimizer) with
            | none => .error Fault.backend
            | some fs₄ => .ok (learner, fs₄)

/-- The method `SaveTo(folderPath)`. -/
def SaveTo (T : Torch α) (learner : PPOLearner) (folderPath : Path) (fs : FileSystem) :
    Except Fault FileSystem :=
  match TorchLoadSaveAll T learner folderPath false fs with
  | .error e => .error e
  | .ok (_, fs') => .ok fs'

/-- The method `UpdateLearningRates(policyLR, criticLR)`. -/
def UpdateLearningRates (learner : PPOLearner) (policyLR criticLR : ℚ) : PPOLearner :=
  { learner with
    config := { learner.config with policyLR := policyLR, criticLR := criticLR },
    policyOptimizer := { learner.policyOptimizer with lr := policyLR },
    valueOptimizer := { learner.valueOptimizer with lr := criticLR } }

/-- The method `LoadFrom(folderPath)`. -/
def LoadFrom (T : Torch α) (learner : PPOLearner) (folderPath : Path) (fs : FileSystem) :
    Except Fault PPOLearner :=
  if !fs.is_directory folderPath then
    .error Fault.fatal
  else
    match TorchLoadSaveAll T learner folderPath true fs with
    | .error e => .error e
    | .ok (learner', _) =>
      .ok (learner'.UpdateLearningRates learner'.config.policyLR learner'.config.criticLR)

end PPOLearner

/-! ## Learner -/

/-- The class `MetricSender`, as far as the learner reads it. -/
structure MetricSender where
  curRunID : String
  deriving DecidableEq, Repr

/-- Modelled from the spec: the skill tracker (declared in `Util/SkillTracker.h`, which is not
among the sources), as far as the stats file goes: whether ratings are kept per mode, and the
current ratings by mode name. -/
structure SkillTracker where
  perModeRatings : Bool
  curRating : List (String × ℚ)
  deriving DecidableEq, Repr

/-- Modelled from the spec: the enumeration `LearnerDeviceType` (declared in `LearnerConfig.h`,
which is not among the sources), with the three values `Learner.cpp` names. -/
inductive LearnerDeviceType where
  | AUTO
  | CPU
  | GPU_CUDA
  deriving DecidableEq, Repr

/-- Modelled from the spec: the fields of `LearnerConfig` (declared in `LearnerConfig.h`, which
is not among the sources) that the modelled part of `Learner.cpp` reads.  Step counts and the
step limit are counts (0 for no limit); an unset folder is the empty path.  The defaults only
make records short to write; no property depends on them. -/
structure LearnerConfig where
  ppo : PPOLearnerConfig := {}
  timestepsPerIteration : Nat := 0
  timestepsPerSave : Int := 0
  timestepLimit : Nat := 0
  checkpointSaveFolder : Path := []
  checkpointLoadFolder : Path := []
  checkpointsToKeep : Int := 0
  sendMetrics : Bool := false
  collectionDuringLearn : Bool := false
  deterministic : Bool := false
  numThreads : Int := 0
  numGamesPerThread : Int := 0
  renderMode : Bool := false
  renderDuringTraining : Bool := false
  standardizeOBS : Bool := false
  saveFolderAddUnixTimestamp : Bool := false
  deviceType : LearnerDeviceType := LearnerDeviceType.AUTO
  expBufferSize : Nat := 0
  randomSeed : Int := 0
  skillTrackerEnabled : Bool := false
  skillTrackerPerModeRatings : Bool := false
  deriving DecidableEq, Repr

/-- The class `Learner`: configuration, the learner, pool and buffer it owns, the optional
metric sender and skill tracker (absent when the pointer is null), and its counters. -/
structure Learner (E : RandomEngine) (α β : Type) where
  config : LearnerConfig
  ppo : PPOLearner
  agentMgr : ThreadAgentManager β
  expBuffer : ExperienceBuffer E α
  metricSender : Option MetricSender
  skillTracker : Option SkillTracker
  runID : String
  totalTimesteps : Nat
  totalEpochs : Nat
  returnStats : WelfordRunningStat

/-- What surrounds the learner and is not modelled in itself: the tensor backend, the build flag
`RG_CUDA_SUPPORT`, `std::thread::hardware_concurrency()`, `GameTrajectory::MultiAppend`, what the
worker threads do to the pool while the learner waits for steps, `Learner::AddNewExperience`
(which reads the value network and updates the return statistics and the buffer), the skill
tracker's `RunGames` and `LoadRatingSet`. -/
structure World (E : RandomEngine) (α β : Type) where
  torch : Torch α
  cudaSupport : Bool
  hardware_concurrency : Nat
  MultiAppend : GameTrajectory β → List (GameTrajectory β) → Except Fault (GameTrajectory β)
  workers : ThreadAgentManager β → ThreadAgentManager β
  AddNewExperience : PPOLearner → WelfordRunningStat → ExperienceBuffer E α → GameTrajectory β →
    Except Fault (WelfordRunningStat × ExperienceBuffer E α)
  RunGames : SkillTracker → Sequential → Nat → SkillTracker
  LoadRatingSet : SkillJson → List (String × ℚ)

/-- The calls an iteration of `Learner::Learn` makes, as they are logged by the model. -/
inductive Event where
  | SetStepCallback
  | CollectTimesteps (amount : Nat)
  | AddNewExperience
  | Learn
  | RunGames
  | GetMetrics
  | DisplayReport
  | Send
  | Save
  | ResetMetrics
  deriving DecidableEq, Repr

/-- The file name `STATS_FILE_NAME`. -/
def STATS_FILE_NAME : String := "RUNNING_STATS.json"

/-- The conversion `get<std::vector<double>>()` of a parsed array. -/
def getDoubles : List JsonNumber → Except Fault (List Double)
  | [] => .ok []
  | x :: xs =>
    match x.getDouble with
    | .error e => .error e
    | .ok v =>
      match getDoubles xs with
      | .error e => .error e
      | .ok vs => .ok (v :: vs)

namespace Learner

variable {E : RandomEngine} {α β : Type}

/-- The JSON document `SaveStats` builds, as it reads back from the file; `none` when
`metricSender->curRunID` dereferences a null pointer. -/
def statsJson (l : Learner E α β) : Option StatsJson :=
  let skill_rating :=
    match l.skillTracker with
    | none => none
    | some skillTracker =>
      if skillTracker.perModeRatings then some (SkillJson.perMode skillTracker.curRating)
      else some (SkillJson.single ((skillTracker.curRating.lookup "").getD 0))
  let run_id : Option (Option String) :=
    if l.config.sendMetrics then
      match l.metricSender with
      | none => none
      | some metricSender => some (some metricSender.curRunID)
    else some none
  run_id.map fun run_id =>
    { cumulative_timesteps := l.totalTimesteps,
      cumulative_model_updates := l.ppo.cumulativeModelUpdates,
      epoch := l.totalEpochs,
      skill_rating := skill_rating,
      mean := (MakeJSONArray l.returnStats.runningMean).map Double.dump,
      var := (MakeJSONArray l.returnStats.runningVariance).map Double.dump,
      shape := l.returnStats.shape,
      count := l.returnStats.count,
      run_id := run_id }

/-- The method `SaveStats(path)`: the file system afterwards. -/
def SaveStats (l : Learner E α β) (path : Path) (fs : FileSystem) : Except Fault FileSystem :=
  if (fs.write path (FileContent.raw "")).isNone then
    .error Fault.fatal
  else
    match l.statsJson with
    | none => .error Fault.undefined
    | some j =>
      match fs.write path (FileContent.stats j) with
      | none => .error Fault.fatal
      | some fs' => .ok fs'

/-- The method `LoadStats(path)`: the learner afterwards.  A file that is not a stats document
makes `json::parse` throw. -/
def LoadStats (LoadRatingSet : SkillJson → List (String × ℚ)) (l : Learner E α β) (path : Path)
    (fs : FileSystem) : Except Fault (Learner E α β) :=
  match fs.read path with
  | none => .error Fault.fatal
  | some (FileContent.stats j) =>
    let skillTracker :=
      match l.skillTracker, j.skill_rating with
      | some skillTracker, some rating =>
        some { skillTracker with curRating := LoadRatingSet rating }
      | skillTracker, _ => skillTracker
    match getDoubles j.mean with
    | .error e => .error e
    | .ok runningMean =>
      match getDoubles j.var with
      | .error e => .error e
      | .ok runningVariance =>
        .ok { l with
              totalTimesteps := j.cumulative_timesteps,
              ppo := { l.ppo with cumulativeModelUpdates := j.cumulative_model_updates },
              totalEpochs := j.epoch,
              skillTracker := skillTracker,
              returnStats :=
                { WelfordRunningStat.ctor j.shape with
                  runningMean := runningMean, runningVariance := runningVariance,
                  count := j.count },
              runID := match j.run_id with
                | some run_id => run_id
                | none => l.runID }
  | some _ => .error Fault.backend

/-- The loop of `Save` over the entries of a folder: the number of directories whose name
`std::stoll` accepts, and the lowest value read. -/
def countCheckpoints (entries : List DirEntry) : Int × Int :=
  entries.foldl
    (fun acc entry =>
      if entry.isDirectory then
        match stoll entry.name with
        | some nameVal => (acc.1 + 1, min nameVal acc.2)
        | none => acc
      else acc)
    (0, int64Max)

/-- The method `Save()`: the file system afterwards. -/
def Save (T : Torch α) (l : Learner E α β) (fs : FileSystem) : Except Fault FileSystem :=
  if l.config.checkpointSaveFolder = [] then
    .error Fault.fatal
  else
    let saveFolder := l.config.checkpointSaveFolder ++ [to_string l.totalTimesteps]
    match fs.create_directories saveFolder with
    | none => .error Fault.fatal
    | some fs₁ =>
      match l.SaveStats (saveFolder ++ [STATS_FILE_NAME]) fs₁ with
      | .error e => .error e
      | .ok fs₂ =>
        match l.ppo.SaveTo T saveFolder fs₂ with
        | .error e => .error e
        | .ok fs₃ =>
          if l.config.checkpointsToKeep ≠ -1 then
            match fs₃.directory_iterator l.config.checkpointLoadFolder with
            | .error e => .error e
            | .ok entries =>
              let numCheckpoints := (countCheckpoints entries).1
              let lowestCheckpointTS := (countCheckpoints entries).2
              if numCheckpoints > l.config.checkpointsToKeep then
                let removePath := l.config.checkpointLoadFolder ++ [to_string lowestCheckpointTS]
                .ok (fs₃.remove_all removePath)
              else
                .ok fs₃
          else
            .ok fs₃

/-- The first loop of `Load`: the highest value `std::stoll` reads from the names of the
directories in the load folder, or -1. -/
def highestCheckpoint (fs : FileSystem) (checkpointLoadFolder : Path) : Int :=
  if fs.is_directory checkpointLoadFolder then
    match fs.directory_iterator checkpointLoadFolder with
    | .error _ => -1
    | .ok entries =>
      entries.foldl
        (fun highest entry =>
          if entry.isDirectory then
            match stoll entry.name with
            | some nameVal => max nameVal highest
            | none => highest
          else highest)
        (-1)
  else
    -1

/-- The two calls by which `Load` loads the checkpoint directory `loadFolder`:
`LoadStats(loadFolder / STATS_FILE_NAME)` and `ppo->LoadFrom(loadFolder)`. -/
def loadCheckpoint (T : Torch α) (LoadRatingSet : SkillJson → List (String × ℚ))
    (l : Learner E α β) (loadFolder : Path) (fs : FileSystem) : Except Fault (Learner E α β) :=
  match l.LoadStats LoadRatingSet (loadFolder ++ [STATS_FILE_NAME]) fs with
  | .error e => .error e
  | .ok l₁ =>
    match l₁.ppo.LoadFrom T loadFolder fs with
    | .error e => .error e
    | .ok ppo => .ok { l₁ with ppo := ppo }

/-- The method `Load()`, without the optional pass that loads older policies for the skill
tracker (`skillTrackerConfig.loadOldVersionsFromCheckpoints` off). -/
def Load (T : Torch α) (LoadRatingSet : SkillJson → List (String × ℚ)) (l : Learner E α β)
    (fs : FileSystem) : Except Fault (Learner E α β) :=
  if l.config.checkpointLoadFolder = [] then
    .error Fault.fatal
  else
    let highest := highestCheckpoint fs l.config.checkpointLoadFolder
    if highest ≠ -1 then
      let loadFolder := l.config.checkpointLoadFolder ++ [to_string highest]
      l.loadCheckpoint T LoadRatingSet loadFolder fs
    else
      .ok l

/-- The state of the loop of `Learner::Learn`: the learner, the file system, the local
`tsSinceSave`, and the log of the calls made so far. -/
structure LoopState (E : RandomEngine) (α β : Type) where
  learner : Learner E α β
  fs : FileSystem
  tsSinceSave : Int
  log : List Event

/-- The condition of the loop of `Learner::Learn`. -/
def loopCondition (l : Learner E α β) : Bool :=
  decide (l.totalTimesteps < l.config.timestepLimit) || l.config.timestepLimit == 0

/-- The end of an iteration of `Learner::Learn`, from `tsSinceSave += timestepsCollected` on:
the checkpoint when one is due, then `ResetMetrics`. -/
def saveIfDue (W : World E α β) (s : LoopState E α β) (timestepsCollected : Nat) :
    Except Fault (LoopState E α β) :=
  let tsSinceSave := s.tsSinceSave + timestepsCollected
  if tsSinceSave > s.learner.config.timestepsPerSave
      ∧ s.learner.config.checkpointSaveFolder ≠ [] then
    match s.learner.Save W.torch s.fs with
    | .error e => .error e
    | .ok fs' =>
      .ok { s with fs := fs', tsSinceSave := 0,
                   log := s.log ++ [Event.Save, Event.ResetMetrics] }
  else
    .ok { s with tsSinceSave := tsSinceSave, log := s.log ++ [Event.ResetMetrics] }

/-- The assignment `agentMgr->disableCollection = value`. -/
def setDisableCollection (l : Learner E α β) (value : Bool) : Learner E α β :=
  { l with agentMgr := { l.agentMgr with disableCollection := value } }

/-- The learning half of an iteration of `Learner::Learn` up to the call of `ppo->Learn`:
collection is paused unless `collectionDuringLearn`, `AddNewExperience` runs over the collected
steps (an exception is fatal), `config.deterministic` is fatal, and collection is paused when
`blockAgentInferDuringLearn`.  The value is the learner as it is when `ppo->Learn` is called. -/
def beforeLearn (W : World E α β) (l : Learner E α β) (timesteps : GameTrajectory β) :
    Except Fault (Learner E α β) :=
  let l := if !l.config.collectionDuringLearn then l.setDisableCollection true else l
  match W.AddNewExperience l.ppo l.returnStats l.expBuffer timesteps with
  | .error _ => .error Fault.fatal
  | .ok (returnStats, expBuffer) =>
    let l := { l with returnStats := returnStats, expBuffer := expBuffer }
    let blockAgentInferDuringLearn := l.config.collectionDuringLearn && !l.ppo.device.is_cpu
    if l.config.deterministic then
      .error Fault.fatal
    else
      .ok (if blockAgentInferDuringLearn then l.setDisableCollection true else l)

/-- The learning half of an iteration of `Learner::Learn`, from the pause of collection to
`totalEpochs += config.ppo.epochs`: `AddNewExperience` over the collected steps, then
`ppo->Learn`.  An exception from either is fatal, and so is `config.deterministic`. -/
def learnPhase (W : World E α β) (l : Learner E α β) (timesteps : GameTrajectory β) :
    Except Fault (Learner E α β) :=
  match beforeLearn W l timesteps with
  | .error e => .error e
  | .ok l =>
    let blockAgentInferDuringLearn := l.config.collectionDuringLearn && !l.ppo.device.is_cpu
    match PPOLearner.Learn W.torch W.cudaSupport W.hardware_concurrency l.ppo l.expBuffer with
    | .error _ => .error Fault.fatal
    | .ok (ppo, expBuffer) =>
      let l := { l with ppo := ppo, expBuffer := expBuffer }
      let l := if blockAgentInferDuringLearn then l.setDisableCollection false else l
      .ok { l with
            totalEpochs := ((l.totalEpochs + l.config.ppo.epochs) % 18446744073709551616).toNat }

/-- The reporting half of an iteration of `Learner::Learn`: the skill tracker's games when there
is a skill tracker, `GetMetrics`, the end of the pause of collection, `DisplayReport`, and
`metricSender->Send(report)` when `sendMetrics` is on, which dereferences a null pointer when no
sender exists.  Returns the learner and the calls made.  The optional `iterationCallback` is
user code and is taken as unset. -/
def reportPhase (W : World E α β) (l : Learner E α β) (timestepsCollected : Nat) :
    Except Fault (Learner E α β × List Event) :=
  let games := if l.skillTracker.isSome then [Event.RunGames] else []
  let l := { l with
    skillTracker := l.skillTracker.map fun skillTracker =>
      W.RunGames skillTracker l.ppo.policy timestepsCollected }
  let l := if !l.config.collectionDuringLearn then l.setDisableCollection false else l
  if l.config.sendMetrics ∧ l.metricSender.isNone then
    .error Fault.undefined
  else
    .ok (l, games ++ [Event.GetMetrics, Event.DisplayReport]
      ++ (if l.config.sendMetrics then [Event.Send] else []))

/-- One pass of the body of the loop of `Learner::Learn`.  The worker threads run while
`CollectTimesteps` waits.  With both learning rates zero the pass ends at `continue`. -/
def iteration (W : World E α β) (s : LoopState E α β) : Except Fault (LoopState E α β) :=
  let l := s.learner
  match ThreadAgentManager.CollectTimesteps W.MultiAppend (W.workers l.agentMgr)
      l.config.timestepsPerIteration with
  | .error e => .error e
  | .ok (timesteps, agentMgr) =>
    let timestepsCollected := timesteps.size
    let l := { l with agentMgr := agentMgr,
                      totalTimesteps := l.totalTimesteps + timestepsCollected }
    let log := s.log ++ [Event.SetStepCallback,
      Event.CollectTimesteps l.config.timestepsPerIteration]
    if l.config.ppo.policyLR = 0 ∧ l.config.ppo.criticLR = 0 then
      .ok { s with learner := l, log := log }
    else
      match learnPhase W l timesteps with
      | .error e => .error e
      | .ok l =>
        let log := log ++ [Event.AddNewExperience, Event.Learn]
        match reportPhase W l timestepsCollected with
        | .error e => .error e
        | .ok (l, calls) =>
          saveIfDue W { s with learner := l, log := log ++ calls } timestepsCollected

/-- The loop `while (totalTimesteps < config.timestepLimit || config.timestepLimit == 0)` of
`Learner::Learn`. -/
def Learn (W : World E α β) : Nat → LoopState E α β → Except Fault (LoopState E α β)
  | 0, _ => .error Fault.fuel
  | fuel + 1, s =>
    if loopCondition s.learner then
      match iteration W s with
      | .error e => .error e
      | .ok s' => Learn W fuel s'
    else
      .ok s

end Learner

/-! ## Sample learner -/

/-- A small instance of the backend: gradients are one number, a backward pass adds the loss
scale, clipping caps at one half, a step moves every parameter by `lr` times the gradient, and
loading accepts only a file of the right kind. -/
def sampleTorch : Torch Int :=
  { Grads := ℚ,
    zero_grad := 0,
    policyBackward := fun _ _ _ _ batchSizeRatio _ grads => grads + batchSizeRatio,
    valueBackward := fun _ _ _ _ batchSizeRatio grads => grads + batchSizeRatio,
    clip_grad_norm_ := fun grads => min grads (1 / 2),
    step := fun optim seq grads =>
      ({ optim with state := grads :: optim.state },
       seq.map fun module => module.map fun param => param.map fun x => x - optim.lr * grads),
    toHalf := fun seq => seq,
    load := fun _ content =>
      match content with
      | FileContent.model seq => .ok seq
      | _ => .error Fault.backend,
    loadOptim := fun _ content =>
      match content with
      | FileContent.optim state => .ok state
      | _ => .error Fault.backend }

/-- A learner on CPU with both learning rates zero, batches of 4 rows and one epoch. -/
def samplePPO : PPOLearner :=
  { policy := [[[1, 2], [3]]], policyHalf := none, valueNet := [[[4]]], valueNetHalf := none,
    policyOptimizer := { lr := 0, state := [] }, valueOptimizer := { lr := 0, state := [] },
    config := { epochs := 1, batchSize := 4, miniBatchSize := 2 },
    device := Device.cpu, minibatchThreadPool := none, cumulativeModelUpdates := 0 }

/-- An orchestrator around `samplePPO`: ten steps are waiting in its pool, eight rows sit in its
buffer, it has counted 300 timesteps, and it keeps one checkpoint. -/
def sampleLearner : Learner minstdEngine Int Nat :=
  { config := { ppo := samplePPO.config, timestepsPerIteration := 6, timestepLimit := 0,
                checkpointSaveFolder := ["save"], checkpointLoadFolder := ["load"],
                checkpointsToKeep := 1 },
    ppo := samplePPO, agentMgr := samplePoolTicked, expBuffer := sampleBuffer,
    metricSender := none, skillTracker := none, runID := "", totalTimesteps := 300,
    totalEpochs := 3,
    returnStats := { runningMean := [Double.finite (1 / 2)], runningVariance := [Double.finite 2],
                     shape := 1, count := 7 } }

/-- A world for the sample learner: a build with `RG_CUDA_SUPPORT`, two hardware threads, idle
workers, and an `AddNewExperience` that leaves statistics and buffer alone. -/
def sampleWorld : World minstdEngine Int Nat :=
  { torch := sampleTorch, cudaSupport := true, hardware_concurrency := 2,
    MultiAppend := GameTrajectory.MultiAppend, workers := fun mgr => mgr,
    AddNewExperience := fun _ returnStats expBuffer _ => .ok (returnStats, expBuffer),
    RunGames := fun skillTracker _ _ => skillTracker,
    LoadRatingSet := fun j =>
      match j with
      | SkillJson.perMode ratings => ratings
      | SkillJson.single rating => [("", rating)] }

/-- The loop state the sample learner starts from, on an empty file system. -/
def sampleLoopState : Learner.LoopState minstdEngine Int Nat :=
  { learner := sampleLearner, fs := [], tsSinceSave := 0, log := [] }

/-- The sample learner with `autocastLearn` on, still on CPU, both learning rates 1, and
batches of 16 rows, more than the sample buffer holds. -/
def sampleAutocastPPO : PPOLearner :=
  { samplePPO with
    config := { samplePPO.config with
      autocastLearn := true, batchSize := 16, miniBatchSize := 16,
      policyLR := 1, criticLR := 1 },
    policyOptimizer := { lr := 1, state := [] },
    valueOptimizer := { lr := 1, state := [] } }

/-- A stats document as `SaveStats` writes it. -/
def sampleStats : StatsJson :=
  { cumulative_timesteps := 5, cumulative_model_updates := 2, epoch := 1, skill_rating := none,
    mean := [JsonNumber.number (3 / 4)], var := [JsonNumber.number 3], shape := 1, count := 9,
    run_id := none }

/-- A load folder `load` with one checkpoint directory `5` that holds the stats file and the
policy weights, and no value weights. -/
def sampleNoCriticFS : FileSystem :=
  [(["load"], Node.dir), (["load", "5"], Node.dir),
   (["load", "5", "RUNNING_STATS.json"], Node.file (FileContent.stats sampleStats)),
   (["load", "5", "PPO_POLICY.lt"], Node.file (FileContent.model [[[7, 8], [9]]]))]

/-- The load folder of `sampleNoCriticFS` with the value weights in place. -/
def sampleCheckpointFS : FileSystem :=
  sampleNoCriticFS ++ [(["load", "5", "PPO_CRITIC.lt"], Node.file (FileContent.model [[[6]]]))]

/-- The load folder of `sampleCheckpointFS` with one more directory, named `12abc`. -/
def sampleLeadingDigitsFS : FileSystem :=
  sampleCheckpointFS ++ [(["load", "12abc"], Node.dir)]

/-- A save folder `save` with checkpoints `100` and `200`, next to a load folder `load` with
checkpoints `50` and `60`. -/
def sampleSaveFS : FileSystem :=
  [(["load"], Node.dir), (["load", "50"], Node.dir), (["load", "60"], Node.dir),
   (["save"], Node.dir), (["save", "100"], Node.dir), (["save", "200"], Node.dir)]

/-- The sample learner with a NaN as the running mean of the returns. -/
def sampleNanLearner : Learner minstdEngine Int Nat :=
  { sampleLearner with
    returnStats := { runningMean := [Double.nan], runningVariance := [Double.finite 2],
                     shape := 1, count := 7 } }

/-! ## Creating the pool -/

namespace ThreadAgentManager

variable {α : Type}

/-- The constructor `ThreadAgentManager(..., maxCollect, device)`, for the members the
collection logic uses: no agent yet, and the default member initialisers
`renderSender = nullptr`, `renderDuringTraining = false` and `disableCollection = false`. -/
def ctor (maxCollect : Nat) : ThreadAgentManager α :=
  { agents := [], maxCollect := maxCollect, renderSender := false,
    renderDuringTraining := false, disableCollection := false }

/-- The loop `for (int i = 0; i < amount; ++i)` of `CreateAgents`, over the indices left.
`playerAmount i k` is `match->playerAmount` of game `k` of worker `i`.  A negative `numGames`
reaches `trajectories.resize` as a huge unsigned size, which throws. -/
def createAgentsLoop (playerAmount : Nat → Nat → Nat) (amount gamesPerAgent : Int) :
    List Nat → ThreadAgentManager α → Except Fault (ThreadAgentManager α)
  | [], mgr => .ok mgr
  | i :: rest, mgr =>
    let numGames : Int :=
      if mgr.renderSender && mgr.renderDuringTraining && i == 0 then 1 else gamesPerAgent
    if numGames < 0 then
      .error Fault.backend
    else
      let agent := ThreadAgent.ctor numGames.toNat (mgr.maxCollect / amount.toNat)
        (playerAmount i) i
      createAgentsLoop playerAmount amount gamesPerAgent rest
        { mgr with agents := mgr.agents ++ [agent] }

/-- The method `CreateAgents(func, amount, gamesPerAgent)`. -/
def CreateAgents (mgr : ThreadAgentManager α) (playerAmount : Nat → Nat → Nat)
    (amount gamesPerAgent : Int) : Except Fault (ThreadAgentManager α) :=
  createAgentsLoop playerAmount amount gamesPerAgent (List.range amount.toNat) mgr

end ThreadAgentManager

/-! ## Constructing the learner and the orchestrator -/

/-- What the constructors take from outside the modelled code: whether CUDA is available to the
tensor library and whether the device test throws, `match->playerAmount` of game `k` of worker
`i` as the environment factory builds it, `std::time(0)`, the freshly initialised networks, the
run ID the metrics receiver returns for a given one (its failure is fatal), and the values found
in the members the constructor of `Learner` never assigns: `totalTimesteps` and `totalEpochs`
have no initialiser, `returnStats` is default-constructed. -/
structure Startup where
  cudaAvailable : Bool
  deviceTestFailed : Bool
  playerAmount : Nat → Nat → Nat
  time : Int
  policy : Sequential
  valueNet : Sequential
  metricInit : String → Except Fault String
  totalTimesteps : Nat
  totalEpochs : Nat
  returnStats : WelfordRunningStat

/-- The constant `INT_MAX`. -/
def INT_MAX : Nat := 2147483647

/-- The operator `path += suffix` of `std::filesystem::path`: the text is appended to the last
component. -/
def Path.concat (p : Path) (suffix : String) : Path :=
  match p.getLast? with
  | some last => p.dropLast ++ [last ++ suffix]
  | none => [suffix]

/-- The constructor `PPOLearner(obsSpaceSize, actSpaceSize, _config, _device)`; `policy` and
`valueNet` are the networks as `DiscretePolicy` and `ValueEstimator` initialise them. -/
def PPOLearner.ctor {α : Type} (T : Torch α) (policy valueNet : Sequential)
    (_config : PPOLearnerConfig) (_device : Device) : Except Fault PPOLearner :=
  match PPOLearner.checkConfig _config with
  | .error e => .error e
  | .ok config =>
    .ok { policy := policy,
          policyHalf := if config.halfPrecModels then some (T.toHalf policy) else none,
          valueNet := valueNet,
          valueNetHalf := if config.halfPrecModels then some (T.toHalf valueNet) else none,
          policyOptimizer := { lr := config.policyLR, state := [] },
          valueOptimizer := { lr := config.criticLR, state := [] },
          config := config, device := _device, minibatchThreadPool := none,
          cumulativeModelUpdates := 0 }

namespace Learner

variable {E : RandomEngine} {α β : Type}

/-- The adjustments of `config` at the top of the constructor of `Learner`: a `timestepsPerSave`
of 0 becomes `timestepsPerIteration`, `standardizeOBS` is fatal, rendering without training
forces one thread with one game, no metrics, no save folder and `INT_MAX` steps per iteration,
and the save folder gets the time as a suffix when asked. -/
def adjustConfig (time : Int) (_config : LearnerConfig) : Except Fault LearnerConfig :=
  let config := _config
  let config :=
    if config.timestepsPerSave = 0 then
      { config with timestepsPerSave := config.timestepsPerIteration }
    else config
  if config.standardizeOBS then
    .error Fault.fatal
  else
    let config :=
      if config.renderMode && !config.renderDuringTraining then
        { config with numThreads := 1, numGamesPerThread := 1, sendMetrics := false,
                      checkpointSaveFolder := [], timestepsPerIteration := INT_MAX }
      else config
    .ok (if config.saveFolderAddUnixTimestamp && !(config.checkpointSaveFolder == []) then
      { config with
        checkpointSaveFolder := config.checkpointSaveFolder.concat ("-" ++ to_string time) }
    else config)

/-- The choice of the device in the constructor of `Learner`; the index of the CUDA device is
left at 0. -/
def selectDevice (S : Startup) (config : LearnerConfig) : Except Fault Device :=
  if config.deviceType = LearnerDeviceType.GPU_CUDA
      ∨ (config.deviceType = LearnerDeviceType.AUTO ∧ S.cudaAvailable = true) then
    if !S.cudaAvailable || S.deviceTestFailed then .error Fault.fatal else .ok (Device.cuda 0)
  else
    .ok Device.cpu

/-- The argument `static_cast<uint64_t>(config.timestepsPerIteration * 1.5f)` of the
constructor of the pool: the integer is converted to `float`, multiplied by `1.5f` in single
precision, and the product is truncated. -/
def poolCap (timestepsPerIteration : Nat) : Nat :=
  ⌊float32 (float32 (timestepsPerIteration : ℚ) * (3 / 2))⌋₊

/-- The pool as the constructor of `Learner` builds it: the manager is constructed with
`maxCollect = static_cast<uint64_t>(config.timestepsPerIteration * 1.5f)`, `CreateAgents` runs,
and only then are `renderSender` and `renderDuringTraining` set on the manager, when
`config.renderMode`. -/
def createPool (S : Startup) (config : LearnerConfig) : Except Fault (ThreadAgentManager β) :=
  match (ThreadAgentManager.ctor (poolCap config.timestepsPerIteration)).CreateAgents
      S.playerAmount config.numThreads config.numGamesPerThread with
  | .error e => .error e
  | .ok agentMgr =>
    .ok (if config.renderMode then
      { agentMgr with renderSender := true, renderDuringTraining := config.renderDuringTraining }
    else agentMgr)

/-- The last statement of the constructor of `Learner`.  With `sendMetrics` on, a
`MetricSender` is created only when `runID` is not empty; otherwise the member `metricSender`
is never assigned and no sender exists (`none`).  With `sendMetrics` off it is `nullptr`. -/
def initMetricSender (S : Startup) (l : Learner E α β) : Except Fault (Learner E α β) :=
  if l.config.sendMetrics then
    if l.runID ≠ "" then
      match S.metricInit l.runID with
      | .error _ => .error Fault.fatal
      | .ok curRunID => .ok { l with metricSender := some { curRunID := curRunID } }
    else
      .ok l
  else
    .ok { l with metricSender := none }

/-- The constructor `Learner(envCreateFunc, _config)`, on the file system `fs`. -/
def ctor (W : World E α β) (S : Startup) (_config : LearnerConfig) (fs : FileSystem) :
    Except Fault (Learner E α β) :=
  match adjustConfig S.time _config with
  | .error e => .error e
  | .ok config =>
    match selectDevice S config with
    | .error e => .error e
    | .ok device =>
      match PPOLearner.ctor W.torch S.policy S.valueNet config.ppo device with
      | .error e => .error e
      | .ok ppo =>
        match createPool S config with
        | .error e => .error e
        | .ok agentMgr =>
          let l : Learner E α β :=
            { config := config, ppo := ppo, agentMgr := agentMgr,
              expBuffer := ExperienceBuffer.ctor config.expBufferSize config.randomSeed device,
              metricSender := none,
              skillTracker :=
                if config.skillTrackerEnabled then
                  some { perModeRatings := config.skillTrackerPerModeRatings, curRating := [] }
                else none,
              runID := "", totalTimesteps := S.totalTimesteps, totalEpochs := S.totalEpochs,
              returnStats := S.returnStats }
          match (if config.checkpointLoadFolder ≠ [] then l.Load W.torch W.LoadRatingSet fs
            else .ok l) with
          | .error e => .error e
          | .ok l => initMetricSender S l

end Learner

/-- A start-up on a machine without CUDA, with one-versus-one games, networks with parameters
of 2, 1 and 1 elements, and a metrics receiver that keeps the run ID it is given. -/
def sampleStartup : Startup :=
  { cudaAvailable := false, deviceTestFailed := false, playerAmount := fun _ _ => 2, time := 0,
    policy := [[[1, 2], [3]]], valueNet := [[[4]]],
    metricInit := fun runID => .ok runID,
    totalTimesteps := 0, totalEpochs := 0, returnStats := WelfordRunningStat.ctor 1 }

/-- A configuration that renders during training: two threads with three games each. -/
def sampleRenderConfig : LearnerConfig :=
  { ppo := { epochs := 1, batchSize := 4, miniBatchSize := 2, policyLR := 1, criticLR := 1 },
    timestepsPerIteration := 6, numThreads := 2, numGamesPerThread := 3,
    renderMode := true, renderDuringTraining := true, expBufferSize := 8, randomSeed := 7 }

/-- A configuration that sends metrics and loads no checkpoint. -/
def sampleMetricsConfig : LearnerConfig :=
  { ppo := { epochs := 1, batchSize := 4, miniBatchSize := 2, policyLR := 1, criticLR := 1 },
    timestepsPerIteration := 6, numThreads := 2, numGamesPerThread := 1,
    sendMetrics := true, expBufferSize := 8, randomSeed := 7 }

/-- A start-up like the sample one in which every game has a single player. -/
def sampleSoloStartup : Startup :=
  { sampleStartup with playerAmount := fun _ _ => 1 }

/-- A configuration that renders during training with two threads of one game each and 6 steps
per iteration. -/
def sampleStallConfig : LearnerConfig :=
  { ppo := { epochs := 1, batchSize := 4, miniBatchSize := 2, policyLR := 1, criticLR := 1 },
    timestepsPerIteration := 6, numThreads := 2, numGamesPerThread := 1,
    renderMode := true, renderDuringTraining := true, expBufferSize := 8, randomSeed := 7 }

/-- The pool the constructor builds for `sampleStallConfig` with single-player games: a cap of
9, so 4 per worker, and both rendering flags set. -/
def sampleStallStart : ThreadAgentManager Nat :=
  { agents := [ThreadAgent.ctor 1 4 (fun _ => 1) 0, ThreadAgent.ctor 1 4 (fun _ => 1) 1],
    maxCollect := 9, renderSender := true, renderDuringTraining := true,
    disableCollection := false }

/-- The pool of `sampleStallStart` after each worker went five times through the loop of
`Run`, no game ending. -/
def sampleStallPool : ThreadAgentManager Nat :=
  { sampleStallStart with
    agents := sampleStallStart.agents.map
      (ThreadAgent.passes true true false (fun _ _ => false)
        (fun p i j => 100 * p + 10 * i + j) 5) }

/-- The learner the constructor returns for `sampleRenderConfig`. -/
def sampleRenderLearner : Learner minstdEngine Int Nat :=
  match Learner.ctor sampleWorld sampleStartup sampleRenderConfig [] with
  | .ok l => l
  | .error _ => sampleLearner

/-- The learner the constructor returns for `sampleMetricsConfig`. -/
def sampleMetricsLearner : Learner minstdEngine Int Nat :=
  match Learner.ctor sampleWorld sampleStartup sampleMetricsConfig [] with
  | .ok l => l
  | .error _ => sampleLearner

/-- The state after the iteration of the sample loop state, whose learning rates are zero. -/
def sampleZeroIteration : Learner.LoopState minstdEngine Int Nat :=
  match Learner.iteration sampleWorld sampleLoopState with
  | .ok s => s
  | .error _ => sampleLoopState

/-- A loop state of the sample learner, whose learning rates are zero, with a checkpoint every
8 steps and 5 steps counted since the last one. -/
def sampleDueState : Learner.LoopState minstdEngine Int Nat :=
  { sampleLoopState with
    learner := { sampleLearner with
      config := { sampleLearner.config with timestepsPerSave := 8 } },
    tsSinceSave := 5 }

/-- The sample learner with both learning rates 1, on a save folder that is also the load
folder. -/
def sampleTrainingLearner : Learner minstdEngine Int Nat :=
  { sampleLearner with
    config := { sampleLearner.config with
      ppo := { sampleLearner.config.ppo with policyLR := 1, criticLR := 1 },
      timestepsPerSave := 8, checkpointLoadFolder := ["save"] },
    ppo := { samplePPO with
      config := { samplePPO.config with policyLR := 1, criticLR := 1 },
      policyOptimizer := { lr := 1, state := [] },
      valueOptimizer := { lr := 1, state := [] } } }

/-- A loop state of the training learner with 5 steps counted since the last checkpoint, on a
file system that holds the folder `save`. -/
def sampleTrainingState : Learner.LoopState minstdEngine Int Nat :=
  { learner := sampleTrainingLearner, fs := [(["save"], Node.dir)], tsSinceSave := 5, log := [] }

/-- The state after the iteration of the training state. -/
def sampleTrainingIteration : Learner.LoopState minstdEngine Int Nat :=
  match Learner.iteration sampleWorld sampleTrainingState with
  | .ok s => s
  | .error _ => sampleTrainingState

/-- The sample learner with batches of 2 rows, fewer than the 3 threads its pool gets on a
machine with 2 hardware threads. -/
def sampleTinyBatchPPO : PPOLearner :=
  { samplePPO with config := { samplePPO.config with batchSize := 2, miniBatchSize := 2 } }

/-- The sample learner with both learning rates 1 and batches of 16 rows, more than the sample
buffer holds. -/
def sampleBigBatchPPO : PPOLearner :=
  { samplePPO with
    config := { samplePPO.config with
      batchSize := 16, miniBatchSize := 16, policyLR := 1, criticLR := 1 },
    policyOptimizer := { lr := 1, state := [] },
    valueOptimizer := { lr := 1, state := [] } }

/-- The result of `Learn` on the training learner over the sample buffer. -/
def sampleTrainingLearn : PPOLearner × ExperienceBuffer minstdEngine Int :=
  match PPOLearner.Learn sampleTorch false 2 sampleTrainingLearner.ppo sampleBuffer with
  | .ok r => r
  | .error _ => (sampleTrainingLearner.ppo, sampleBuffer)

/-! ## Value predictions of `AddNewExperience` -/

/-- One pass of the chunk loop of `AddNewExperience`, as the model records it: `start`, `end`
(here `stop`), the number of rows of `statesPart` handed to the value network, and whether the
last next-state was appended. -/
structure ValChunk where
  start : Nat
  stop : Nat
  fed : Nat
  appended : Bool
  deriving DecidableEq, Repr

namespace Learner

/-- The loop `for (size_t i = 0; i < valPredCount; i += ppo->config.miniBatchSize)` of
`AddNewExperience`.  `Forward` is `ppo->valueNet->Forward(..).cpu().flatten()`; `states` and
`nextStates` are the rows of `trajData.states` and `trajData.nextStates`; a tensor slice is
clamped to the rows there are; indexing `nextStates` past its rows throws; a failing
`RG_ASSERT` is fatal; `copy_` into the slice `[start, end)` replaces those entries.  The
`size_t` sums do not wrap for an `int64_t` step and a tensor length.  Returns the prediction
tensor and the record of the passes. -/
def valPredsLoop {σ : Type} (Forward : List σ → List ℚ) (states nextStates : List σ)
    (miniBatchSize count valPredCount : Nat) :
    Nat → Nat → List ℚ → List ValChunk → Except Fault (List ℚ × List ValChunk)
  | 0, _, _, _ => .error Fault.fuel
  | fuel + 1, i, valPredsTensor, chunks =>
    if i < valPredCount then
      let start := i
      let stop := min (i + miniBatchSize) valPredCount
      let sliceEnd := if stop > count then count else stop
      let statesPart := (states.drop start).take (sliceEnd - start)
      match
        (if stop = valPredCount then
          match nextStates[count - 1]? with
          | none => .error Fault.backend
          | some finalNextState => .ok (statesPart ++ [finalNextState])
        else (.ok statesPart : Except Fault (List σ))) with
      | .error e => .error e
      | .ok statesPart =>
        let valPredsPart := Forward statesPart
        if valPredsPart.length ≠ stop - start then
          .error Fault.fatal
        else
          valPredsLoop Forward states nextStates miniBatchSize count valPredCount fuel
            (i + miniBatchSize)
            (valPredsTensor.take start ++ valPredsPart ++ valPredsTensor.drop stop)
            (chunks ++ [{ start := start, stop := stop, fed := statesPart.length,
                          appended := decide (stop = valPredCount) }])
    else
      .ok (valPredsTensor, chunks)

/-- The first part of `AddNewExperience(gameTraj, report)`: `count` rows, a tensor of
`count + 1` zeros, the chunk loop, and `TENSOR_TO_FLIST`.  The loop gets `count + 2` units of
fuel, enough whenever the step is positive; with a step of 0 the source loop does not end. -/
def valuePredictions {σ : Type} (Forward : List σ → List ℚ) (states nextStates : List σ)
    (miniBatchSize : Nat) : Except Fault (List ℚ × List ValChunk) :=
  let count := states.length
  let valPredCount := count + 1
  valPredsLoop Forward states nextStates miniBatchSize count valPredCount (valPredCount + 1) 0
    (List.replicate valPredCount 0) []

end Learner

/-- A value network over states that are numbers: the prediction for a state is the state. -/
def sampleValueNet (xs : List Nat) : List ℚ := xs.map fun x : Nat => (x : ℚ)

/-! # Properties -/

namespace Tensor

variable {α : Type}

theorem length_slice (t : Tensor α) (start stop : Nat) :
    (t.slice start stop).length = min stop t.length - start := by
  simp [slice]

theorem sliceCopy_ok (dst src : Tensor α) (start stop : Nat)
    (h : src.length = min stop dst.length - start) :
    dst.sliceCopy start stop src = .ok (dst.take start ++ src ++ dst.drop (start + src.length)) := by
  simp [sliceCopy, length_slice, h]

end Tensor

namespace ExperienceTensors

variable {α : Type}

/-- When the body succeeds on every field, the walk succeeds and returns the results field by
field. -/
theorem forEachPair_ok (body : Tensor α → Tensor α → Except Fault (Tensor α × Tensor α))
    (data _data : ExperienceTensors α) (g h : Field → Tensor α)
    (H : ∀ f, body (data.get f) (_data.get f) = .ok (g f, h f)) :
    ∃ D D', forEachPair body data _data = .ok (D, D') ∧
      (∀ f, D.get f = g f) ∧ (∀ f, D'.get f = h f) := by
  have h1 := H .states
  have h2 := H .actions
  have h3 := H .logProbs
  have h4 := H .rewards
  have h5 := H .nextStates
  have h6 := H .dones
  have h7 := H .truncated
  have h8 := H .values
  have h9 := H .advantages
  simp only [get] at h1 h2 h3 h4 h5 h6 h7 h8 h9
  refine ⟨{ states := g .states, actions := g .actions, logProbs := g .logProbs,
             rewards := g .rewards, nextStates := g .nextStates, dones := g .dones,
             truncated := g .truncated, values := g .values, advantages := g .advantages },
           { states := h .states, actions := h .actions, logProbs := h .logProbs,
             rewards := h .rewards, nextStates := h .nextStates, dones := h .dones,
             truncated := h .truncated, values := h .values, advantages := h .advantages },
           ?_, ?_, ?_⟩
  · simp only [forEachPair, h1, h2, h3, h4, h5, h6, h7, h8, h9, bind, Except.bind, pure,
      Except.pure]
  · intro f; cases f <;> rfl
  · intro f; cases f <;> rfl

end ExperienceTensors

namespace ExperienceBuffer

variable {E : RandomEngine} {α : Type}

theorem capped_addTen (M : Nat) (addTen : Tensor α) :
    (if addTen.length > M then addTen.slice (addTen.length - M) addTen.length else addTen)
      = addTen.drop (addTen.length - M) := by
  split
  · simp [Tensor.slice]
  · rename_i h
    have : addTen.length - M = 0 := by omega
    simp [this]

theorem capped_addAmount (M n : Nat) : (if n > M then M else n) = min n M := by
  split <;> omega

theorem natMax_zero (x : Nat) : Nat.max x 0 = x := by
  simp [Nat.max_def]

/-- Closed form of `_Concat`: the last `size` rows of `t1 ++ t2`. -/
theorem _Concat_eq_drop (t1 t2 : Tensor α) (size : Nat) :
    _Concat t1 t2 size = (t1 ++ t2).drop ((t1 ++ t2).length - size) := by
  simp only [_Concat, Tensor.size0, Tensor.cat, Tensor.slice, List.length_append, List.take_length]
  by_cases h1 : t2.length ≥ size
  · rw [if_pos h1, List.drop_append_eq_append_drop]
    have e1 : t1.length + t2.length - size - t1.length = t2.length - size := by omega
    have e2 : t1.drop (t1.length + t2.length - size) = [] := List.drop_eq_nil_of_le (by omega)
    rw [e2, e1, List.nil_append]
  · rw [if_neg h1]
    by_cases h2 : t1.length + t2.length > size
    · rw [if_pos h2, List.drop_append_eq_append_drop]
      have e1 : t1.length + t2.length - size - t1.length = 0 := by omega
      rw [e1, List.drop_zero]
    · rw [if_neg h2]
      have e1 : t1.length + t2.length - size = 0 := by omega
      rw [e1, List.drop_zero]

theorem shifted_append (X addTen : Tensor α) (M c : Nat) (hX : X.length = c) :
    X.drop (c + min addTen.length M - M) ++ addTen.drop (addTen.length - M)
      = (X ++ addTen).drop ((X ++ addTen).length - M) := by
  rw [List.drop_append_eq_append_drop, List.length_append, hX]
  by_cases h : addTen.length ≤ M
  · have e1 : c + min addTen.length M - M = c + addTen.length - M := by
      rw [Nat.min_eq_left h]
    have e2 : c + addTen.length - M - c = 0 := by omega
    have e3 : addTen.length - M = 0 := by omega
    rw [e1, e2, e3]
  · have e1 : c + min addTen.length M - M = c := by omega
    have e2 : c + addTen.length - M - c = addTen.length - M := by omega
    have e3 : X.drop c = [] := List.drop_eq_nil_of_le (by omega)
    have e4 : X.drop (c + addTen.length - M) = [] := List.drop_eq_nil_of_le (by omega)
    rw [e1, e2, e3, e4]

/-- What the loop body of `SubmitExperience` does to one field: it succeeds, the stored tensor
keeps `M` rows, its first `min (c + n) M` rows are `_Concat` of the old valid rows and the
batch, and the caller's tensor is cut to its last `M` rows. -/
theorem submitBody_spec (M c : Nat) (ourTen addTen : Tensor α) (hc : c ≤ M)
    (hlen : c ≠ 0 → ourTen.length = M) :
    ∃ T : Tensor α,
      submitBody M c (c == 0) ourTen addTen = .ok (T, addTen.drop (addTen.length - M)) ∧
      T.length = M ∧
      T.take (min (c + addTen.length) M) = _Concat (ourTen.take c) addTen M := by
  unfold submitBody
  simp only [Tensor.size0, capped_addTen, capped_addAmount, natMax_zero]
  have hdl : (addTen.drop (addTen.length - M)).length = min addTen.length M := by
    simp only [List.length_drop]; omega
  generalize ho : c + min addTen.length M - M = o
  have hshift : ∃ T₁ : Tensor α,
      (if (c == 0) = true then (pure (List.replicate M none) : Except Fault (Tensor α))
        else if o > 0 then Tensor.sliceCopy ourTen 0 (c - o) (Tensor.slice ourTen o c)
        else pure ourTen) = .ok T₁ ∧
      T₁.length = M ∧ T₁.take (c - o) = (ourTen.take c).drop o := by
    by_cases hc0 : c = 0
    · subst hc0
      refine ⟨List.replicate M none, by simp [pure, Except.pure], by simp, ?_⟩
      simp
    · have hl := hlen hc0
      have hb : (c == 0) = false := by simpa using hc0
      rw [hb]
      by_cases hpos : o > 0
      · rw [if_neg (by simp), if_pos hpos,
          Tensor.sliceCopy_ok _ _ _ _ (by simp only [Tensor.length_slice]; omega)]
        refine ⟨_, rfl, ?_, ?_⟩
        · simp only [List.length_append, List.length_take, List.length_drop,
            Tensor.length_slice]
          omega
        · have hs : (Tensor.slice ourTen o c).length = c - o := by
            simp only [Tensor.length_slice]; omega
          rw [List.take_zero, List.nil_append, List.take_append_eq_append_take, hs,
            Nat.sub_self, List.take_zero, List.append_nil, List.take_of_length_le (by omega)]
          rfl
      · rw [if_neg (by simp), if_neg hpos]
        refine ⟨ourTen, rfl, hl, ?_⟩
        have : o = 0 := by omega
        subst this
        simp only [Nat.sub_zero, List.drop_zero]
  obtain ⟨T₁, hT₁, hlenT₁, htake⟩ := hshift
  rw [hT₁]
  simp only [bind, Except.bind, pure, Except.pure]
  rw [Tensor.sliceCopy_ok _ _ _ _ (by rw [hdl]; omega)]
  refine ⟨_, rfl, ?_, ?_⟩
  · simp only [List.length_append, List.length_take, List.length_drop, hdl]
    omega
  · rw [htake, _Concat_eq_drop,
      ← shifted_append (ourTen.take c) addTen M c (by simp only [List.length_take]; omega), ho]
    have hk : min (c + addTen.length) M
        = ((ourTen.take c).drop o ++ addTen.drop (addTen.length - M)).length := by
      simp only [List.length_append, List.length_drop, List.length_take]
      by_cases hc0 : c = 0
      · omega
      · have := hlen hc0
        omega
    rw [hk, List.take_left']
    rfl

/-- One `SubmitExperience` on a well-formed buffer with a batch of leading dimension `n`. -/
theorem SubmitExperience_spec (b : ExperienceBuffer E α) (d : ExperienceTensors α) (n : Nat)
    (hwf : WF b) (hu : d.Uniform n) :
    ∃ b' d', SubmitExperience b d = .ok (b', d') ∧
      b'.curSize = min (b.curSize + n) b.maxSize ∧
      b'.maxSize = b.maxSize ∧ b'.seed = b.seed ∧ b'.device = b.device ∧ b'.rng = b.rng ∧
      b'.data.Uniform b.maxSize ∧
      (∀ f, (b'.data.get f).take b'.curSize
          = _Concat ((b.data.get f).take b.curSize) (d.get f) b.maxSize) ∧
      (∀ f, d'.get f = (d.get f).drop (n - b.maxSize)) := by
  have hbody : ∀ f, ∃ T : Tensor α,
      submitBody b.maxSize b.curSize (b.curSize == 0) (b.data.get f) (d.get f)
        = .ok (T, (d.get f).drop (n - b.maxSize)) ∧
      T.length = b.maxSize ∧
      T.take (min (b.curSize + n) b.maxSize)
        = _Concat ((b.data.get f).take b.curSize) (d.get f) b.maxSize := by
    intro f
    have := submitBody_spec b.maxSize b.curSize (b.data.get f) (d.get f) hwf.1
      (fun h => hwf.2 h f)
    rw [hu f] at this
    exact this
  choose g hg using hbody
  obtain ⟨D, D', hrun, hD, hD'⟩ := ExperienceTensors.forEachPair_ok
    (submitBody b.maxSize b.curSize (b.curSize == 0)) b.data d g
    (fun f => (d.get f).drop (n - b.maxSize)) (fun f => (hg f).1)
  have hst : D'.states.size0 = min n b.maxSize := by
    have h1 := hD' .states
    have h2 := hu .states
    simp only [ExperienceTensors.get] at h1 h2
    simp only [Tensor.size0, h1, List.length_drop, h2]
    omega
  have hcur : min (b.curSize + D'.states.size0) b.maxSize = min (b.curSize + n) b.maxSize := by
    rw [hst]; omega
  refine ⟨{ b with data := D, curSize := min (b.curSize + D'.states.size0) b.maxSize }, D',
    ?_, hcur, rfl, rfl, rfl, rfl, ?_, ?_, hD'⟩
  · simp only [SubmitExperience, hrun, bind, Except.bind, pure, Except.pure]
  · intro f
    show (D.get f).length = b.maxSize
    rw [hD f]; exact (hg f).2.1
  · intro f
    show (D.get f).take (min (b.curSize + D'.states.size0) b.maxSize) = _
    rw [hD f, hcur]; exact (hg f).2.2

theorem WF_ctor (maxSize : Nat) (seed : Int) (device : Device) :
    WF (ExperienceBuffer.ctor maxSize seed device : ExperienceBuffer E α) :=
  ⟨Nat.zero_le _, fun h => absurd rfl h⟩

theorem WF_Clear (b : ExperienceBuffer E α) : WF (Clear b) :=
  ⟨Nat.zero_le _, fun h => absurd rfl h⟩

/-- The method `GetAllBatchesShuffled` touches nothing but the engine. -/
theorem GetAllBatchesShuffled_frame (b b' : ExperienceBuffer E α) (batchSize : Int)
    (out : List (SampleSet α)) (h : GetAllBatchesShuffled b batchSize = .ok (out, b')) :
    b'.data = b.data ∧ b'.curSize = b.curSize ∧ b'.maxSize = b.maxSize ∧ b'.seed = b.seed ∧
      b'.device = b.device := by
  unfold GetAllBatchesShuffled at h
  split at h
  · cases h; exact ⟨rfl, rfl, rfl, rfl, rfl⟩
  · dsimp only at h
    split at h
    · cases h; exact ⟨rfl, rfl, rfl, rfl, rfl⟩
    · cases h

/-- Every reachable buffer is well formed and still carries the construction parameters. -/
theorem Reachable.inv {maxSize : Nat} {seed : Int} {device : Device} {b : ExperienceBuffer E α}
    (h : Reachable maxSize seed device b) :
    WF b ∧ b.maxSize = maxSize ∧ b.seed = seed ∧ b.device = device := by
  induction h with
  | ctor => exact ⟨WF_ctor _ _ _, rfl, rfl, rfl⟩
  | @submit b b' d d' n _ hu hs ih =>
    obtain ⟨b₂, d₂, hs₂, hcur, hmax, hseed, hdev, _, hunif, _, _⟩ :=
      SubmitExperience_spec b d n ih.1 hu
    rw [hs] at hs₂
    cases hs₂
    refine ⟨⟨?_, fun _ => ?_⟩, hmax.trans ih.2.1, hseed.trans ih.2.2.1, hdev.trans ih.2.2.2⟩
    · rw [hcur, hmax]; exact Nat.min_le_right _ _
    · rw [hmax]; exact hunif
  | @shuffled b b' batchSize out _ hs ih =>
    obtain ⟨hdata, hcur, hmax, hseed, hdev⟩ := GetAllBatchesShuffled_frame b b' batchSize out hs
    refine ⟨⟨?_, ?_⟩, hmax.trans ih.2.1, hseed.trans ih.2.2.1, hdev.trans ih.2.2.2⟩
    · rw [hcur, hmax]; exact ih.1.1
    · rw [hcur, hmax, hdata]; exact ih.1.2
  | @clear b _ ih => exact ⟨WF_Clear b, ih.2.1, ih.2.2.1, ih.2.2.2⟩

end ExperienceBuffer

/-! ## Sequences of submissions -/

theorem lastRows_length {α : Type} (k : Nat) (t : Tensor α) :
    (lastRows k t).length = min k t.length := by
  simp only [lastRows, List.length_drop]; omega

/-- The helper `_Concat` applied to the retained rows and a new batch is the retained part of the longer history. -/
theorem _Concat_lastRows {α : Type} (H B : Tensor α) (M c : Nat) (hc : c = min H.length M) :
    ExperienceBuffer._Concat (lastRows c H) B M
      = lastRows (min (c + B.length) M) (H ++ B) := by
  rw [ExperienceBuffer._Concat_eq_drop]
  simp only [lastRows, List.length_append, List.length_drop]
  have h1 : H.drop (H.length - c) ++ B = (H ++ B).drop (H.length - c) := by
    rw [List.drop_append_of_le_length (by omega)]
  rw [h1, List.drop_drop]
  congr 1
  omega

theorem history_cons {α : Type} (f : Field) (d : ExperienceTensors α)
    (ds : List (ExperienceTensors α)) : history f (d :: ds) = d.get f ++ history f ds := by
  simp [history]

theorem history_length {α : Type} (f : Field) (ds : List (ExperienceTensors α)) :
    (history f ds).length = (ds.map fun d => (d.get f).length).sum := by
  induction ds with
  | nil => rfl
  | cons d ds ih => simp [history_cons, ih]

theorem batchOf_uniform {α : Type} (rows : List α) : (batchOf rows).Uniform rows.length := by
  intro f
  cases f <;> simp [batchOf, ExperienceTensors.get]

namespace ExperienceBuffer

variable {E : RandomEngine} {α : Type}

/-- Invariant of a run of submissions, relative to the rows `pre` submitted before it. -/
theorem submitAll_spec (ds : List (ExperienceTensors α)) :
    ∀ (b : ExperienceBuffer E α) (pre : Field → Tensor α), WF b →
      (∀ f, b.curSize = min (pre f).length b.maxSize) →
      (∀ f, (b.data.get f).take b.curSize = lastRows b.curSize (pre f)) →
      (∀ d ∈ ds, ∃ n, d.Uniform n) →
      ∃ b', submitAll b ds = .ok b' ∧ WF b' ∧ b'.maxSize = b.maxSize ∧
        (∀ f, b'.curSize = min (pre f ++ history f ds).length b.maxSize) ∧
        (∀ f, (b'.data.get f).take b'.curSize = lastRows b'.curSize (pre f ++ history f ds)) := by
  induction ds with
  | nil =>
    intro b pre hwf hcur hrows _
    refine ⟨b, rfl, hwf, rfl, ?_, ?_⟩
    · intro f; simpa [history] using hcur f
    · intro f; simpa [history] using hrows f
  | cons d ds ih =>
    intro b pre hwf hcur hrows hds
    obtain ⟨n, hu⟩ := hds d (List.mem_cons_self _ _)
    obtain ⟨b₁, d₁, hs, hc₁, hm₁, _, _, _, hun₁, hrows₁, _⟩ := SubmitExperience_spec b d n hwf hu
    have hwf₁ : WF b₁ := by
      refine ⟨?_, fun _ => ?_⟩
      · rw [hc₁, hm₁]; exact Nat.min_le_right _ _
      · rw [hm₁]; exact hun₁
    have hcur₁ : ∀ f, b₁.curSize = min (pre f ++ d.get f).length b₁.maxSize := by
      intro f
      have h1 := hcur f
      have h2 := hu f
      rw [hc₁, hm₁, List.length_append, h2]
      omega
    have hrows₁' : ∀ f, (b₁.data.get f).take b₁.curSize
        = lastRows b₁.curSize (pre f ++ d.get f) := by
      intro f
      rw [hrows₁ f, hrows f, _Concat_lastRows (pre f) (d.get f) b.maxSize b.curSize (hcur f),
        hc₁, hu f]
    obtain ⟨b', hrun, hwf', hm', hcur', hrows'⟩ :=
      ih b₁ (fun f => pre f ++ d.get f) hwf₁ hcur₁ hrows₁'
        (fun d' hd' => hds d' (List.mem_cons_of_mem _ hd'))
    refine ⟨b', ?_, hwf', hm'.trans hm₁, ?_, ?_⟩
    · simp only [submitAll, hs, hrun]
    · intro f
      rw [hcur' f, history_cons, List.append_assoc, hm₁]
    · intro f
      rw [hrows' f, history_cons, List.append_assoc]

end ExperienceBuffer

namespace ExperienceBuffer

variable {E : RandomEngine} {α : Type}

/-- C1: for every capacity `maxSize` (so for every `maxSize ≥ 1`) and every sequence of `SubmitExperience` calls on a
newly constructed buffer, each batch having one leading dimension for all its fields, the calls
all return, and afterwards rows `[0, curSize)` of every field are the last `curSize` rows of the
concatenation of all submitted batches in arrival order.  Moreover every single submit on a
reachable buffer returns and leaves rows `[0, curSize)` of every field equal to
`_Concat(previous rows [0, oldCurSize), batch, maxSize)`. -/
theorem submit_retains_last_rows (maxSize : Nat) (seed : Int) (device : Device)
    (ds : List (ExperienceTensors α))
    (hds : ∀ d ∈ ds, ∃ n, d.Uniform n) :
    (∃ b : ExperienceBuffer E α,
        submitAll (ExperienceBuffer.ctor maxSize seed device) ds = .ok b ∧
        ∀ f, (b.data.get f).take b.curSize = lastRows b.curSize (history f ds)) ∧
    (∀ (b : ExperienceBuffer E α) (d : ExperienceTensors α) (n : Nat),
        Reachable maxSize seed device b → d.Uniform n →
        ∃ b' d', SubmitExperience b d = .ok (b', d') ∧
          ∀ f, (b'.data.get f).take b'.curSize
            = _Concat ((b.data.get f).take b.curSize) (d.get f) maxSize) := by
  constructor
  · obtain ⟨b, hrun, _, _, _, hrows⟩ :=
      submitAll_spec ds (ExperienceBuffer.ctor maxSize seed device : ExperienceBuffer E α)
        (fun _ => []) (WF_ctor _ _ _) (fun _ => by simp [ExperienceBuffer.ctor])
        (fun _ => by simp [ExperienceBuffer.ctor, lastRows]) hds
    refine ⟨b, hrun, fun f => ?_⟩
    simpa using hrows f
  · intro b d n hr hu
    obtain ⟨hwf, hm, _, _⟩ := hr.inv
    obtain ⟨b', d', hs, _, _, _, _, _, _, hrows, _⟩ := SubmitExperience_spec b d n hwf hu
    refine ⟨b', d', hs, fun f => ?_⟩
    rw [hrows f, hm]

/-- C2: for every sequence of submissions with leading dimensions `n_1 .. n_k` to a newly
constructed buffer of capacity `maxSize`, the calls return and `curSize` afterwards is
`min (n_1 + ... + n_k) maxSize`; every single submit on a reachable buffer returns with
`curSize` updated to `min (curSize + n) maxSize`; and `curSize ≤ maxSize` in every reachable
state (`0 ≤ curSize` holds as `curSize` is a natural number). -/
theorem curSize_eq_min_sum (maxSize : Nat) (seed : Int) (device : Device)
    (ds : List (ExperienceTensors α)) (hds : ∀ d ∈ ds, ∃ n, d.Uniform n) :
    (∃ b : ExperienceBuffer E α,
        submitAll (ExperienceBuffer.ctor maxSize seed device) ds = .ok b ∧
        b.curSize = min (ds.map fun d => d.states.size0).sum maxSize) ∧
    (∀ (b : ExperienceBuffer E α) (d : ExperienceTensors α) (n : Nat),
        Reachable maxSize seed device b → d.Uniform n →
        ∃ b' d', SubmitExperience b d = .ok (b', d') ∧
          b'.curSize = min (b.curSize + n) maxSize) ∧
    (∀ b : ExperienceBuffer E α, Reachable maxSize seed device b →
        0 ≤ b.curSize ∧ b.curSize ≤ maxSize) := by
  refine ⟨?_, ?_, ?_⟩
  · obtain ⟨b, hrun, _, _, hcur, _⟩ :=
      submitAll_spec ds (ExperienceBuffer.ctor maxSize seed device : ExperienceBuffer E α)
        (fun _ => []) (WF_ctor _ _ _) (fun _ => by simp [ExperienceBuffer.ctor])
        (fun _ => by simp [ExperienceBuffer.ctor, lastRows]) hds
    refine ⟨b, hrun, ?_⟩
    have h := hcur .states
    rw [List.nil_append, history_length] at h
    exact h
  · intro b d n hr hu
    obtain ⟨hwf, hm, _, _⟩ := hr.inv
    obtain ⟨b', d', hs, hcur, _⟩ := SubmitExperience_spec b d n hwf hu
    exact ⟨b', d', hs, by rw [hcur, hm]⟩
  · intro b hr
    obtain ⟨hwf, hm, _, _⟩ := hr.inv
    exact ⟨Nat.zero_le _, hm ▸ hwf.1⟩

/-- C3: for every batch with `n > maxSize` rows submitted to a reachable buffer (empty or
holding data), the submit returns, `curSize` becomes `maxSize`, and every stored field tensor
is exactly the last `maxSize` rows of the batch's tensor, in order: the oldest `n - maxSize`
rows of the batch are dropped and no previously stored row remains. -/
theorem submit_over_capacity (maxSize : Nat) (seed : Int) (device : Device)
    (b : ExperienceBuffer E α) (d : ExperienceTensors α) (n : Nat)
    (hr : Reachable maxSize seed device b) (hu : d.Uniform n) (hn : n > maxSize) :
    ∃ b' d', SubmitExperience b d = .ok (b', d') ∧ b'.curSize = maxSize ∧
      ∀ f, b'.data.get f = (d.get f).drop (n - maxSize) ∧
        b'.data.get f = lastRows maxSize (d.get f) := by
  obtain ⟨hwf, hm, _, _⟩ := hr.inv
  obtain ⟨b', d', hs, hcur, _, _, _, _, hun, hrows, _⟩ := SubmitExperience_spec b d n hwf hu
  have hc : b'.curSize = maxSize := by rw [hcur, hm]; omega
  refine ⟨b', d', hs, hc, fun f => ?_⟩
  have h1 := hrows f
  rw [hc, List.take_of_length_le (by rw [hun f, hm]), hm, _Concat_eq_drop,
    List.drop_append_eq_append_drop, List.length_append, List.length_take, hu f] at h1
  have e1 : (List.take b.curSize (b.data.get f)).drop
      (min b.curSize (b.data.get f).length + n - maxSize) = [] :=
    List.drop_eq_nil_of_le (by simp only [List.length_take]; omega)
  have e2 : min b.curSize (b.data.get f).length + n - maxSize
      - min b.curSize (b.data.get f).length = n - maxSize := by omega
  rw [e1, e2, List.nil_append] at h1
  refine ⟨h1, ?_⟩
  rw [h1, lastRows, hu f]

end ExperienceBuffer

/-- Witness of C1, the FIFO scenario: capacity 4, submissions `[1,2,3]`, `[4,5]`, `[6]`. -/
theorem submit_retains_last_rows_witness :
    (∃ b : ExperienceBuffer minstdEngine Int,
        ExperienceBuffer.submitAll (ExperienceBuffer.ctor 4 7 Device.cpu)
          [batchOf [1, 2, 3], batchOf [4, 5], batchOf [6]] = .ok b ∧
        (b.data.get Field.rewards).take b.curSize
          = lastRows b.curSize (history Field.rewards
              [batchOf [1, 2, 3], batchOf [4, 5], batchOf [6]])) ∧
    (ExperienceBuffer.submitAll
        (ExperienceBuffer.ctor 4 7 Device.cpu : ExperienceBuffer minstdEngine Int)
        [batchOf [1, 2, 3], batchOf [4, 5], batchOf [6]]).toOption.map
      (fun b => (b.data.rewards, b.curSize)) = some ([some 3, some 4, some 5, some 6], 4) := by
  constructor
  · obtain ⟨b, hb, h⟩ := (@ExperienceBuffer.submit_retains_last_rows minstdEngine Int 4 7 Device.cpu
      [batchOf [1, 2, 3], batchOf [4, 5], batchOf [6]]
      (by
        intro d hd
        simp only [List.mem_cons, List.mem_singleton, List.not_mem_nil, or_false] at hd
        rcases hd with rfl | rfl | rfl <;> exact ⟨_, batchOf_uniform _⟩)).1
    exact ⟨b, hb, h Field.rewards⟩
  · rfl

/-- Witness of C2: three submissions of 3, 2 and 1 rows to a buffer of capacity 4. -/
theorem curSize_eq_min_sum_witness :
    ∃ b : ExperienceBuffer minstdEngine Int,
      ExperienceBuffer.submitAll
        (ExperienceBuffer.ctor 4 7 Device.cpu : ExperienceBuffer minstdEngine Int)
        [batchOf [1, 2, 3], batchOf [4, 5], batchOf [6]] = .ok b ∧
      b.curSize = min (3 + 2 + 1) 4 :=
  (@ExperienceBuffer.curSize_eq_min_sum minstdEngine Int 4 7 Device.cpu
      [batchOf [1, 2, 3], batchOf [4, 5], batchOf [6]]
      (by
        intro d hd
        simp only [List.mem_cons, List.mem_singleton, List.not_mem_nil, or_false] at hd
        rcases hd with rfl | rfl | rfl <;> exact ⟨_, batchOf_uniform _⟩)).1

/-- Witness of C3, the over-capacity scenario: capacity 4, one submission `[1,2,3,4,5,6]`. -/
theorem submit_over_capacity_witness :
    ∃ (b' : ExperienceBuffer minstdEngine Int) (d' : ExperienceTensors Int),
      ExperienceBuffer.SubmitExperience (ExperienceBuffer.ctor 4 7 Device.cpu)
        (batchOf [1, 2, 3, 4, 5, 6]) = .ok (b', d') ∧ b'.curSize = 4 ∧
      b'.data.get Field.rewards = [some 3, some 4, some 5, some 6] := by
  obtain ⟨b', d', hs, hc, h⟩ := @ExperienceBuffer.submit_over_capacity minstdEngine Int 4 7 Device.cpu
    (ExperienceBuffer.ctor 4 7 Device.cpu : ExperienceBuffer minstdEngine Int)
    (batchOf [1, 2, 3, 4, 5, 6]) 6 ExperienceBuffer.Reachable.ctor (batchOf_uniform _)
    (by decide)
  exact ⟨b', d', hs, hc, (h Field.rewards).1⟩

/-! ## Shuffled batches -/

theorem blocksOf_step (indices : List Nat) (B cs s : Nat) (hB : 0 < B) (h : s + B ≤ cs) :
    blocksOf indices B cs s = (indices.drop s).take B :: blocksOf indices B cs (s + B) := by
  have hdiv : (cs - s) / B = (cs - (s + B)) / B + 1 := by
    have e : cs - s = (cs - (s + B)) + B := by omega
    rw [e, Nat.add_div_right _ hB]
  simp only [blocksOf, hdiv, List.range_succ_eq_map, List.map_cons, List.map_map, Nat.zero_mul,
    Nat.add_zero]
  congr 1
  apply List.map_congr_left
  intro k _
  simp only [Function.comp, Nat.succ_eq_add_one, Nat.add_mul, Nat.one_mul]
  congr 2
  omega

theorem blocksOf_stop (indices : List Nat) (B cs s : Nat) (hB : 0 < B) (h : ¬ s + B ≤ cs) :
    blocksOf indices B cs s = [] := by
  have hdiv : (cs - s) / B = 0 := Nat.div_eq_of_lt (by omega)
  simp [blocksOf, hdiv]

/-- With enough fuel the loop of `GetAllBatchesShuffled` is `mapM` over the blocks. -/
theorem batchLoop_eq {β : Type} (get : List Nat → Except Fault β) (indices : List Nat)
    (B cs : Nat) (hB : 0 < B) :
    ∀ (fuel s : Nat) (result : List β), (cs - s) / B < fuel →
      ExperienceBuffer.batchLoop get indices B cs fuel s result
        = ((blocksOf indices B cs s).mapM get).map (fun r => result ++ r) := by
  intro fuel
  induction fuel with
  | zero => intro s result h; exact absurd h (Nat.not_lt_zero _)
  | succ fuel ih =>
    intro s result h
    unfold ExperienceBuffer.batchLoop
    by_cases hs : s + B ≤ cs
    · rw [if_pos hs, blocksOf_step indices B cs s hB hs, List.mapM_cons]
      have hfuel : (cs - (s + B)) / B < fuel := by
        have hd : (cs - s) / B = (cs - (s + B)) / B + 1 := by
          have e : cs - s = (cs - (s + B)) + B := by omega
          rw [e, Nat.add_div_right _ hB]
        omega
      cases hget : get ((indices.drop s).take B) with
      | error e => rfl
      | ok v =>
        simp only [ih (s + B) (result ++ [v]) hfuel]
        generalize List.mapM get (blocksOf indices B cs (s + B)) = m
        cases m with
        | error e => rfl
        | ok r => simp [Except.map, bind, Except.bind, pure, Except.pure]
    · rw [if_neg hs, blocksOf_stop indices B cs s hB hs, List.mapM_nil]
      simp [Except.map, pure, Except.pure]

theorem blocksOf_length (indices : List Nat) (B cs : Nat) :
    (blocksOf indices B cs 0).length = cs / B := by
  simp [blocksOf]

theorem blocksOf_mem (indices : List Nat) (B cs : Nat) (blk : List Nat)
    (h : blk ∈ blocksOf indices B cs 0) :
    ∃ k, k < cs / B ∧ blk = (indices.drop (k * B)).take B := by
  simp only [blocksOf, Nat.sub_zero, Nat.zero_add, List.mem_map, List.mem_range] at h
  obtain ⟨k, hk, rfl⟩ := h
  exact ⟨k, hk, rfl⟩

theorem blocksOf_block_length (indices : List Nat) (B cs : Nat) (hlen : indices.length = cs)
    (blk : List Nat) (h : blk ∈ blocksOf indices B cs 0) : blk.length = B := by
  obtain ⟨k, hk, rfl⟩ := blocksOf_mem indices B cs blk h
  have h1 : (k + 1) * B ≤ cs / B * B := Nat.mul_le_mul_right B hk
  have h2 : cs / B * B ≤ cs := Nat.div_mul_le_self cs B
  rw [Nat.add_mul, Nat.one_mul] at h1
  simp only [List.length_take, List.length_drop, hlen]
  omega

theorem blocksOf_sublist (indices : List Nat) (B cs : Nat) (blk : List Nat)
    (h : blk ∈ blocksOf indices B cs 0) : blk.Sublist indices := by
  obtain ⟨k, _, rfl⟩ := blocksOf_mem indices B cs blk h
  exact (List.take_sublist _ _).trans (List.drop_sublist _ _)

/-- The blocks, laid end to end, are the first `m * B` entries of the index vector. -/
theorem flatten_blocks (indices : List Nat) (B : Nat) :
    ∀ m : Nat, ((List.range m).map fun k => (indices.drop (k * B)).take B).flatten
      = indices.take (m * B) := by
  intro m
  induction m with
  | zero => simp
  | succ m ih =>
    rw [List.range_succ, List.map_append, List.flatten_append, ih, Nat.add_mul, Nat.one_mul,
      List.take_add]
    simp

theorem blocksOf_flatten (indices : List Nat) (B cs : Nat) :
    (blocksOf indices B cs 0).flatten = indices.take (cs / B * B) := by
  have := flatten_blocks indices B (cs / B)
  simpa [blocksOf] using this

namespace Tensor

variable {α : Type}

theorem index_select_ok (t : Tensor α) (indices : List Nat)
    (h : ∀ i ∈ indices, i < t.length) :
    ∃ r, t.index_select indices = .ok r ∧ r.length = indices.length := by
  induction indices with
  | nil => exact ⟨[], rfl, rfl⟩
  | cons i is ih =>
    obtain ⟨r, hr, hlen⟩ := ih (fun j hj => h j (List.mem_cons_of_mem _ hj))
    have hi : i < t.length := h i (List.mem_cons_self _ _)
    refine ⟨t[i] :: r, ?_, by simp [hlen]⟩
    unfold index_select at hr ⊢
    rw [List.mapM_cons, hr, List.getElem?_eq_getElem hi]
    rfl

theorem index_select_length (t r : Tensor α) (indices : List Nat)
    (h : t.index_select indices = .ok r) : r.length = indices.length := by
  induction indices generalizing r with
  | nil =>
    simp only [index_select, List.mapM_nil, pure, Except.pure] at h
    cases h; rfl
  | cons i is ih =>
    unfold index_select at h ih
    rw [List.mapM_cons] at h
    generalize List.mapM (fun i => match t[i]? with
          | some row => Except.ok row
          | none => Except.error Fault.backend) is = m at h ih
    cases hi : t[i]? with
    | none => simp [hi, bind, Except.bind] at h
    | some row =>
      cases m with
      | error e => simp [hi, bind, Except.bind] at h
      | ok r' =>
        simp only [hi, bind, Except.bind, pure, Except.pure] at h
        cases h
        simp [ih r' rfl]

end Tensor

theorem mapM_ok_forall₂ {β γ : Type} (f : β → Except Fault γ) (l : List β) (r : List γ)
    (h : l.mapM f = .ok r) : List.Forall₂ (fun x y => f x = .ok y) l r := by
  induction l generalizing r with
  | nil =>
    rw [List.mapM_nil] at h
    cases h
    exact List.Forall₂.nil
  | cons x xs ih =>
    rw [List.mapM_cons] at h
    generalize List.mapM f xs = m at h ih
    cases hx : f x with
    | error e => simp [hx, bind, Except.bind] at h
    | ok y =>
      cases m with
      | error e => simp [hx, bind, Except.bind] at h
      | ok ys =>
        simp only [hx, bind, Except.bind, pure, Except.pure] at h
        cases h
        exact List.Forall₂.cons hx (ih ys rfl)

theorem mapM_ok_of_forall {β γ : Type} (f : β → Except Fault γ) (l : List β)
    (h : ∀ x ∈ l, ∃ y, f x = .ok y) : ∃ r, l.mapM f = .ok r := by
  induction l with
  | nil => exact ⟨[], by rw [List.mapM_nil]; rfl⟩
  | cons x xs ih =>
    obtain ⟨y, hy⟩ := h x (List.mem_cons_self _ _)
    obtain ⟨ys, hys⟩ := ih (fun z hz => h z (List.mem_cons_of_mem _ hz))
    exact ⟨y :: ys, by rw [List.mapM_cons, hy, hys]; rfl⟩

namespace ExperienceBuffer

variable {E : RandomEngine} {α : Type}

/-- The method `_GetSamples` reads the stored tensors only. -/
theorem _GetSamples_congr (b b' : ExperienceBuffer E α) (h : b'.data = b.data)
    (indices : List Nat) : b'._GetSamples indices = b._GetSamples indices := by
  simp only [_GetSamples, h]

/-- A sample set returned by `_GetSamples` has one row per index in each of its fields. -/
theorem _GetSamples_lengths (b : ExperienceBuffer E α) (indices : List Nat) (s : SampleSet α)
    (h : b._GetSamples indices = .ok s) :
    s.actions.length = indices.length ∧ s.logProbs.length = indices.length ∧
      s.states.length = indices.length ∧ s.values.length = indices.length ∧
      s.advantages.length = indices.length := by
  unfold _GetSamples at h
  cases h1 : b.data.actions.index_select indices with
  | error e => simp [h1, bind, Except.bind] at h
  | ok r1 =>
  cases h2 : b.data.logProbs.index_select indices with
  | error e => simp [h1, h2, bind, Except.bind] at h
  | ok r2 =>
  cases h3 : b.data.states.index_select indices with
  | error e => simp [h1, h2, h3, bind, Except.bind] at h
  | ok r3 =>
  cases h4 : b.data.values.index_select indices with
  | error e => simp [h1, h2, h3, h4, bind, Except.bind] at h
  | ok r4 =>
  cases h5 : b.data.advantages.index_select indices with
  | error e => simp [h1, h2, h3, h4, h5, bind, Except.bind] at h
  | ok r5 =>
  simp only [h1, h2, h3, h4, h5, bind, Except.bind, pure, Except.pure] at h
  cases h
  exact ⟨Tensor.index_select_length _ _ _ h1, Tensor.index_select_length _ _ _ h2,
    Tensor.index_select_length _ _ _ h3, Tensor.index_select_length _ _ _ h4,
    Tensor.index_select_length _ _ _ h5⟩

/-- On a well-formed buffer `_GetSamples` returns for indices below `curSize`. -/
theorem _GetSamples_ok (b : ExperienceBuffer E α) (indices : List Nat) (hwf : WF b)
    (h : ∀ i ∈ indices, i < b.curSize) : ∃ s, b._GetSamples indices = .ok s := by
  by_cases hnil : indices = []
  · subst hnil
    exact ⟨_, rfl⟩
  · have hne : b.curSize ≠ 0 := by
      obtain ⟨i, hi⟩ := List.exists_mem_of_ne_nil indices hnil
      have := h i hi
      omega
    have hlen : ∀ f, ∀ i ∈ indices, i < (b.data.get f).length := by
      intro f i hi
      rw [hwf.2 hne f]
      exact Nat.lt_of_lt_of_le (h i hi) hwf.1
    obtain ⟨r1, h1, _⟩ := Tensor.index_select_ok _ indices (hlen .actions)
    obtain ⟨r2, h2, _⟩ := Tensor.index_select_ok _ indices (hlen .logProbs)
    obtain ⟨r3, h3, _⟩ := Tensor.index_select_ok _ indices (hlen .states)
    obtain ⟨r4, h4, _⟩ := Tensor.index_select_ok _ indices (hlen .values)
    obtain ⟨r5, h5, _⟩ := Tensor.index_select_ok _ indices (hlen .advantages)
    simp only [ExperienceTensors.get] at h1 h2 h3 h4 h5
    exact ⟨{ actions := r1, logProbs := r2, states := r3, values := r4, advantages := r5 },
      by simp only [_GetSamples, h1, h2, h3, h4, h5, bind, Except.bind, pure, Except.pure]⟩

/-- Past the early return, `shuffledBlocks` is the explicit list of blocks of the shuffled
index vector. -/
theorem shuffledBlocks_eq (b : ExperienceBuffer E α) (batchSize : Int)
    (h : ¬ (b.curSize = 0 ∨ batchSize ≤ 0)) :
    shuffledBlocks b batchSize
      = .ok (blocksOf (E.shuffle b.rng (List.range b.curSize)).1 batchSize.toNat b.curSize 0) := by
  have hB : 0 < batchSize.toNat := by
    have : 0 < batchSize := by
      rcases Int.lt_or_le 0 batchSize with h1 | h1
      · exact h1
      · exact absurd (Or.inr h1) h
    omega
  unfold shuffledBlocks
  rw [if_neg h]
  dsimp only
  rw [batchLoop_eq _ _ _ _ hB _ _ _
    (Nat.lt_succ_of_le (Nat.le_trans (Nat.div_le_self _ _) (Nat.sub_le _ _)))]
  have hid : ∀ l : List (List Nat),
      List.mapM (fun blk => (Except.ok blk : Except Fault (List Nat))) l = .ok l := by
    intro l
    induction l with
    | nil => rw [List.mapM_nil]; rfl
    | cons x xs ih => rw [List.mapM_cons, ih]; rfl
  rw [hid]
  simp [Except.map]

/-- Past the early return, `GetAllBatchesShuffled` is `_GetSamples` mapped over the blocks. -/
theorem GetAllBatchesShuffled_eq (b : ExperienceBuffer E α) (batchSize : Int)
    (h : ¬ (b.curSize = 0 ∨ batchSize ≤ 0)) :
    GetAllBatchesShuffled b batchSize
      = ((blocksOf (E.shuffle b.rng (List.range b.curSize)).1 batchSize.toNat b.curSize 0).mapM
            b._GetSamples).map
          (fun out => (out, { b with rng := (E.shuffle b.rng (List.range b.curSize)).2 })) := by
  have hB : 0 < batchSize.toNat := by
    have : 0 < batchSize := by
      rcases Int.lt_or_le 0 batchSize with h1 | h1
      · exact h1
      · exact absurd (Or.inr h1) h
    omega
  unfold GetAllBatchesShuffled
  rw [if_neg h]
  dsimp only
  rw [batchLoop_eq _ _ _ _ hB _ _ _
    (Nat.lt_succ_of_le (Nat.le_trans (Nat.div_le_self _ _) (Nat.sub_le _ _)))]
  have hg : _GetSamples
      ({ b with rng := (E.shuffle b.rng (List.range b.curSize)).2 } : ExperienceBuffer E α)
      = b._GetSamples := by
    funext indices
    exact _GetSamples_congr b _ rfl indices
  rw [hg]
  generalize List.mapM b._GetSamples _ = m
  cases m with
  | error e => rfl
  | ok r => simp [Except.map]

/-- Indices drawn by a shuffle of `0 .. curSize-1` are below `curSize`. -/
theorem shuffle_lt (g : E.State) (cs i : Nat) (h : i ∈ (E.shuffle g (List.range cs)).1) :
    i < cs :=
  List.mem_range.mp ((E.shuffle_perm g (List.range cs)).mem_iff.mp h)

theorem shuffle_nodup (g : E.State) (cs : Nat) : (E.shuffle g (List.range cs)).1.Nodup :=
  (E.shuffle_perm g (List.range cs)).nodup_iff.mpr (List.nodup_range cs)

theorem shuffle_length (g : E.State) (cs : Nat) : (E.shuffle g (List.range cs)).1.length = cs := by
  rw [(E.shuffle_perm g (List.range cs)).length_eq, List.length_range]

end ExperienceBuffer

namespace ExperienceBuffer

variable {E : RandomEngine} {α : Type}

/-- C4: for every reachable buffer state and every `batchSize ≥ 1`, `GetAllBatchesShuffled`
returns exactly `curSize / batchSize` (floor) batches, each with exactly `batchSize` rows in
each of `actions`, `logProbs`, `states`, `values`, `advantages`; the batches are built from the
index blocks, which cover the shuffled indices up to the trailing `curSize mod batchSize` that
are dropped.  For `curSize = 0` or `batchSize ≤ 0` it returns no batches (and leaves the buffer
as it was). -/
theorem shuffled_batches_count (maxSize : Nat) (seed : Int) (device : Device)
    (b : ExperienceBuffer E α) (batchSize : Int) (hr : Reachable maxSize seed device b) :
    (1 ≤ batchSize →
      ∃ out b', GetAllBatchesShuffled b batchSize = .ok (out, b') ∧
        out.length = b.curSize / batchSize.toNat ∧
        (∀ s ∈ out, s.actions.length = batchSize.toNat ∧ s.logProbs.length = batchSize.toNat ∧
          s.states.length = batchSize.toNat ∧ s.values.length = batchSize.toNat ∧
          s.advantages.length = batchSize.toNat) ∧
        ∃ blocks, shuffledBlocks b batchSize = .ok blocks ∧
          List.Forall₂ (fun blk s => b._GetSamples blk = .ok s) blocks out ∧
          blocks.flatten = (E.shuffle b.rng (List.range b.curSize)).1.take
            (b.curSize - b.curSize % batchSize.toNat)) ∧
    ((b.curSize = 0 ∨ batchSize ≤ 0) → GetAllBatchesShuffled b batchSize = .ok ([], b)) := by
  constructor
  · intro hB
    by_cases h0 : b.curSize = 0
    · refine ⟨[], b, by simp [GetAllBatchesShuffled, h0], by simp [h0], by simp, [],
        by simp [shuffledBlocks, h0], List.Forall₂.nil, ?_⟩
      simp [h0]
    · have hcond : ¬ (b.curSize = 0 ∨ batchSize ≤ 0) := by
        intro h; rcases h with h | h
        · exact h0 h
        · omega
      obtain ⟨hwf, _, _, _⟩ := hr.inv
      have hblk : ∀ blk ∈ blocksOf (E.shuffle b.rng (List.range b.curSize)).1 batchSize.toNat
          b.curSize 0, ∃ s, b._GetSamples blk = .ok s := by
        intro blk hblk
        refine _GetSamples_ok b blk hwf (fun i hi => ?_)
        exact shuffle_lt b.rng b.curSize i ((blocksOf_sublist _ _ _ blk hblk).subset hi)
      obtain ⟨out, hout⟩ := mapM_ok_of_forall _ _ hblk
      have hall := mapM_ok_forall₂ _ _ _ hout
      refine ⟨out, { b with rng := (E.shuffle b.rng (List.range b.curSize)).2 }, ?_, ?_, ?_,
        _, shuffledBlocks_eq b batchSize hcond, hall, ?_⟩
      · rw [GetAllBatchesShuffled_eq b batchSize hcond, hout]; rfl
      · rw [← hall.length_eq, blocksOf_length]
      · intro s hs
        obtain ⟨blk, hblk, hget⟩ : ∃ blk, blk ∈ blocksOf (E.shuffle b.rng
            (List.range b.curSize)).1 batchSize.toNat b.curSize 0 ∧ b._GetSamples blk = .ok s := by
          have key : ∀ (l : List (List Nat)) (r : List (SampleSet α)),
              List.Forall₂ (fun blk s => b._GetSamples blk = .ok s) l r → ∀ s ∈ r,
              ∃ blk, blk ∈ l ∧ b._GetSamples blk = .ok s := by
            intro l r hf
            induction hf with
            | nil => intro s hs; cases hs
            | cons hxy _ ih =>
              intro s hs
              rcases List.mem_cons.mp hs with rfl | hs'
              · exact ⟨_, List.mem_cons_self _ _, hxy⟩
              · obtain ⟨blk, hb, hg⟩ := ih s hs'
                exact ⟨blk, List.mem_cons_of_mem _ hb, hg⟩
          exact key _ _ hall s hs
        have hlen := blocksOf_block_length _ batchSize.toNat b.curSize
          (shuffle_length b.rng b.curSize) blk hblk
        have := _GetSamples_lengths b blk s hget
        rw [hlen] at this
        exact this
      · rw [blocksOf_flatten]
        congr 1
        have := Nat.div_add_mod b.curSize batchSize.toNat
        rw [Nat.mul_comm] at this
        omega
  · intro h
    simp only [GetAllBatchesShuffled, if_pos h]

/-- C5: for every reachable buffer state and `batchSize ≥ 1`, the index lists used to build the
batches of one `GetAllBatchesShuffled` call are the consecutive blocks of `batchSize` entries of
one permutation of `0 .. curSize-1`: every index is below `curSize` (and inside every stored
tensor), no index occurs twice within a block, two different blocks share no index, and the
returned batches are `_GetSamples` of exactly these blocks. -/
theorem shuffled_blocks_disjoint (maxSize : Nat) (seed : Int) (device : Device)
    (b : ExperienceBuffer E α) (batchSize : Int) (hr : Reachable maxSize seed device b)
    (hB : 1 ≤ batchSize) :
    ∃ blocks, shuffledBlocks b batchSize = .ok blocks ∧
      List.Perm (E.shuffle b.rng (List.range b.curSize)).1 (List.range b.curSize) ∧
      blocks = (List.range (b.curSize / batchSize.toNat)).map (fun k =>
        ((E.shuffle b.rng (List.range b.curSize)).1.drop (k * batchSize.toNat)).take
          batchSize.toNat) ∧
      (∀ blk ∈ blocks, ∀ i ∈ blk, i < b.curSize ∧ ∀ f, i < (b.data.get f).length) ∧
      (∀ blk ∈ blocks, blk.Nodup) ∧
      blocks.Pairwise List.Disjoint ∧
      (∀ out b', GetAllBatchesShuffled b batchSize = .ok (out, b') →
        List.Forall₂ (fun blk s => b._GetSamples blk = .ok s) blocks out) := by
  obtain ⟨hwf, _, _, _⟩ := hr.inv
  have hnd : ((blocksOf (E.shuffle b.rng (List.range b.curSize)).1 batchSize.toNat
      b.curSize 0).flatten).Nodup := by
    rw [blocksOf_flatten]
    exact (shuffle_nodup b.rng b.curSize).sublist (List.take_sublist _ _)
  have hlt : ∀ blk ∈ blocksOf (E.shuffle b.rng (List.range b.curSize)).1 batchSize.toNat
      b.curSize 0, ∀ i ∈ blk, i < b.curSize := fun blk hblk i hi =>
    shuffle_lt b.rng b.curSize i ((blocksOf_sublist _ _ _ blk hblk).subset hi)
  by_cases h0 : b.curSize = 0
  · refine ⟨[], by simp [shuffledBlocks, h0], E.shuffle_perm _ _, by simp [h0],
      by simp, by simp, List.Pairwise.nil, ?_⟩
    intro out b' hout
    simp only [GetAllBatchesShuffled, h0, true_or, if_true] at hout
    cases hout
    exact List.Forall₂.nil
  · have hcond : ¬ (b.curSize = 0 ∨ batchSize ≤ 0) := by
      intro h; rcases h with h | h
      · exact h0 h
      · omega
    refine ⟨_, shuffledBlocks_eq b batchSize hcond, E.shuffle_perm _ _, ?_, ?_, ?_, ?_, ?_⟩
    · simp [blocksOf]
    · intro blk hblk i hi
      have hi' := hlt blk hblk i hi
      refine ⟨hi', fun f => ?_⟩
      rw [hwf.2 h0 f]
      exact Nat.lt_of_lt_of_le hi' hwf.1
    · exact (List.nodup_flatten.mp hnd).1
    · exact (List.nodup_flatten.mp hnd).2
    · intro out b' hout
      rw [GetAllBatchesShuffled_eq b batchSize hcond] at hout
      generalize hm : List.mapM b._GetSamples _ = m at hout
      cases m with
      | error e => cases hout
      | ok r =>
        simp only [Except.map] at hout
        cases hout
        exact mapM_ok_forall₂ _ _ _ hm

end ExperienceBuffer

namespace ExperienceBuffer

variable {E : RandomEngine} {α : Type}

theorem SubmitExperience_device (b : ExperienceBuffer E α) (dev : Device)
    (d : ExperienceTensors α) :
    SubmitExperience { b with device := dev } d
      = (SubmitExperience b d).map (fun p => ({ p.1 with device := dev }, p.2)) := by
  simp only [SubmitExperience]
  generalize ExperienceTensors.forEachPair _ b.data d = m
  cases m with
  | error e => rfl
  | ok p => rfl

theorem GetAllBatchesShuffled_device (b : ExperienceBuffer E α) (dev : Device)
    (batchSize : Int) :
    GetAllBatchesShuffled { b with device := dev } batchSize
      = (GetAllBatchesShuffled b batchSize).map (fun p => (p.1, { p.2 with device := dev })) := by
  unfold GetAllBatchesShuffled
  by_cases h : b.curSize = 0 ∨ batchSize ≤ 0
  · rw [if_pos h, if_pos h]; rfl
  · rw [if_neg h, if_neg h]
    dsimp only
    have hg : ∀ g : E.State, _GetSamples
        ({ device := dev, seed := b.seed, data := b.data, curSize := b.curSize,
           maxSize := b.maxSize, rng := g } : ExperienceBuffer E α)
        = _GetSamples ({ b with rng := g } : ExperienceBuffer E α) := by
      intro g
      funext indices
      exact _GetSamples_congr _ _ rfl indices
    rw [hg]
    generalize batchLoop _ _ _ _ _ _ _ = m
    cases m with
    | error e => rfl
    | ok r => rfl

/-- A run does not look at the device tag: changing it changes nothing but the tag of the
buffer at the end. -/
theorem run_device (calls : List (Call α)) :
    ∀ (b : ExperienceBuffer E α) (dev : Device),
      run { b with device := dev } calls
        = (run b calls).map (fun p => (p.1, { p.2 with device := dev })) := by
  induction calls with
  | nil => intro b dev; rfl
  | cons c calls ih =>
    intro b dev
    cases c with
    | submit d =>
      simp only [run, SubmitExperience_device]
      cases SubmitExperience b d with
      | error e => rfl
      | ok p => exact ih p.1 dev
    | shuffled batchSize =>
      simp only [run, GetAllBatchesShuffled_device]
      have hblocks : shuffledBlocks ({ b with device := dev } : ExperienceBuffer E α) batchSize
          = shuffledBlocks b batchSize := rfl
      cases GetAllBatchesShuffled b batchSize with
      | error e => rfl
      | ok p =>
        simp only [Except.map, ih p.2 dev, hblocks]
        cases run p.2 calls with
        | error e => rfl
        | ok q => rfl
    | clear =>
      simp only [run]
      exact ih (Clear b) dev

/-- C6: two buffers constructed with the same `maxSize` and seed (whatever their device tags)
that receive the same sequence of `SubmitExperience`, `GetAllBatchesShuffled` and `Clear` calls
produce the same log: at every `GetAllBatchesShuffled` call the same index blocks and the same
batches, and the same call, if any, throws.  The log is a function of the capacity, the seed and
the call sequence only. -/
theorem shuffled_deterministic (maxSize : Nat) (seed : Int) (device₁ device₂ : Device)
    (calls : List (Call α)) :
    (run (ExperienceBuffer.ctor maxSize seed device₁ : ExperienceBuffer E α) calls).map Prod.fst
      = (run (ExperienceBuffer.ctor maxSize seed device₂ : ExperienceBuffer E α) calls).map
          Prod.fst := by
  have h := run_device calls
    (ExperienceBuffer.ctor maxSize seed device₁ : ExperienceBuffer E α) device₂
  change _ = (run ({ (ExperienceBuffer.ctor maxSize seed device₁ : ExperienceBuffer E α) with
    device := device₂ }) calls).map Prod.fst
  rw [h]
  cases run (ExperienceBuffer.ctor maxSize seed device₁ : ExperienceBuffer E α) calls with
  | error e => rfl
  | ok p => rfl

/-- C7: after `Clear()` a reachable buffer is equal to a newly constructed buffer with the same
`maxSize`, seed and device: `curSize` is 0, the stored tensors are reset, the engine is
reseeded with the original seed; so any sequence of calls replayed after `Clear` yields the same
log and final state as on a new buffer. -/
theorem clear_eq_ctor (maxSize : Nat) (seed : Int) (device : Device)
    (b : ExperienceBuffer E α) (hr : Reachable maxSize seed device b) :
    Clear b = ExperienceBuffer.ctor maxSize seed device ∧
      (Clear b).curSize = 0 ∧ (Clear b).data = ExperienceTensors.empty ∧
      (Clear b).rng = E.ctor seed ∧
      ∀ calls : List (Call α),
        run (Clear b) calls = run (ExperienceBuffer.ctor maxSize seed device) calls := by
  obtain ⟨_, hm, hs, hd⟩ := hr.inv
  have h : Clear b = ExperienceBuffer.ctor maxSize seed device := by
    simp only [Clear, ExperienceBuffer.ctor, E.reseed_eq, hm, hs, hd]
  refine ⟨h, rfl, rfl, ?_, fun calls => by rw [h]⟩
  rw [h]; rfl

end ExperienceBuffer

theorem sampleBuffer_reachable :
    ExperienceBuffer.Reachable 8 7 Device.cpu sampleBuffer :=
  ExperienceBuffer.Reachable.submit ExperienceBuffer.Reachable.ctor
    (batchOf_uniform [10, 11, 12, 13, 14, 15, 16, 17])
    (rfl : ExperienceBuffer.SubmitExperience (ExperienceBuffer.ctor 8 7 Device.cpu)
        (batchOf [10, 11, 12, 13, 14, 15, 16, 17])
      = .ok (sampleBuffer, batchOf [10, 11, 12, 13, 14, 15, 16, 17]))

/-- Witness of C4: eight stored rows drawn in batches of three give two batches of three rows;
two shuffled indices are dropped. -/
theorem shuffled_batches_count_witness :
    ∃ (out : List (SampleSet Int)) (b' : ExperienceBuffer minstdEngine Int),
      ExperienceBuffer.GetAllBatchesShuffled sampleBuffer 3 = .ok (out, b') ∧
      out.length = 8 / 3 ∧
      (∀ s ∈ out, s.actions.length = 3 ∧ s.logProbs.length = 3 ∧ s.states.length = 3 ∧
        s.values.length = 3 ∧ s.advantages.length = 3) := by
  obtain ⟨out, b', h1, h2, h3, _⟩ :=
    (ExperienceBuffer.shuffled_batches_count 8 7 Device.cpu sampleBuffer 3
      sampleBuffer_reachable).1 (by decide)
  exact ⟨out, b', h1, h2, h3⟩

/-- Witness of C5, the scenario seed 7, `curSize = 8`, `batchSize = 4`: the two blocks drawn. -/
theorem shuffled_blocks_disjoint_witness :
    ExperienceBuffer.shuffledBlocks sampleBuffer 4 = .ok [[1, 0, 2, 3], [5, 6, 4, 7]] ∧
    ∃ blocks, ExperienceBuffer.shuffledBlocks sampleBuffer 4 = .ok blocks ∧
      (∀ blk ∈ blocks, ∀ i ∈ blk, i < 8) ∧ (∀ blk ∈ blocks, blk.Nodup) ∧
      blocks.Pairwise List.Disjoint := by
  refine ⟨rfl, ?_⟩
  obtain ⟨blocks, h1, _, _, h4, h5, h6, _⟩ :=
    ExperienceBuffer.shuffled_blocks_disjoint 8 7 Device.cpu sampleBuffer 4
      sampleBuffer_reachable (by decide)
  exact ⟨blocks, h1, fun blk hb i hi => (h4 blk hb i hi).1, h5, h6⟩

/-- Witness of C7: clearing the sample buffer gives back the buffer `ExperienceBuffer(8, 7, cpu)`. -/
theorem clear_eq_ctor_witness :
    ExperienceBuffer.Clear sampleBuffer = ExperienceBuffer.ctor 8 7 Device.cpu :=
  (ExperienceBuffer.clear_eq_ctor 8 7 Device.cpu sampleBuffer sampleBuffer_reachable).1

/-! ## Collector pool -/

theorem mapAccumM_inv {σ β : Type} (f : σ → β → Except Fault (σ × β)) (I : σ → Prop)
    (hf : ∀ s x s' x', I s → f s x = .ok (s', x') → I s') :
    ∀ (xs : List β) (s s' : σ) (xs' : List β),
      I s → mapAccumM f s xs = .ok (s', xs') → I s' := by
  intro xs
  induction xs with
  | nil =>
    intro s s' xs' hI h
    simp only [mapAccumM, Except.ok.injEq, Prod.mk.injEq] at h
    exact h.1 ▸ hI
  | cons x xs ih =>
    intro s s' xs' hI h
    simp only [mapAccumM] at h
    cases hfx : f s x with
    | error e => simp [hfx] at h
    | ok p =>
      obtain ⟨s₁, x'⟩ := p
      simp only [hfx] at h
      cases hrest : mapAccumM f s₁ xs with
      | error e => simp [hrest] at h
      | ok q =>
        obtain ⟨s₂, xs₂⟩ := q
        simp only [hrest, Except.ok.injEq, Prod.mk.injEq] at h
        exact h.1 ▸ ih s₁ s₂ xs₂ (hf s x s₁ x' hI hfx) hrest

theorem mapAccumM_out {σ β : Type} (f : σ → β → Except Fault (σ × β)) (Q : β → β → Prop)
    (hf : ∀ s x s' x', f s x = .ok (s', x') → Q x x') :
    ∀ (xs : List β) (s s' : σ) (xs' : List β),
      mapAccumM f s xs = .ok (s', xs') → List.Forall₂ Q xs xs' := by
  intro xs
  induction xs with
  | nil =>
    intro s s' xs' h
    simp only [mapAccumM, Except.ok.injEq, Prod.mk.injEq] at h
    exact h.2 ▸ List.Forall₂.nil
  | cons x xs ih =>
    intro s s' xs' h
    simp only [mapAccumM] at h
    cases hfx : f s x with
    | error e => simp [hfx] at h
    | ok p =>
      obtain ⟨s₁, x'⟩ := p
      simp only [hfx] at h
      cases hrest : mapAccumM f s₁ xs with
      | error e => simp [hrest] at h
      | ok q =>
        obtain ⟨s₂, xs₂⟩ := q
        simp only [hrest, Except.ok.injEq, Prod.mk.injEq] at h
        exact h.2 ▸ List.Forall₂.cons (hf s x s₁ x' hfx) (ih s₁ s₂ xs₂ hrest)

theorem mapAccumM_sum {σ β : Type} (f : σ → β → Except Fault (σ × β)) (tot : σ → Nat)
    (w : β → Nat) (hf : ∀ s x s' x', f s x = .ok (s', x') → tot s' = tot s + w x) :
    ∀ (xs : List β) (s s' : σ) (xs' : List β),
      mapAccumM f s xs = .ok (s', xs') → tot s' = tot s + (xs.map w).sum := by
  intro xs
  induction xs with
  | nil =>
    intro s s' xs' h
    simp only [mapAccumM, Except.ok.injEq, Prod.mk.injEq] at h
    simp [h.1]
  | cons x xs ih =>
    intro s s' xs' h
    simp only [mapAccumM] at h
    cases hfx : f s x with
    | error e => simp [hfx] at h
    | ok p =>
      obtain ⟨s₁, x'⟩ := p
      simp only [hfx] at h
      cases hrest : mapAccumM f s₁ xs with
      | error e => simp [hrest] at h
      | ok q =>
        obtain ⟨s₂, xs₂⟩ := q
        simp only [hrest, Except.ok.injEq, Prod.mk.injEq] at h
        rw [← h.1, ih s₁ s₂ xs₂ hrest, hf s x s₁ x' hfx, List.map_cons, List.sum_cons,
          Nat.add_assoc]

theorem mapAccumM_mem {σ β γ : Type} (f : σ → β → Except Fault (σ × β)) (proj : σ → List γ)
    (P : β → γ → Prop)
    (hf : ∀ s x s' x', f s x = .ok (s', x') → ∀ y ∈ proj s', y ∈ proj s ∨ P x y) :
    ∀ (xs : List β) (s s' : σ) (xs' : List β),
      mapAccumM f s xs = .ok (s', xs') → ∀ y ∈ proj s', y ∈ proj s ∨ ∃ x ∈ xs, P x y := by
  intro xs
  induction xs with
  | nil =>
    intro s s' xs' h y hy
    simp only [mapAccumM, Except.ok.injEq, Prod.mk.injEq] at h
    exact Or.inl (h.1 ▸ hy)
  | cons x xs ih =>
    intro s s' xs' h y hy
    simp only [mapAccumM] at h
    cases hfx : f s x with
    | error e => simp [hfx] at h
    | ok p =>
      obtain ⟨s₁, x'⟩ := p
      simp only [hfx] at h
      cases hrest : mapAccumM f s₁ xs with
      | error e => simp [hrest] at h
      | ok q =>
        obtain ⟨s₂, xs₂⟩ := q
        simp only [hrest, Except.ok.injEq, Prod.mk.injEq] at h
        rcases ih s₁ s₂ xs₂ hrest y (h.1 ▸ hy) with h1 | ⟨z, hz, hPz⟩
        · rcases hf s x s₁ x' hfx y h1 with h2 | h2
          · exact Or.inl h2
          · exact Or.inr ⟨x, List.mem_cons_self _ _, h2⟩
        · exact Or.inr ⟨z, List.mem_cons_of_mem _ hz, hPz⟩

namespace GameTrajectory

variable {α : Type}

/-- What the assignment to the last `truncateds` entry does: the segment keeps its size and its
`done` flags, and its last transition has `truncated = 1` exactly when its `done` is 0. -/
theorem fixLast_spec (traj moved : GameTrajectory α) (h : traj.fixLast = .ok moved) :
    moved.size = traj.size ∧
      moved.data.map Transition.done = traj.data.map Transition.done ∧
      moved.data.length = traj.data.length ∧
      ∃ row, moved.data[moved.size - 1]? = some row ∧ traj.data[traj.size - 1]?.map
          Transition.done = some row.done ∧
        (row.truncated = 1 ↔ row.done = 0) ∧ (row.truncated = 0 ↔ row.done ≠ 0) := by
  unfold fixLast at h
  cases hrow : traj.data[traj.size - 1]? with
  | none => simp [hrow] at h
  | some row =>
    simp only [hrow, Except.ok.injEq] at h
    subst h
    have hlt : traj.size - 1 < traj.data.length := by
      rcases List.getElem?_eq_some_iff.mp hrow with ⟨hlt, _⟩
      exact hlt
    have hget : traj.data[traj.size - 1] = row := by
      rcases List.getElem?_eq_some_iff.mp hrow with ⟨_, hg⟩
      exact hg
    refine ⟨rfl, ?_, by simp, ?_⟩
    · apply List.ext_getElem
      · simp
      · intro n h1 h2
        simp only [List.getElem_map, List.getElem_set]
        split
        · rename_i heq
          subst heq
          simp [hget]
        · rfl
    · refine ⟨{ row with truncated := if row.done = 0 then 1 else 0 }, ?_, rfl, ?_, ?_⟩
      · simp [List.getElem?_set, hlt]
      · by_cases hd : row.done = 0 <;> simp [hd]
      · by_cases hd : row.done = 0 <;> simp [hd]

end GameTrajectory

theorem forall₂_right {β : Type} {Q : β → β → Prop} {xs xs' : List β}
    (h : List.Forall₂ Q xs xs') : ∀ x' ∈ xs', ∃ x ∈ xs, Q x x' := by
  induction h with
  | nil => intro x' hx'; cases hx'
  | cons hq _ ih =>
    intro x' hx'
    rcases List.mem_cons.mp hx' with rfl | hx''
    · exact ⟨_, List.mem_cons_self _ _, hq⟩
    · obtain ⟨x, hx, hQ⟩ := ih x' hx''
      exact ⟨x, List.mem_cons_of_mem _ hx, hQ⟩

namespace ThreadAgentManager

variable {α : Type}

theorem harvestTraj_spec (acc acc' : Harvest α) (traj traj' : GameTrajectory α)
    (h : harvestTraj acc traj = .ok (acc', traj')) :
    acc'.2 = acc.2 + traj.size ∧ Emptied traj traj' ∧ (Agree acc → Agree acc') ∧
      ∀ y ∈ acc'.1, y ∈ acc.1 ∨ Harvested traj y := by
  unfold harvestTraj at h
  by_cases hpos : traj.size > 0
  · rw [if_pos hpos] at h
    cases hfix : traj.fixLast with
    | error e => simp [hfix] at h
    | ok moved =>
      simp only [hfix, Except.ok.injEq, Prod.mk.injEq] at h
      obtain ⟨rfl, rfl⟩ := h
      have hsz := (GameTrajectory.fixLast_spec traj moved hfix).1
      refine ⟨rfl, ⟨rfl, fun _ => rfl⟩, ?_, ?_⟩
      · intro hag
        simp only [Agree] at hag ⊢
        simp [hag, hsz]
      · intro y hy
        rcases List.mem_append.mp hy with h1 | h1
        · exact Or.inl h1
        · rw [List.mem_singleton] at h1
          exact Or.inr ⟨hpos, h1 ▸ hfix⟩
  · rw [if_neg hpos] at h
    simp only [Except.ok.injEq, Prod.mk.injEq] at h
    obtain ⟨rfl, rfl⟩ := h
    have h0 : traj.size = 0 := by omega
    exact ⟨by rw [h0]; rfl, ⟨h0, id⟩, id, fun y hy => Or.inl hy⟩

/-- The harvest of all segments of one agent (the two inner loops). -/
theorem harvestSets_spec (acc acc' : Harvest α)
    (sets sets' : List (List (GameTrajectory α)))
    (h : mapAccumM (mapAccumM harvestTraj) acc sets = .ok (acc', sets')) :
    acc'.2 = acc.2 + (sets.map fun trajSet => (trajSet.map fun t => t.size).sum).sum ∧
      List.Forall₂ (List.Forall₂ Emptied) sets sets' ∧ (Agree acc → Agree acc') ∧
      ∀ y ∈ acc'.1, y ∈ acc.1 ∨ ∃ trajSet ∈ sets, ∃ traj ∈ trajSet, Harvested traj y := by
  refine ⟨?_, ?_, ?_, ?_⟩
  · exact mapAccumM_sum (mapAccumM harvestTraj) (fun s => s.2)
      (fun trajSet => (trajSet.map fun t => t.size).sum)
      (fun s x s' x' hx => mapAccumM_sum harvestTraj (fun s => s.2) (fun t => t.size)
        (fun s t s' t' ht => (harvestTraj_spec s s' t t' ht).1) x s s' x' hx)
      sets acc acc' sets' h
  · exact mapAccumM_out (mapAccumM harvestTraj) (List.Forall₂ Emptied)
      (fun s x s' x' hx => mapAccumM_out harvestTraj Emptied
        (fun s t s' t' ht => (harvestTraj_spec s s' t t' ht).2.1) x s s' x' hx)
      sets acc acc' sets' h
  · intro hag
    exact mapAccumM_inv (mapAccumM harvestTraj) Agree
      (fun s x s' x' hs hx => mapAccumM_inv harvestTraj Agree
        (fun s t s' t' hs ht => (harvestTraj_spec s s' t t' ht).2.2.1 hs) x s s' x' hs hx)
      sets acc acc' sets' hag h
  · exact mapAccumM_mem (mapAccumM harvestTraj) (fun s => s.1)
      (fun trajSet y => ∃ traj ∈ trajSet, Harvested traj y)
      (fun s x s' x' hx => mapAccumM_mem harvestTraj (fun s => s.1) Harvested
        (fun s t s' t' ht => (harvestTraj_spec s s' t t' ht).2.2.2) x s s' x' hx)
      sets acc acc' sets' h

theorem emptied_sets {sets sets' : List (List (GameTrajectory α))}
    (h : List.Forall₂ (List.Forall₂ Emptied) sets sets') :
    (∀ trajSet' ∈ sets', ∀ t' ∈ trajSet', t'.size = 0) ∧
      ((∀ trajSet ∈ sets, ∀ t ∈ trajSet, t.Exact) →
        ∀ trajSet' ∈ sets', ∀ t' ∈ trajSet', t'.Exact) := by
  constructor
  · intro trajSet' hs' t' ht'
    obtain ⟨trajSet, _, hQ⟩ := forall₂_right h trajSet' hs'
    obtain ⟨t, _, hE⟩ := forall₂_right hQ t' ht'
    exact hE.1
  · intro hex trajSet' hs' t' ht'
    obtain ⟨trajSet, hs, hQ⟩ := forall₂_right h trajSet' hs'
    obtain ⟨t, ht, hE⟩ := forall₂_right hQ t' ht'
    exact hE.2 (hex trajSet hs t ht)

/-- One agent's harvest: its segments are emptied, its counter is zeroed, and the accumulators
grow by its segments. -/
theorem harvestAgent_spec (acc acc' : Harvest α) (a a' : ThreadAgent α)
    (h : harvestAgent acc a = .ok (acc', a')) :
    acc'.2 = acc.2 + a.segmentTotal ∧
      (a'.stepsCollected = 0 ∧ a'.segmentTotal = 0 ∧ (a.Exact → a'.Exact)) ∧
      (Agree acc → Agree acc') ∧
      ∀ y ∈ acc'.1, y ∈ acc.1 ∨
        ∃ trajSet ∈ a.trajectories, ∃ traj ∈ trajSet, Harvested traj y := by
  unfold harvestAgent at h
  cases hsets : mapAccumM (mapAccumM harvestTraj) acc a.trajectories with
  | error e => simp [hsets] at h
  | ok p =>
    obtain ⟨acc₁, sets'⟩ := p
    simp only [hsets, Except.ok.injEq, Prod.mk.injEq] at h
    obtain ⟨rfl, rfl⟩ := h
    obtain ⟨hsum, hout, hag, hmem⟩ := harvestSets_spec acc acc₁ a.trajectories sets' hsets
    obtain ⟨hzero, hex⟩ := emptied_sets hout
    refine ⟨hsum, ⟨rfl, ?_, hex⟩, hag, hmem⟩
    simp only [ThreadAgent.segmentTotal]
    apply List.sum_eq_zero
    intro n hn
    obtain ⟨trajSet', hs', rfl⟩ := List.mem_map.mp hn
    apply List.sum_eq_zero
    intro m hm
    obtain ⟨t', ht', rfl⟩ := List.mem_map.mp hm
    exact hzero trajSet' hs' t' ht'

/-- The whole harvest (the `try` block of `CollectTimesteps` up to `MultiAppend`). -/
theorem harvest_spec (agents agents' : List (ThreadAgent α)) (acc' : Harvest α)
    (h : mapAccumM harvestAgent ([], 0) agents = .ok (acc', agents')) :
    acc'.2 = (agents.map fun a => a.segmentTotal).sum ∧
      acc'.2 = (acc'.1.map fun t => t.size).sum ∧
      List.Forall₂ Drained agents agents' ∧
      ∀ y ∈ acc'.1, ∃ a ∈ agents, ∃ trajSet ∈ a.trajectories, ∃ traj ∈ trajSet,
        Harvested traj y := by
  refine ⟨?_, ?_, ?_, ?_⟩
  · have := mapAccumM_sum harvestAgent (fun s => s.2) (fun a => a.segmentTotal)
      (fun s a s' a' ha => (harvestAgent_spec s s' a a' ha).1) agents ([], 0) acc' agents' h
    simpa using this
  · exact mapAccumM_inv harvestAgent Agree
      (fun s a s' a' hs ha => (harvestAgent_spec s s' a a' ha).2.2.1 hs)
      agents ([], 0) acc' agents' rfl h
  · exact mapAccumM_out harvestAgent Drained
      (fun s a s' a' ha => (harvestAgent_spec s s' a a' ha).2.1) agents ([], 0) acc' agents' h
  · intro y hy
    rcases mapAccumM_mem harvestAgent (fun s => s.1)
      (fun a y => ∃ trajSet ∈ a.trajectories, ∃ traj ∈ trajSet, Harvested traj y)
      (fun s a s' a' ha => (harvestAgent_spec s s' a a' ha).2.2.2)
      agents ([], 0) acc' agents' h y hy with h1 | h1
    · cases h1
    · exact h1

end ThreadAgentManager

namespace ThreadAgent

variable {α : Type}

theorem appendPlayers_spec (done : Bool) (payload : Nat → α) :
    ∀ (trajSet : List (GameTrajectory α)) (j : Nat),
      ((appendPlayers done payload j trajSet).map fun t => t.size).sum
          = (trajSet.map fun t => t.size).sum + trajSet.length ∧
        ((∀ t ∈ trajSet, GameTrajectory.Exact t) →
          ∀ t ∈ appendPlayers done payload j trajSet, GameTrajectory.Exact t) ∧
        ∀ t ∈ appendPlayers done payload j trajSet, ∃ row, t.data.getLast? = some row ∧
          (row.done = 0 ↔ done = false) ∧ row.truncated = 0 := by
  intro trajSet
  induction trajSet with
  | nil => intro j; simp [appendPlayers]
  | cons traj rest ih =>
    intro j
    obtain ⟨h1, h2, h3⟩ := ih (j + 1)
    refine ⟨?_, ?_, ?_⟩
    · simp only [appendPlayers, List.map_cons, List.sum_cons, h1, List.length_cons,
        GameTrajectory.AppendSingleStep]
      omega
    · intro hex t ht
      simp only [appendPlayers, List.mem_cons] at ht
      rcases ht with rfl | ht
      · have := hex traj (List.mem_cons_self _ _)
        simp only [GameTrajectory.Exact, GameTrajectory.AppendSingleStep, List.length_append,
          List.length_singleton] at this ⊢
        omega
      · exact h2 (fun t ht => hex t (List.mem_cons_of_mem _ ht)) t ht
    · intro t ht
      simp only [appendPlayers, List.mem_cons] at ht
      rcases ht with rfl | ht
      · refine ⟨{ payload := payload j, done := if done then 1 else 0, truncated := 0 },
          by simp [GameTrajectory.AppendSingleStep], ?_, rfl⟩
        cases done <;> simp
      · exact h3 t ht

end ThreadAgent

namespace ThreadAgentManager

variable {α : Type}

/-- Reading off a normal return of `CollectTimesteps`. -/
theorem CollectTimesteps_ok_inv
    (MultiAppend : GameTrajectory α → List (GameTrajectory α) → Except Fault (GameTrajectory α))
    (mgr mgr' : ThreadAgentManager α) (amount : Nat) (result : GameTrajectory α)
    (h : CollectTimesteps MultiAppend mgr amount = .ok (result, mgr')) :
    amount ≤ mgr.totalSteps ∧
      ∃ trajs totalTimesteps agents',
        mapAccumM harvestAgent ([], 0) mgr.agents = .ok ((trajs, totalTimesteps), agents') ∧
        MultiAppend GameTrajectory.empty trajs = .ok result ∧
        result.size = totalTimesteps ∧ mgr' = { mgr with agents := agents' } := by
  unfold CollectTimesteps at h
  by_cases hge : mgr.totalSteps ≥ amount
  · rw [if_pos hge] at h
    cases hh : mapAccumM harvestAgent ([], 0) mgr.agents with
    | error e => simp [hh] at h
    | ok p =>
      obtain ⟨⟨trajs, tot⟩, agents'⟩ := p
      simp only [hh] at h
      cases hm : MultiAppend GameTrajectory.empty trajs with
      | error e => simp [hm] at h
      | ok r =>
        simp only [hm] at h
        by_cases hsz : r.size ≠ tot
        · rw [if_pos hsz] at h; cases h
        · rw [if_neg hsz] at h
          simp only [Except.ok.injEq, Prod.mk.injEq] at h
          obtain ⟨rfl, rfl⟩ := h
          exact ⟨hge, trajs, tot, agents', rfl, hm, not_not.mp hsz, rfl⟩
  · rw [if_neg hge] at h; cases h

end ThreadAgentManager

namespace ThreadAgentManager

variable {α : Type}

/-- C8: whenever `CollectTimesteps` returns, every segment it harvested (every entry of the
`trajs` handed to `MultiAppend`) is a non-empty stored segment of some worker whose last
transition now has `truncated` set (1) if and only if that transition's `done` is 0 (false),
and cleared (0) otherwise; the `done` flags are those of the stored segment.  The second part
records what `Run` wrote: `done` is 0 exactly when the game's step was not terminal. -/
theorem harvested_truncated_iff_not_done
    (MultiAppend : GameTrajectory α → List (GameTrajectory α) → Except Fault (GameTrajectory α))
    (mgr mgr' : ThreadAgentManager α) (amount : Nat) (result : GameTrajectory α)
    (h : CollectTimesteps MultiAppend mgr amount = .ok (result, mgr')) :
    (∃ trajs, MultiAppend GameTrajectory.empty trajs = .ok result ∧
      ∀ seg ∈ trajs, 0 < seg.size ∧
        (∃ row, seg.data[seg.size - 1]? = some row ∧
          (row.truncated = 1 ↔ row.done = 0) ∧ (row.truncated = 0 ↔ row.done ≠ 0)) ∧
        ∃ a ∈ mgr.agents, ∃ trajSet ∈ a.trajectories, ∃ traj ∈ trajSet,
          0 < traj.size ∧ traj.fixLast = .ok seg ∧ seg.size = traj.size ∧
          seg.data.map Transition.done = traj.data.map Transition.done) ∧
    (∀ (done : Bool) (payload : Nat → α) (j : Nat) (trajSet : List (GameTrajectory α)),
      ∀ t ∈ ThreadAgent.appendPlayers done payload j trajSet,
        ∃ row, t.data.getLast? = some row ∧ (row.done = 0 ↔ done = false) ∧
          row.truncated = 0) := by
  constructor
  · obtain ⟨_, trajs, tot, agents', hh, hm, _, _⟩ :=
      CollectTimesteps_ok_inv MultiAppend mgr mgr' amount result h
    obtain ⟨_, _, _, hmem⟩ := harvest_spec mgr.agents agents' (trajs, tot) hh
    refine ⟨trajs, hm, fun seg hseg => ?_⟩
    obtain ⟨a, ha, trajSet, hs, traj, ht, hpos, hfix⟩ := hmem seg hseg
    obtain ⟨hsz, hdone, _, row, hrow, _, hiff1, hiff0⟩ :=
      GameTrajectory.fixLast_spec traj seg hfix
    exact ⟨hsz ▸ hpos, ⟨row, hrow, hiff1, hiff0⟩, a, ha, trajSet, hs, traj, ht, hpos, hfix,
      hsz, hdone⟩
  · intro done payload j trajSet
    exact (ThreadAgent.appendPlayers_spec done payload trajSet j).2.2

/-- C10: whenever `CollectTimesteps` returns, the size of the returned `GameTrajectory` equals
the sum of the sizes of the segments it harvested, all of them non-empty (which is the total
length of all segments the workers held); and once the wait is over, a concatenation whose size
differs from that sum ends in the fatal error instead of being returned. -/
theorem collect_size_eq_sum
    (MultiAppend : GameTrajectory α → List (GameTrajectory α) → Except Fault (GameTrajectory α))
    (mgr : ThreadAgentManager α) (amount : Nat) :
    (∀ result mgr', CollectTimesteps MultiAppend mgr amount = .ok (result, mgr') →
      ∃ trajs totalTimesteps agents',
        mapAccumM harvestAgent ([], 0) mgr.agents = .ok ((trajs, totalTimesteps), agents') ∧
        MultiAppend GameTrajectory.empty trajs = .ok result ∧
        (∀ seg ∈ trajs, 0 < seg.size) ∧
        result.size = (trajs.map fun t => t.size).sum ∧
        result.size = (mgr.agents.map fun a => a.segmentTotal).sum) ∧
    (∀ trajs totalTimesteps agents' result, amount ≤ mgr.totalSteps →
      mapAccumM harvestAgent ([], 0) mgr.agents = .ok ((trajs, totalTimesteps), agents') →
      MultiAppend GameTrajectory.empty trajs = .ok result →
      result.size ≠ (trajs.map fun t => t.size).sum →
      CollectTimesteps MultiAppend mgr amount = .error Fault.fatal) := by
  constructor
  · intro result mgr' h
    obtain ⟨_, trajs, tot, agents', hh, hm, hsz, _⟩ :=
      CollectTimesteps_ok_inv MultiAppend mgr mgr' amount result h
    obtain ⟨htot, hag, _, hmem⟩ := harvest_spec mgr.agents agents' (trajs, tot) hh
    refine ⟨trajs, tot, agents', hh, hm, ?_, hsz.trans hag, hsz.trans htot⟩
    intro seg hseg
    obtain ⟨_, _, _, _, traj, _, hpos, hfix⟩ := hmem seg hseg
    rw [(GameTrajectory.fixLast_spec traj seg hfix).1]
    exact hpos
  · intro trajs tot agents' result hge hh hm hne
    obtain ⟨_, hag, _, _⟩ := harvest_spec mgr.agents agents' (trajs, tot) hh
    have hne' : result.size ≠ tot := fun h => hne (h.trans hag)
    simp only [CollectTimesteps, if_pos (show mgr.totalSteps ≥ amount from hge), hh, hm,
      if_pos hne']

end ThreadAgentManager

theorem sampleCollect_eq :
    ThreadAgentManager.CollectTimesteps GameTrajectory.MultiAppend samplePoolTicked 6
      = .ok (sampleCollect.1, sampleCollect.2) := by
  rfl

/-- Witness of C8: the harvest of the ticked sample pool; the segment of player 0 of game 0
ends in a non-terminal step and gets `truncated = 1`, the segment of player 0 of game 1 ends
in a terminal step and keeps `truncated = 0`. -/
theorem harvested_truncated_iff_not_done_witness :
    (∃ trajs, GameTrajectory.MultiAppend GameTrajectory.empty trajs = .ok sampleCollect.1 ∧
      ∀ seg ∈ trajs, 0 < seg.size ∧
        ∃ row, seg.data[seg.size - 1]? = some row ∧
          (row.truncated = 1 ↔ row.done = 0) ∧ (row.truncated = 0 ↔ row.done ≠ 0)) ∧
    sampleCollect.1.data.map (fun row => (row.done, row.truncated))
      = [(0, 0), (0, 1), (0, 0), (0, 1), (0, 0), (1, 0), (0, 0), (1, 0), (0, 1), (0, 1)] := by
  constructor
  · obtain ⟨trajs, hm, hall⟩ := (ThreadAgentManager.harvested_truncated_iff_not_done
      GameTrajectory.MultiAppend samplePoolTicked sampleCollect.2 6 sampleCollect.1
      sampleCollect_eq).1
    exact ⟨trajs, hm, fun seg hseg => ⟨(hall seg hseg).1, (hall seg hseg).2.1⟩⟩
  · decide

/-- Witness of C10: the ten rows returned for the ticked sample pool are the rows of the six
harvested segments. -/
theorem collect_size_eq_sum_witness :
    ∃ trajs totalTimesteps agents',
      mapAccumM ThreadAgentManager.harvestAgent ([], 0) samplePoolTicked.agents
        = .ok ((trajs, totalTimesteps), agents') ∧
      GameTrajectory.MultiAppend GameTrajectory.empty trajs = .ok sampleCollect.1 ∧
      (∀ seg ∈ trajs, 0 < seg.size) ∧
      sampleCollect.1.size = (trajs.map fun t => t.size).sum ∧
      sampleCollect.1.size = (samplePoolTicked.agents.map fun a => a.segmentTotal).sum :=
  (ThreadAgentManager.collect_size_eq_sum GameTrajectory.MultiAppend samplePoolTicked 6).1
    sampleCollect.1 sampleCollect.2 sampleCollect_eq

/-! ## PPO learner: configuration and loss -/

theorem cRem_ne_zero_iff (a b : Int) (hb : b ≠ 0) (hmin : ¬ (a = int64Min ∧ b = -1)) :
    ∃ r, cRem a b = .ok r ∧ (r ≠ 0 ↔ ¬ b ∣ a) := by
  refine ⟨Int.tmod a b, ?_, ?_⟩
  · simp only [cRem, hb, hmin, or_self, if_false]
  · constructor
    · intro h hd
      exact h (Int.tmod_eq_zero_of_dvd hd)
    · intro h h0
      exact h (Int.dvd_of_tmod_eq_zero h0)

namespace PPOLearner

/-- C11: the configuration check of the `PPOLearner` constructor ends in the fatal error if and
only if `batchSize` is not a multiple of `miniBatchSize`, where a `miniBatchSize` of 0 is first
replaced by `batchSize`; whenever the check passes, the stored `miniBatchSize` is that value and
divides the stored `batchSize`; and it does pass whenever the value divides `batchSize`, apart
from the two divisions C++ leaves undefined (`0 % 0` when both sizes are 0, and
`INT64_MIN % -1`), which are neither the fatal error nor a success. -/
theorem checkConfig_fatal_iff (config : PPOLearnerConfig) :
    (checkConfig config = .error Fault.fatal ↔
      ¬ ((if config.miniBatchSize = 0 then config.batchSize else config.miniBatchSize)
          ∣ config.batchSize)) ∧
    (∀ stored, checkConfig config = .ok stored →
      stored.miniBatchSize
          = (if config.miniBatchSize = 0 then config.batchSize else config.miniBatchSize) ∧
        stored.batchSize = config.batchSize ∧ stored.miniBatchSize ∣ stored.batchSize) ∧
    ((if config.miniBatchSize = 0 then config.batchSize else config.miniBatchSize)
        ∣ config.batchSize →
      (config.miniBatchSize = 0 → config.batchSize ≠ 0) →
      ¬ (config.batchSize = int64Min ∧ config.miniBatchSize = -1) →
      ∃ stored, checkConfig config = .ok stored) := by
  have hb : ({ config with miniBatchSize := config.batchSize } : PPOLearnerConfig).batchSize
      = config.batchSize := rfl
  by_cases h0 : config.miniBatchSize = 0
  · simp only [checkConfig, h0, if_true]
    by_cases hz : config.batchSize = 0
    · simp [cRem, hz]
    · have hmin : ¬ (config.batchSize = int64Min ∧ config.batchSize = -1) := by
        rintro ⟨h1, h2⟩
        rw [h1] at h2
        exact absurd h2 (by decide)
      obtain ⟨r, hr, hiff⟩ := cRem_ne_zero_iff config.batchSize config.batchSize hz hmin
      have hr0 : r = 0 := by
        by_contra hne
        exact (hiff.mp hne) (dvd_refl _)
      subst hr0
      simp [hr]
  · simp only [checkConfig, h0, if_false]
    by_cases hmin : config.batchSize = int64Min ∧ config.miniBatchSize = -1
    · have hd : config.miniBatchSize ∣ config.batchSize := by
        rw [hmin.2]; exact ⟨-config.batchSize, by ring⟩
      simp [cRem, hmin, hd]
    · obtain ⟨r, hr, hiff⟩ :=
        cRem_ne_zero_iff config.batchSize config.miniBatchSize h0 hmin
      by_cases hr0 : r = 0
      · have hd : config.miniBatchSize ∣ config.batchSize := by
          by_contra hnd
          exact (hiff.mpr hnd) hr0
        subst hr0
        simp [hr, hd]
      · have hnd := hiff.mp hr0
        simp [hr, hr0, hnd]

theorem clipped_sum (clipRange : ℚ) :
    ∀ ratio advantages : List ℚ, ratio.length = advantages.length →
      (∀ r ∈ ratio, r > 1 + clipRange) → (∀ a ∈ advantages, a > 0) →
      (List.zipWith min (List.zipWith (fun r a => r * a) ratio advantages)
        (List.zipWith (fun c a => c * a)
          (ratio.map fun r => clamp r (1 - clipRange) (1 + clipRange)) advantages)).sum
        = (1 + clipRange) * advantages.sum ∧
      (List.zipWith min (List.zipWith (fun r a => r * a) ratio advantages)
        (List.zipWith (fun c a => c * a)
          (ratio.map fun r => clamp r (1 - clipRange) (1 + clipRange)) advantages)).length
        = advantages.length := by
  intro ratio
  induction ratio with
  | nil =>
    intro advantages hlen _ _
    cases advantages with
    | nil => simp
    | cons a as => simp at hlen
  | cons r rs ih =>
    intro advantages hlen hr ha
    cases advantages with
    | nil => simp at hlen
    | cons a as =>
      have hlen' : rs.length = as.length := by simpa using hlen
      obtain ⟨h1, h2⟩ := ih as hlen' (fun x hx => hr x (List.mem_cons_of_mem _ hx))
        (fun x hx => ha x (List.mem_cons_of_mem _ hx))
      have hr0 : r > 1 + clipRange := hr r (List.mem_cons_self _ _)
      have ha0 : a > 0 := ha a (List.mem_cons_self _ _)
      have hclamp : clamp r (1 - clipRange) (1 + clipRange) = 1 + clipRange := by
        unfold clamp
        exact min_eq_right (le_trans (le_of_lt hr0) (le_max_left _ _))
      have hmin : min (r * a) (clamp r (1 - clipRange) (1 + clipRange) * a)
          = (1 + clipRange) * a := by
        rw [hclamp]
        exact min_eq_right (le_of_lt (mul_lt_mul_of_pos_right hr0 ha0))
      constructor
      · simp only [List.map_cons, List.zipWith_cons_cons, List.sum_cons, hmin, h1]
        ring
      · simp only [List.map_cons, List.zipWith_cons_cons, List.length_cons, h2]

theorem clipFraction_sum (clipRange : ℚ) (ratio : List ℚ)
    (hr : ∀ r ∈ ratio, r > 1 + clipRange) :
    (ratio.map fun r => if abs (r - 1) > clipRange then (1 : ℚ) else 0).sum = ratio.length := by
  induction ratio with
  | nil => simp
  | cons r rs ih =>
    have hr0 : r > 1 + clipRange := hr r (List.mem_cons_self _ _)
    have habs : abs (r - 1) > clipRange := lt_of_lt_of_le (by linarith) (le_abs_self _)
    simp only [List.map_cons, List.sum_cons, if_pos habs,
      ih (fun x hx => hr x (List.mem_cons_of_mem _ hx)), List.length_cons]
    push_cast
    ring

/-- C12: for every non-empty mini-batch in which every ratio exceeds `1 + clipRange` and every
advantage is positive, the policy loss equals `-(1 + clipRange) * mean(A)` and the SB3 clip
fraction equals 1; in particular a ratio of 2 everywhere with `clipRange = 0.2` gives the policy
loss `-1.2 * mean(A)` and the clip fraction 1 (over exact rationals). -/
theorem policyLoss_all_clipped (ratio advantages : List ℚ) (clipRange : ℚ)
    (hne : ratio ≠ []) (hlen : ratio.length = advantages.length)
    (hr : ∀ r ∈ ratio, r > 1 + clipRange) (ha : ∀ a ∈ advantages, a > 0) :
    policyLoss ratio advantages clipRange = -(1 + clipRange) * mean advantages ∧
      clipFraction ratio clipRange = 1 ∧
      (ratio = List.replicate ratio.length 2 → clipRange = 1 / 5 →
        policyLoss ratio advantages clipRange = -(6 / 5) * mean advantages) := by
  obtain ⟨hsum, hl⟩ := clipped_sum clipRange ratio advantages hlen hr ha
  have hloss : policyLoss ratio advantages clipRange = -(1 + clipRange) * mean advantages := by
    simp only [policyLoss, mean, hsum, hl]
    ring
  refine ⟨hloss, ?_, ?_⟩
  · have hpos : (ratio.length : ℚ) ≠ 0 := by
      have : ratio.length ≠ 0 := fun h => hne (List.length_eq_zero.mp h)
      exact_mod_cast this
    simp only [clipFraction, mean, clipFraction_sum clipRange ratio hr, List.length_map]
    exact div_self hpos
  · intro _ hc
    rw [hloss, hc]
    norm_num

end PPOLearner

/-- Witness of C11: a batch of 10 with mini-batches of 3 is refused, with mini-batches of 5 or
of 0 (replaced by 10) it is accepted. -/
theorem checkConfig_fatal_iff_witness :
    PPOLearner.checkConfig { batchSize := 10, miniBatchSize := 3 } = .error Fault.fatal ∧
    (∃ stored, PPOLearner.checkConfig { batchSize := 10, miniBatchSize := 5 } = .ok stored ∧
      stored.miniBatchSize = 5) ∧
    (∃ stored, PPOLearner.checkConfig { batchSize := 10, miniBatchSize := 0 } = .ok stored ∧
      stored.miniBatchSize = 10) := by
  refine ⟨(PPOLearner.checkConfig_fatal_iff { batchSize := 10, miniBatchSize := 3 }).1.mpr
    (by decide), ⟨_, rfl, rfl⟩, ⟨_, rfl, rfl⟩⟩

/-- Witness of C12, the scenario of the specification: ratio 2 everywhere, advantages 1 and 3,
`clipRange = 0.2`. -/
theorem policyLoss_all_clipped_witness :
    PPOLearner.policyLoss [2, 2] [1, 3] (1 / 5) = -(1 + 1 / 5) * PPOLearner.mean [1, 3] ∧
      PPOLearner.clipFraction [2, 2] (1 / 5) = 1 :=
  ⟨(PPOLearner.policyLoss_all_clipped [2, 2] [1, 3] (1 / 5) (by simp) rfl
      (by intro r hr; simp at hr; subst hr; norm_num)
      (by intro a ha; simp at ha; rcases ha with rfl | rfl <;> norm_num)).1,
   (PPOLearner.policyLoss_all_clipped [2, 2] [1, 3] (1 / 5) (by simp) rfl
      (by intro r hr; simp at hr; subst hr; norm_num)
      (by intro a ha; simp at ha; rcases ha with rfl | rfl <;> norm_num)).2.1⟩
/-! ## Zero learning rates -/

namespace PPOLearner

variable {E : RandomEngine} {α : Type}

theorem learnBatch_frame (T : Torch α) (hardware_concurrency : Nat)
    (trainPolicy trainCritic : Bool) (st st' : LearnState) (batch : SampleSet α)
    (h : learnBatch T hardware_concurrency trainPolicy trainCritic st batch = .ok st') :
    st'.ppo.config = st.ppo.config ∧
    (trainPolicy = false →
      st'.ppo.policy = st.ppo.policy ∧ st'.ppo.policyOptimizer = st.ppo.policyOptimizer) ∧
    (trainCritic = false →
      st'.ppo.valueNet = st.ppo.valueNet ∧ st'.ppo.valueOptimizer = st.ppo.valueOptimizer) := by
  unfold learnBatch at h
  split at h
  · exact absurd h (by simp)
  · injection h with h
    subst h
    refine ⟨rfl, ?_, ?_⟩
    · intro ht
      subst ht
      exact ⟨rfl, rfl⟩
    · intro ht
      subst ht
      exact ⟨rfl, rfl⟩

theorem learnBatches_frame (T : Torch α) (hardware_concurrency : Nat)
    (trainPolicy trainCritic : Bool) :
    ∀ (batches : List (SampleSet α)) (st st' : LearnState),
      learnBatches T hardware_concurrency trainPolicy trainCritic st batches = .ok st' →
      st'.ppo.config = st.ppo.config ∧
      (trainPolicy = false →
        st'.ppo.policy = st.ppo.policy ∧ st'.ppo.policyOptimizer = st.ppo.policyOptimizer) ∧
      (trainCritic = false →
        st'.ppo.valueNet = st.ppo.valueNet ∧ st'.ppo.valueOptimizer = st.ppo.valueOptimizer) := by
  intro batches
  induction batches with
  | nil =>
    intro st st' h
    simp only [learnBatches] at h
    injection h with h
    subst h
    exact ⟨rfl, fun _ => ⟨rfl, rfl⟩, fun _ => ⟨rfl, rfl⟩⟩
  | cons batch rest ih =>
    intro st st' h
    simp only [learnBatches] at h
    split at h
    · exact absurd h (by simp)
    · rename_i st₁ h₁
      obtain ⟨c₁, p₁, v₁⟩ := learnBatch_frame T hardware_concurrency trainPolicy trainCritic
        st st₁ batch h₁
      obtain ⟨c₂, p₂, v₂⟩ := ih st₁ st' h
      refine ⟨c₂.trans c₁, fun ht => ?_, fun ht => ?_⟩
      · exact ⟨(p₂ ht).1.trans (p₁ ht).1, (p₂ ht).2.trans (p₁ ht).2⟩
      · exact ⟨(v₂ ht).1.trans (v₁ ht).1, (v₂ ht).2.trans (v₁ ht).2⟩

theorem learnEpochs_frame (T : Torch α) (hardware_concurrency : Nat)
    (trainPolicy trainCritic : Bool) :
    ∀ (epochs : Nat) (st st' : LearnState) (expBuffer expBuffer' : ExperienceBuffer E α),
      learnEpochs T hardware_concurrency trainPolicy trainCritic epochs st expBuffer
          = .ok (st', expBuffer') →
      st'.ppo.config = st.ppo.config ∧
      (trainPolicy = false →
        st'.ppo.policy = st.ppo.policy ∧ st'.ppo.policyOptimizer = st.ppo.policyOptimizer) ∧
      (trainCritic = false →
        st'.ppo.valueNet = st.ppo.valueNet ∧ st'.ppo.valueOptimizer = st.ppo.valueOptimizer) := by
  intro epochs
  induction epochs with
  | zero =>
    intro st st' expBuffer expBuffer' h
    simp only [learnEpochs] at h
    injection h with h
    injection h with h₁ h₂
    subst h₁
    exact ⟨rfl, fun _ => ⟨rfl, rfl⟩, fun _ => ⟨rfl, rfl⟩⟩
  | succ epochs ih =>
    intro st st' expBuffer expBuffer' h
    simp only [learnEpochs] at h
    split at h
    · exact absurd h (by simp)
    · split at h
      · exact absurd h (by simp)
      · rename_i st₁ h₁
        obtain ⟨c₁, p₁, v₁⟩ := learnBatches_frame T hardware_concurrency trainPolicy trainCritic
          _ st st₁ h₁
        obtain ⟨c₂, p₂, v₂⟩ := ih st₁ st' _ expBuffer' h
        refine ⟨c₂.trans c₁, fun ht => ?_, fun ht => ?_⟩
        · exact ⟨(p₂ ht).1.trans (p₁ ht).1, (p₂ ht).2.trans (p₁ ht).2⟩
        · exact ⟨(v₂ ht).1.trans (v₁ ht).1, (v₂ ht).2.trans (v₁ ht).2⟩

theorem Learn_frame (T : Torch α) (cudaSupport : Bool) (hardware_concurrency : Nat)
    (ppo ppo' : PPOLearner) (expBuffer expBuffer' : ExperienceBuffer E α)
    (h : Learn T cudaSupport hardware_concurrency ppo expBuffer = .ok (ppo', expBuffer')) :
    ppo'.config = ppo.config ∧
    (ppo.config.policyLR = 0 →
      ppo'.policy = ppo.policy ∧ ppo'.policyOptimizer = ppo.policyOptimizer) ∧
    (ppo.config.criticLR = 0 →
      ppo'.valueNet = ppo.valueNet ∧ ppo'.valueOptimizer = ppo.valueOptimizer) := by
  unfold Learn at h
  simp only at h
  split at h
  · exact absurd h (by simp)
  · split at h
    · exact absurd h (by simp)
    · rename_i st buf h₁
      injection h with h
      injection h with h₂ h₃
      subst h₂
      obtain ⟨c, p, v⟩ := learnEpochs_frame T hardware_concurrency _ _ _ _ st _ buf h₁
      refine ⟨c, fun hz => ?_, fun hz => ?_⟩
      · exact p (by simp [hz])
      · exact v (by simp [hz])

end PPOLearner

namespace Learner

variable {E : RandomEngine} {α β : Type}

/-- C13: with both configured learning rates zero, an iteration of `Learner::Learn` is the
collection alone: it returns whenever `CollectTimesteps` does, with only the pool and the step
counter changed, so the learner (networks and optimizers) and the buffer are as before and the
calls logged are `SetStepCallback` and `CollectTimesteps`, never `AddNewExperience` or
`PPOLearner::Learn`; and `PPOLearner::Learn` itself leaves a network and its optimizer untouched
when that network's learning rate is zero. -/
theorem zero_lr_skips_learning (W : World E α β) (s : LoopState E α β)
    (hp : s.learner.config.ppo.policyLR = 0) (hc : s.learner.config.ppo.criticLR = 0) :
    (iteration W s =
      match ThreadAgentManager.CollectTimesteps W.MultiAppend (W.workers s.learner.agentMgr)
          s.learner.config.timestepsPerIteration with
      | .error e => .error e
      | .ok (timesteps, agentMgr) =>
        .ok { s with
              learner := { s.learner with
                agentMgr := agentMgr,
                totalTimesteps := s.learner.totalTimesteps + timesteps.size },
              log := s.log ++ [Event.SetStepCallback,
                Event.CollectTimesteps s.learner.config.timestepsPerIteration] }) ∧
    (∀ s', iteration W s = .ok s' →
      s'.learner.ppo = s.learner.ppo ∧ s'.learner.expBuffer = s.learner.expBuffer ∧
      s'.log = s.log ++ [Event.SetStepCallback,
        Event.CollectTimesteps s.learner.config.timestepsPerIteration] ∧
      Event.AddNewExperience ∉ s'.log.drop s.log.length ∧
      Event.Learn ∉ s'.log.drop s.log.length) ∧
    (∀ (T : Torch α) (cudaSupport : Bool) (hardware_concurrency : Nat) (ppo ppo' : PPOLearner)
        (expBuffer expBuffer' : ExperienceBuffer E α),
      PPOLearner.Learn T cudaSupport hardware_concurrency ppo expBuffer
          = .ok (ppo', expBuffer') →
      (ppo.config.policyLR = 0 →
        ppo'.policy = ppo.policy ∧ ppo'.policyOptimizer = ppo.policyOptimizer) ∧
      (ppo.config.criticLR = 0 →
        ppo'.valueNet = ppo.valueNet ∧ ppo'.valueOptimizer = ppo.valueOptimizer)) := by
  have heq : iteration W s =
      match ThreadAgentManager.CollectTimesteps W.MultiAppend (W.workers s.learner.agentMgr)
          s.learner.config.timestepsPerIteration with
      | .error e => .error e
      | .ok (timesteps, agentMgr) =>
        .ok { s with
              learner := { s.learner with
                agentMgr := agentMgr,
                totalTimesteps := s.learner.totalTimesteps + timesteps.size },
              log := s.log ++ [Event.SetStepCallback,
                Event.CollectTimesteps s.learner.config.timestepsPerIteration] } := by
    unfold iteration
    simp only [hp, hc, and_self, if_true]
  refine ⟨heq, ?_, ?_⟩
  · intro s' h
    rw [heq] at h
    split at h
    · exact absurd h (by simp)
    · injection h with h
      subst h
      refine ⟨rfl, rfl, rfl, ?_, ?_⟩ <;> simp
  · intro T cudaSupport hardware_concurrency ppo ppo' expBuffer expBuffer' h
    exact (PPOLearner.Learn_frame T cudaSupport hardware_concurrency ppo ppo' expBuffer
      expBuffer' h).2

end Learner

/-- Witness of C13: the sample learner has both learning rates zero; its iteration collects six
steps and returns with the learner as it was. -/
theorem zero_lr_skips_learning_witness :
    sampleLoopState.learner.config.ppo.policyLR = 0 ∧
    sampleLoopState.learner.config.ppo.criticLR = 0 ∧
    (∃ s', Learner.iteration sampleWorld sampleLoopState = .ok s' ∧
      s'.learner.ppo = samplePPO ∧
      s'.log = [Event.SetStepCallback, Event.CollectTimesteps 6]) := by
  have h := Learner.zero_lr_skips_learning sampleWorld sampleLoopState rfl rfl
  refine ⟨rfl, rfl, ?_⟩
  have hcol : ThreadAgentManager.CollectTimesteps sampleWorld.MultiAppend
      (sampleWorld.workers sampleLoopState.learner.agentMgr)
      sampleLoopState.learner.config.timestepsPerIteration = .ok sampleCollect :=
    sampleCollect_eq
  have h1 := h.1
  rw [hcol] at h1
  exact ⟨_, h1, (h.2.1 _ h1).1, (h.2.1 _ h1).2.2.1⟩
/-! ## Loading a network -/

namespace PPOLearner

variable {E : RandomEngine} {α : Type}

/-- C17: loading a network from a file succeeds only if every parameter has as many elements
after the load as before it: a successful `TorchLoadSaveSeq(seq, path, device, true)` returns
the network `torch::load` produced from the file, with the list of per-parameter element counts
unchanged (same number of parameters, same count at every position); and whenever `torch::load`
produces a network whose counts differ, the call is the fatal error, while equal counts make it
succeed. -/
theorem load_preserves_sizes (T : Torch α) (seq : Sequential) (path : Path) (fs : FileSystem) :
    (∀ seq' fs', TorchLoadSaveSeq T seq path true fs = .ok (seq', fs') →
      GetSeqSizes seq' = GetSeqSizes seq ∧
      (GetSeqSizes seq').length = (GetSeqSizes seq).length ∧
      (∀ i : Nat, (GetSeqSizes seq')[i]? = (GetSeqSizes seq)[i]?) ∧
      fs' = fs ∧
      ∃ content, fs.read path = some content ∧ T.load seq content = .ok seq') ∧
    (∀ content seq', fs.read path = some content → T.load seq content = .ok seq' →
      GetSeqSizes seq' ≠ GetSeqSizes seq →
      TorchLoadSaveSeq T seq path true fs = .error Fault.fatal) ∧
    (∀ content seq', fs.read path = some content → T.load seq content = .ok seq' →
      GetSeqSizes seq' = GetSeqSizes seq →
      TorchLoadSaveSeq T seq path true fs = .ok (seq', fs)) := by
  refine ⟨?_, ?_, ?_⟩
  · intro seq' fs' h
    simp only [TorchLoadSaveSeq, if_true] at h
    split at h
    · exact absurd h (by simp)
    · rename_i content hread
      split at h
      · exact absurd h (by simp)
      · rename_i loaded hload
        split at h
        · exact absurd h (by simp)
        · rename_i hsizes
          injection h with h
          injection h with h₁ h₂
          subst h₁
          subst h₂
          have hs : GetSeqSizes loaded = GetSeqSizes seq := by
            by_contra hne
            exact hsizes (fun heq => hne heq.symm)
          exact ⟨hs, by rw [hs], fun i => by rw [hs], rfl, content, hread, hload⟩
  · intro content seq' hread hload hne
    have hne' : GetSeqSizes seq ≠ GetSeqSizes seq' := fun heq => hne heq.symm
    simp only [TorchLoadSaveSeq, if_true, hread, hload, hne', ne_eq, not_false_eq_true]
  · intro content seq' hread hload heq
    simp only [TorchLoadSaveSeq, if_true, hread, hload, heq, ne_eq, not_true_eq_false,
      if_false]

end PPOLearner

/-- Witness of C17: over the sample policy (parameters of 2 and 1 elements), a file holding
parameters of 2 and 1 elements loads, and a file holding one parameter of 3 elements is the
fatal error. -/
theorem load_preserves_sizes_witness :
    PPOLearner.TorchLoadSaveSeq sampleTorch samplePPO.policy ["load", "5", "PPO_POLICY.lt"] true
        sampleCheckpointFS = .ok ([[[7, 8], [9]]], sampleCheckpointFS) ∧
    PPOLearner.TorchLoadSaveSeq sampleTorch samplePPO.policy ["p"] true
        [(["p"], Node.file (FileContent.model [[[7, 8, 9]]]))] = .error Fault.fatal :=
  ⟨(PPOLearner.load_preserves_sizes sampleTorch samplePPO.policy
      ["load", "5", "PPO_POLICY.lt"] sampleCheckpointFS).2.2
      (FileContent.model [[[7, 8], [9]]]) [[[7, 8], [9]]] rfl rfl (by decide),
   (PPOLearner.load_preserves_sizes sampleTorch samplePPO.policy ["p"]
      [(["p"], Node.file (FileContent.model [[[7, 8, 9]]]))]).2.1
      (FileContent.model [[[7, 8, 9]]]) [[[7, 8, 9]]] rfl rfl (by decide)⟩

/-! ## The loop of the orchestrator -/

namespace Learner

variable {E : RandomEngine} {α β : Type}

theorem saveIfDue_learner (W : World E α β) (s s' : LoopState E α β) (timestepsCollected : Nat)
    (h : saveIfDue W s timestepsCollected = .ok s') : s'.learner = s.learner := by
  unfold saveIfDue at h
  simp only at h
  split at h
  · split at h
    · exact absurd h (by simp)
    · injection h with h
      subst h
      rfl
  · injection h with h
    subst h
    rfl

theorem setDisableCollection_config (l : Learner E α β) (value : Bool) :
    (l.setDisableCollection value).config = l.config := rfl

theorem beforeLearn_config (W : World E α β) (l l' : Learner E α β)
    (timesteps : GameTrajectory β) (h : beforeLearn W l timesteps = .ok l') :
    l'.config = l.config := by
  unfold beforeLearn at h
  simp only at h
  repeat' split at h
  all_goals cases h <;> rfl

theorem learnPhase_config (W : World E α β) (l l' : Learner E α β)
    (timesteps : GameTrajectory β) (h : learnPhase W l timesteps = .ok l') :
    l'.config = l.config := by
  unfold learnPhase at h
  split at h
  · cases h
  · rename_i l₁ h₁
    simp only at h
    repeat' split at h
    all_goals cases h <;> exact beforeLearn_config W l l₁ timesteps h₁

theorem reportPhase_config (W : World E α β) (l l' : Learner E α β)
    (timestepsCollected : Nat) (calls : List Event)
    (h : reportPhase W l timestepsCollected = .ok (l', calls)) :
    l'.config = l.config := by
  unfold reportPhase at h
  simp only at h
  repeat' split at h
  all_goals cases h <;> rfl

theorem iteration_config (W : World E α β) (s s' : LoopState E α β)
    (h : iteration W s = .ok s') : s'.learner.config = s.learner.config := by
  unfold iteration at h
  simp only at h
  split at h
  · exact absurd h (by simp)
  · split at h
    · injection h with h
      subst h
      rfl
    · split at h
      · exact absurd h (by simp)
      · rename_i l₁ h₁
        split at h
        · exact absurd h (by simp)
        · rename_i l₂ calls h₂
          rw [saveIfDue_learner W _ s' _ h]
          simp only
          rw [reportPhase_config W _ _ _ _ h₂, learnPhase_config W _ _ _ h₁]

theorem Learn_exit (W : World E α β) :
    ∀ (fuel : Nat) (s s' : LoopState E α β), Learn W fuel s = .ok s' →
      loopCondition s'.learner = false ∧ s'.learner.config = s.learner.config := by
  intro fuel
  induction fuel with
  | zero =>
    intro s s' h
    simp [Learn] at h
  | succ fuel ih =>
    intro s s' h
    simp only [Learn] at h
    split at h
    · split at h
      · exact absurd h (by simp)
      · rename_i s₁ h₁
        obtain ⟨hc, hcfg⟩ := ih s₁ s' h
        exact ⟨hc, hcfg.trans (iteration_config W s s₁ h₁)⟩
    · rename_i hcond
      injection h with h
      subst h
      exact ⟨by simpa using hcond, rfl⟩

theorem loopCondition_iff (l : Learner E α β) :
    loopCondition l = true ↔
      l.totalTimesteps < l.config.timestepLimit ∨ l.config.timestepLimit = 0 := by
  simp [loopCondition]

/-- C19: the loop of `Learner::Learn` starts another iteration exactly when `totalTimesteps` is
below `timestepLimit` or `timestepLimit` is 0: with the condition true the loop runs the
iteration and goes on from its result, with the condition false it returns at once; so a state
it returns has a non-zero limit that the step count has reached, a learner at or past a non-zero
limit gets no iteration at all, and with a limit of 0 the loop never returns. -/
theorem loop_continues_iff (W : World E α β) (s : LoopState E α β) :
    (loopCondition s.learner = true ↔
      s.learner.totalTimesteps < s.learner.config.timestepLimit ∨
        s.learner.config.timestepLimit = 0) ∧
    (∀ fuel,
      (s.learner.totalTimesteps < s.learner.config.timestepLimit ∨
          s.learner.config.timestepLimit = 0 →
        Learn W (fuel + 1) s =
          match iteration W s with
          | .error e => .error e
          | .ok s' => Learn W fuel s') ∧
      (¬ (s.learner.totalTimesteps < s.learner.config.timestepLimit ∨
          s.learner.config.timestepLimit = 0) →
        Learn W (fuel + 1) s = .ok s)) ∧
    (∀ fuel s', Learn W fuel s = .ok s' →
      s'.learner.config.timestepLimit = s.learner.config.timestepLimit ∧
      s'.learner.config.timestepLimit ≠ 0 ∧
      s'.learner.config.timestepLimit ≤ s'.learner.totalTimesteps) ∧
    (s.learner.config.timestepLimit = 0 →
      loopCondition s.learner = true ∧ ∀ fuel s', Learn W fuel s ≠ .ok s') := by
  have hexit : ∀ fuel s', Learn W fuel s = .ok s' →
      s'.learner.config.timestepLimit = s.learner.config.timestepLimit ∧
      s'.learner.config.timestepLimit ≠ 0 ∧
      s'.learner.config.timestepLimit ≤ s'.learner.totalTimesteps := by
    intro fuel s' h
    obtain ⟨hc, hcfg⟩ := Learn_exit W fuel s s' h
    have hn : ¬ (s'.learner.totalTimesteps < s'.learner.config.timestepLimit ∨
        s'.learner.config.timestepLimit = 0) := by
      rw [← loopCondition_iff, hc]
      simp
    refine ⟨by rw [hcfg], fun h0 => hn (Or.inr h0), ?_⟩
    exact Nat.le_of_not_lt (fun hlt => hn (Or.inl hlt))
  refine ⟨loopCondition_iff s.learner, ?_, hexit, ?_⟩
  · intro fuel
    constructor
    · intro hc
      have : loopCondition s.learner = true := (loopCondition_iff s.learner).mpr hc
      simp only [Learn, this, if_true]
    · intro hc
      have : loopCondition s.learner = false := by
        cases hl : loopCondition s.learner with
        | false => rfl
        | true => exact absurd ((loopCondition_iff s.learner).mp hl) hc
      simp [Learn, this]
  · intro h0
    refine ⟨(loopCondition_iff s.learner).mpr (Or.inr h0), ?_⟩
    intro fuel s' h
    obtain ⟨hl, hne, _⟩ := hexit fuel s' h
    exact hne (hl.trans h0)

end Learner

/-- Witness of C19: at 300 steps with a limit of 300 the loop returns at once; with a limit of
0 the condition holds. -/
theorem loop_continues_iff_witness :
    Learner.Learn sampleWorld 1
        { sampleLoopState with
          learner := { sampleLearner with
            config := { sampleLearner.config with timestepLimit := 300 } } }
      = .ok { sampleLoopState with
          learner := { sampleLearner with
            config := { sampleLearner.config with timestepLimit := 300 } } } ∧
    Learner.loopCondition sampleLoopState.learner = true :=
  ⟨((Learner.loop_continues_iff sampleWorld
      { sampleLoopState with
        learner := { sampleLearner with
          config := { sampleLearner.config with timestepLimit := 300 } } }).2.1 0).2
      (by decide),
   (Learner.loop_continues_iff sampleWorld sampleLoopState).1.mpr (Or.inr rfl)⟩

/-! ## Autocast -/

namespace PPOLearner

variable {E : RandomEngine} {α : Type}

/-- C20 as stated fails: in a build with `RG_CUDA_SUPPORT`, `Learn` with `autocastLearn` on and
the device a CPU is not the fatal error; over a buffer that holds fewer rows than one batch it
returns, having counted one update. -/
theorem autocast_on_cpu_returns :
    sampleAutocastPPO.config.autocastLearn = true ∧
    sampleAutocastPPO.device = Device.cpu ∧
    (Learn sampleTorch true 2 sampleAutocastPPO sampleBuffer).toOption.map (fun r => r.1)
      = some { sampleAutocastPPO with cumulativeModelUpdates := 1 } := by
  refine ⟨rfl, rfl, ?_⟩
  rfl

/-- C20 amended: with `autocastLearn` on, `Learn` is the fatal error in every build without
`RG_CUDA_SUPPORT`, whatever the device; in a build with `RG_CUDA_SUPPORT` the autocast check
raises nothing, on a CPU device too, and `Learn` goes on to its epochs. -/
theorem autocast_fatal_without_cuda_support (T : Torch α) (cudaSupport : Bool)
    (hardware_concurrency : Nat) (ppo : PPOLearner) (expBuffer : ExperienceBuffer E α)
    (h : ppo.config.autocastLearn = true) :
    (cudaSupport = false →
      ∀ device, Learn T cudaSupport hardware_concurrency { ppo with device := device } expBuffer
        = .error Fault.fatal) ∧
    (cudaSupport = true →
      Learn T cudaSupport hardware_concurrency ppo expBuffer =
        match learnEpochs T hardware_concurrency (decide (ppo.config.policyLR ≠ 0))
            (decide (ppo.config.criticLR ≠ 0)) ppo.config.epochs.toNat
            { ppo := ppo, numIterations := 0, numMinibatchIterations := 0 } expBuffer with
        | .error e => .error e
        | .ok (st, expBuffer') =>
          .ok ({ st.ppo with
                 cumulativeModelUpdates := st.ppo.cumulativeModelUpdates + max st.numIterations 1 },
               expBuffer')) := by
  constructor
  · intro hc device
    subst hc
    simp [Learn, h]
  · intro hc
    subst hc
    simp [Learn]

end PPOLearner

/-- Witness of C20 amended: the sample learner with autocast on, in a build without
`RG_CUDA_SUPPORT`, is the fatal error on CPU and on a CUDA device alike. -/
theorem autocast_fatal_without_cuda_support_witness :
    sampleAutocastPPO.config.autocastLearn = true ∧
    PPOLearner.Learn sampleTorch false 2 { sampleAutocastPPO with device := Device.cpu }
      sampleBuffer = .error Fault.fatal ∧
    PPOLearner.Learn sampleTorch false 2 { sampleAutocastPPO with device := Device.cuda 0 }
      sampleBuffer = .error Fault.fatal :=
  ⟨rfl,
   (PPOLearner.autocast_fatal_without_cuda_support sampleTorch false 2 sampleAutocastPPO
      sampleBuffer rfl).1 rfl Device.cpu,
   (PPOLearner.autocast_fatal_without_cuda_support sampleTorch false 2 sampleAutocastPPO
      sampleBuffer rfl).1 rfl (Device.cuda 0)⟩
/-! ## Checkpoints -/

namespace FileSystem

theorem read_of_not_exists (fs : FileSystem) (p : Path) (h : fs.pathExists p = false) :
    fs.read p = none := by
  unfold pathExists at h
  unfold read
  cases hn : fs.node p with
  | none => rfl
  | some n => rw [hn] at h; simp at h

theorem read_write (fs fs' : FileSystem) (p : Path) (content : FileContent)
    (h : fs.write p content = some fs') : fs'.read p = some content := by
  unfold write at h
  split at h
  · exact absurd h (by simp)
  · injection h with h
    subst h
    have hnone : List.find? (fun e => e.1 == p) (fs.filter fun e => !(e.1 == p)) = none := by
      rw [List.find?_eq_none]
      intro x hx
      simp only [List.mem_filter] at hx
      simpa using hx.2
    simp [read, node, List.find?_append, hnone]

end FileSystem

theorem getDoubles_dump (xs : List Double) (h : ∀ v ∈ xs, ∃ x, v = Double.finite x) :
    getDoubles ((MakeJSONArray xs).map Double.dump) = .ok xs := by
  induction xs with
  | nil => rfl
  | cons v vs ih =>
    obtain ⟨x, rfl⟩ := h v (List.mem_cons_self _ _)
    have ih' := ih (fun w hw => h w (List.mem_cons_of_mem _ hw))
    have hcons : MakeJSONArray (Double.finite x :: vs) = Double.finite x :: MakeJSONArray vs := by
      simp [MakeJSONArray, Double.isnan]
    rw [hcons]
    simp only [List.map_cons, getDoubles, Double.dump, JsonNumber.getDouble, ih']

namespace PPOLearner

variable {α : Type}

theorem TorchLoadSaveSeq_load_fs (T : Torch α) (seq seq' : Sequential) (path : Path)
    (fs fs' : FileSystem) (h : TorchLoadSaveSeq T seq path true fs = .ok (seq', fs')) :
    fs' = fs := by
  simp only [TorchLoadSaveSeq, if_true] at h
  repeat' split at h
  all_goals cases h <;> rfl

theorem TorchLoadSaveAll_missing_policy (T : Torch α) (learner : PPOLearner) (folderPath : Path)
    (fs : FileSystem) (h : fs.pathExists (folderPath ++ [(MODEL_FILE_NAMES 0)]) = false) :
    TorchLoadSaveAll T learner folderPath true fs = .error Fault.fatal := by
  simp [TorchLoadSaveAll, h]

theorem LoadFrom_missing_policy (T : Torch α) (learner : PPOLearner) (folderPath : Path)
    (fs : FileSystem) (h : fs.pathExists (folderPath ++ [(MODEL_FILE_NAMES 0)]) = false) :
    LoadFrom T learner folderPath fs = .error Fault.fatal := by
  unfold LoadFrom
  split
  · rfl
  · rw [TorchLoadSaveAll_missing_policy T learner folderPath fs h]

theorem TorchLoadSaveAll_missing_critic (T : Torch α) (learner learner' : PPOLearner)
    (folderPath : Path) (fs fs' : FileSystem)
    (h : fs.pathExists (folderPath ++ [(MODEL_FILE_NAMES 1)]) = false)
    (hload : TorchLoadSaveAll T learner folderPath true fs = .ok (learner', fs')) :
    learner'.valueNet = learner.valueNet := by
  unfold TorchLoadSaveAll at hload
  split at hload
  · exact absurd hload (by simp)
  · split at hload
    · exact absurd hload (by simp)
    · rename_i policy fs₁ hpolicy
      have hfs : fs₁ = fs := TorchLoadSaveSeq_load_fs T _ _ _ _ _ hpolicy
      subst hfs
      simp only [h, Bool.not_true, Bool.false_or, Bool.false_eq_true, if_false, if_true] at hload
      repeat' split at hload
      all_goals cases hload <;> rfl

end PPOLearner

namespace Learner

variable {E : RandomEngine} {α β : Type}

theorem LoadStats_missing (LoadRatingSet : SkillJson → List (String × ℚ)) (l : Learner E α β)
    (path : Path) (fs : FileSystem) (h : fs.pathExists path = false) :
    l.LoadStats LoadRatingSet path fs = .error Fault.fatal := by
  unfold LoadStats
  rw [FileSystem.read_of_not_exists fs path h]

/-- C18 as stated fails: a checkpoint directory that holds the stats file and the policy
weights but no value weights file loads without error; the policy and the counters come from
the files and the value network stays as it was. -/
theorem missing_value_weights_loads :
    sampleNoCriticFS.pathExists ["load", "5", PPOLearner.MODEL_FILE_NAMES 1] = false ∧
    (loadCheckpoint sampleTorch sampleWorld.LoadRatingSet sampleLearner ["load", "5"]
        sampleNoCriticFS).toOption.map
        (fun l => (l.ppo.policy, l.ppo.valueNet, l.totalTimesteps))
      = some ([[[7, 8], [9]]], sampleLearner.ppo.valueNet, 5) := by
  constructor
  · decide
  · rfl

/-- C18 amended: loading a checkpoint directory is the fatal error whenever the stats JSON file
is missing, and cannot succeed whenever the policy weights file is missing (`LoadFrom` is then
the fatal error); a missing value weights file is skipped, and a load that succeeds without it
leaves the value network as it was. -/
theorem load_missing_file (T : Torch α) (LoadRatingSet : SkillJson → List (String × ℚ))
    (l : Learner E α β) (loadFolder : Path) (fs : FileSystem) :
    (fs.pathExists (loadFolder ++ [STATS_FILE_NAME]) = false →
      l.loadCheckpoint T LoadRatingSet loadFolder fs = .error Fault.fatal) ∧
    (fs.pathExists (loadFolder ++ [(PPOLearner.MODEL_FILE_NAMES 0)]) = false →
      (∀ ppo : PPOLearner, ppo.LoadFrom T loadFolder fs = .error Fault.fatal) ∧
      (∃ e, l.loadCheckpoint T LoadRatingSet loadFolder fs = .error e)) ∧
    (fs.pathExists (loadFolder ++ [(PPOLearner.MODEL_FILE_NAMES 1)]) = false →
      ∀ ppo ppo' : PPOLearner, ppo.LoadFrom T loadFolder fs = .ok ppo' →
        ppo'.valueNet = ppo.valueNet) := by
  refine ⟨?_, ?_, ?_⟩
  · intro h
    unfold loadCheckpoint
    rw [LoadStats_missing LoadRatingSet l _ fs h]
  · intro h
    refine ⟨fun ppo => PPOLearner.LoadFrom_missing_policy T ppo loadFolder fs h, ?_⟩
    unfold loadCheckpoint
    split
    · exact ⟨_, rfl⟩
    · rw [PPOLearner.LoadFrom_missing_policy T _ loadFolder fs h]
      exact ⟨_, rfl⟩
  · intro h ppo ppo' hload
    unfold PPOLearner.LoadFrom at hload
    split at hload
    · exact absurd hload (by simp)
    · split at hload
      · exact absurd hload (by simp)
      · rename_i learner' fs' hall
        injection hload with hload
        subst hload
        exact PPOLearner.TorchLoadSaveAll_missing_critic T ppo learner' loadFolder fs fs' h hall

theorem statsJson_fields (l : Learner E α β) (j : StatsJson) (h : l.statsJson = some j) :
    j.cumulative_timesteps = l.totalTimesteps ∧
    j.cumulative_model_updates = l.ppo.cumulativeModelUpdates ∧
    j.epoch = l.totalEpochs ∧
    j.mean = (MakeJSONArray l.returnStats.runningMean).map Double.dump ∧
    j.var = (MakeJSONArray l.returnStats.runningVariance).map Double.dump ∧
    j.shape = l.returnStats.shape ∧ j.count = l.returnStats.count := by
  unfold statsJson at h
  simp only [Option.map_eq_some'] at h
  obtain ⟨r, _, hj⟩ := h
  subst hj
  exact ⟨rfl, rfl, rfl, rfl, rfl, rfl, rfl⟩

/-- C16 as stated fails: a learner whose running mean holds a NaN saves its stats without
error, and loading the file back gives an empty running mean, since `MakeJSONArray` leaves NaN
values out. -/
theorem nan_mean_not_restored :
    sampleNanLearner.returnStats.runningMean = [Double.nan] ∧
    ∃ fs' l',
      sampleNanLearner.SaveStats ["stats.json"] [] = .ok fs' ∧
      sampleLearner.LoadStats sampleWorld.LoadRatingSet ["stats.json"] fs' = .ok l' ∧
      l'.returnStats.runningMean = [] :=
  ⟨rfl, _, _, rfl, rfl, rfl⟩

/-- C16 amended: for every learner whose running mean and variance hold finite values only,
`SaveStats` followed by `LoadStats` on the file it wrote restores exactly the saved total
timesteps, cumulative model updates, total epochs, and the mean, variance, shape and count of
the running return statistics, whatever learner does the loading; and `SaveStats` does write
the file whenever the path can be opened and, with `sendMetrics` on, a metric sender exists. -/
theorem stats_round_trip (LoadRatingSet : SkillJson → List (String × ℚ))
    (l l₀ : Learner E α β) (path : Path) (fs : FileSystem)
    (hmean : ∀ v ∈ l.returnStats.runningMean, ∃ x, v = Double.finite x)
    (hvar : ∀ v ∈ l.returnStats.runningVariance, ∃ x, v = Double.finite x) :
    ((fs.write path (FileContent.raw "")).isSome = true →
      (l.config.sendMetrics = true → l.metricSender.isSome = true) →
      ∃ fs', l.SaveStats path fs = .ok fs') ∧
    (∀ fs', l.SaveStats path fs = .ok fs' →
      ∃ l', l₀.LoadStats LoadRatingSet path fs' = .ok l' ∧
        l'.totalTimesteps = l.totalTimesteps ∧
        l'.ppo.cumulativeModelUpdates = l.ppo.cumulativeModelUpdates ∧
        l'.totalEpochs = l.totalEpochs ∧
        l'.returnStats = l.returnStats) := by
  constructor
  · intro hw hs
    have hj : ∃ j, l.statsJson = some j := by
      unfold statsJson
      cases hsend : l.config.sendMetrics with
      | false => exact ⟨_, rfl⟩
      | true =>
        have := hs hsend
        cases hm : l.metricSender with
        | none => rw [hm] at this; simp at this
        | some m => exact ⟨_, rfl⟩
    obtain ⟨j, hj⟩ := hj
    have hw' : ∃ fs', fs.write path (FileContent.stats j) = some fs' := by
      unfold FileSystem.write at hw ⊢
      split
      · rename_i hc
        rw [if_pos hc] at hw
        simp at hw
      · exact ⟨_, rfl⟩
    obtain ⟨fs', hfs'⟩ := hw'
    refine ⟨fs', ?_⟩
    unfold SaveStats
    have hn : (fs.write path (FileContent.raw "")).isNone = false := by
      cases hx : fs.write path (FileContent.raw "") with
      | none => rw [hx] at hw; simp at hw
      | some _ => rfl
    simp only [hn, Bool.false_eq_true, if_false, hj, hfs']
  · intro fs' hsave
    unfold SaveStats at hsave
    split at hsave
    · exact absurd hsave (by simp)
    · split at hsave
      · exact absurd hsave (by simp)
      · rename_i j hj
        split at hsave
        · exact absurd hsave (by simp)
        · rename_i fs₁ hwrite
          injection hsave with hsave
          subst hsave
          obtain ⟨h1, h2, h3, h4, h5, h6, h7⟩ := statsJson_fields l j hj
          have hread := FileSystem.read_write fs fs₁ path _ hwrite
          have hm := getDoubles_dump _ hmean
          have hv := getDoubles_dump _ hvar
          rw [← h4] at hm
          rw [← h5] at hv
          cases hres : l₀.LoadStats LoadRatingSet path fs₁ with
          | error e =>
            unfold LoadStats at hres
            simp only [hread, hm, hv] at hres
            exact absurd hres (by simp)
          | ok l' =>
            unfold LoadStats at hres
            simp only [hread, hm, hv] at hres
            injection hres with hres
            subst hres
            refine ⟨_, rfl, h1, h2, h3, ?_⟩
            simp only [WelfordRunningStat.ctor, h6, h7]

end Learner

/-- Witness of C18 amended: in the sample load folder there is no checkpoint directory `9`, so
loading it is the fatal error; and the policy weights are missing from a directory that holds
the stats file alone, so `LoadFrom` is the fatal error there. -/
theorem load_missing_file_witness :
    sampleLearner.loadCheckpoint sampleTorch sampleWorld.LoadRatingSet ["load", "9"]
        sampleCheckpointFS = .error Fault.fatal ∧
    samplePPO.LoadFrom sampleTorch ["load", "5"]
        [(["load"], Node.dir), (["load", "5"], Node.dir),
         (["load", "5", "RUNNING_STATS.json"], Node.file (FileContent.stats sampleStats))]
      = .error Fault.fatal :=
  ⟨(Learner.load_missing_file sampleTorch sampleWorld.LoadRatingSet sampleLearner
      ["load", "9"] sampleCheckpointFS).1 (by decide),
   ((@Learner.load_missing_file minstdEngine Int Nat sampleTorch sampleWorld.LoadRatingSet
      sampleLearner ["load", "5"]
      [(["load"], Node.dir), (["load", "5"], Node.dir),
       (["load", "5", "RUNNING_STATS.json"], Node.file (FileContent.stats sampleStats))]).2.1
      (by decide)).1 samplePPO⟩

/-- Witness of C16 amended: the sample learner (mean 1/2, variance 2, one dimension, count 7)
saves its stats to a fresh file and gets them back. -/
theorem stats_round_trip_witness :
    (∀ v ∈ sampleLearner.returnStats.runningMean, ∃ x, v = Double.finite x) ∧
    (∀ v ∈ sampleLearner.returnStats.runningVariance, ∃ x, v = Double.finite x) ∧
    ∃ fs' l',
      sampleLearner.SaveStats ["stats.json"] [] = .ok fs' ∧
      sampleNanLearner.LoadStats sampleWorld.LoadRatingSet ["stats.json"] fs' = .ok l' ∧
      l'.totalTimesteps = 300 ∧ l'.returnStats = sampleLearner.returnStats := by
  have hmean : ∀ v ∈ sampleLearner.returnStats.runningMean, ∃ x, v = Double.finite x := by
    intro v hv
    exact ⟨1 / 2, by simpa [sampleLearner] using hv⟩
  have hvar : ∀ v ∈ sampleLearner.returnStats.runningVariance, ∃ x, v = Double.finite x := by
    intro v hv
    exact ⟨2, by simpa [sampleLearner] using hv⟩
  have h := Learner.stats_round_trip sampleWorld.LoadRatingSet sampleLearner sampleNanLearner
    ["stats.json"] [] hmean hvar
  obtain ⟨fs', hfs'⟩ := h.1 rfl (fun hs => absurd hs (by decide))
  obtain ⟨l', hl', h1, _, _, h4⟩ := h.2 fs' hfs'
  exact ⟨hmean, hvar, fs', l', hfs', hl', h1, h4⟩
/-! ## Choosing and pruning checkpoints -/

theorem foldl_max_ge (values : List Int) :
    ∀ init : Int,
      init ≤ values.foldl (fun highest v => max v highest) init ∧
      (∀ v ∈ values, v ≤ values.foldl (fun highest v => max v highest) init) ∧
      (values.foldl (fun highest v => max v highest) init = init ∨
        values.foldl (fun highest v => max v highest) init ∈ values) := by
  induction values with
  | nil =>
    intro init
    exact ⟨le_refl _, fun v hv => absurd hv (List.not_mem_nil v), Or.inl rfl⟩
  | cons x xs ih =>
    intro init
    obtain ⟨h1, h2, h3⟩ := ih (max x init)
    simp only [List.foldl_cons]
    refine ⟨le_trans (le_max_right x init) h1, ?_, ?_⟩
    · intro v hv
      rcases List.mem_cons.mp hv with rfl | hv
      · exact le_trans (le_max_left _ _) h1
      · exact h2 v hv
    · rcases h3 with h3 | h3
      · rcases max_choice x init with hm | hm
        · right
          rw [h3, hm]
          exact List.mem_cons_self _ _
        · left
          rw [h3, hm]
      · right
        exact List.mem_cons_of_mem _ h3

namespace Learner

variable {E : RandomEngine} {α β : Type}

theorem highest_foldl (entries : List DirEntry) :
    ∀ init : Int,
      entries.foldl
        (fun highest entry =>
          if entry.isDirectory then
            match stoll entry.name with
            | some nameVal => max nameVal highest
            | none => highest
          else highest) init
      = (entries.filterMap fun entry =>
          if entry.isDirectory then stoll entry.name else none).foldl
          (fun highest v => max v highest) init := by
  induction entries with
  | nil => intro init; rfl
  | cons e es ih =>
    intro init
    simp only [List.foldl_cons, List.filterMap_cons]
    cases hd : e.isDirectory with
    | false => simpa using ih init
    | true =>
      cases hs : stoll e.name with
      | none => simpa using ih init
      | some v => simpa using ih (max v init)

theorem highestCheckpoint_eq (fs : FileSystem) (folder : Path) (entries : List DirEntry)
    (h : fs.directory_iterator folder = .ok entries) :
    highestCheckpoint fs folder
      = (entries.filterMap fun entry =>
          if entry.isDirectory then stoll entry.name else none).foldl
          (fun highest v => max v highest) (-1) := by
  have hdir : fs.is_directory folder = true := by
    unfold FileSystem.directory_iterator at h
    split at h
    · assumption
    · exact absurd h (by simp)
  unfold highestCheckpoint
  simp only [hdir, if_true, h]
  exact highest_foldl entries (-1)

/-- C15 as stated fails: with a complete checkpoint directory `5` and a directory `12abc` next
to it, `std::stoll` reads 12 from the name `12abc`, so `Load` goes for the directory `12`, which
does not exist, and ends in the fatal error; without the directory `12abc` the checkpoint `5`
loads. -/
theorem leading_digits_name_not_ignored :
    highestCheckpoint sampleLeadingDigitsFS sampleLearner.config.checkpointLoadFolder = 12 ∧
    Load sampleTorch sampleWorld.LoadRatingSet sampleLearner sampleLeadingDigitsFS
      = .error Fault.fatal ∧
    (Load sampleTorch sampleWorld.LoadRatingSet sampleLearner sampleCheckpointFS).toOption.map
        (fun l => (l.totalTimesteps, l.ppo.policy, l.ppo.valueNet))
      = some (5, [[[7, 8], [9]]], [[[6]]]) := by
  refine ⟨?_, ?_, ?_⟩
  · decide
  · rfl
  · rfl

/-- C15 amended: `Load` reads the name of every directory in `checkpointLoadFolder` with
`std::stoll` (which also accepts a name that only starts with an integer) and takes the highest
value read, starting from -1; entries that are not directories and names `std::stoll` rejects
do not count.  When that value is -1, as when no name is accepted or the folder is not a
directory, nothing is loaded and the learner is as before; otherwise `Load` loads from
`checkpointLoadFolder / to_string(value)`.  When every accepted name is the decimal form of a
non-negative integer, a value other than -1 is found exactly when some name is accepted, and the
directory loaded from is then the one whose name has the highest value. -/
theorem load_highest_checkpoint (T : Torch α) (LoadRatingSet : SkillJson → List (String × ℚ))
    (l : Learner E α β) (fs : FileSystem) (hset : l.config.checkpointLoadFolder ≠ []) :
    (highestCheckpoint fs l.config.checkpointLoadFolder = -1 →
      Load T LoadRatingSet l fs = .ok l) ∧
    (highestCheckpoint fs l.config.checkpointLoadFolder ≠ -1 →
      Load T LoadRatingSet l fs
        = l.loadCheckpoint T LoadRatingSet
            (l.config.checkpointLoadFolder
              ++ [to_string (highestCheckpoint fs l.config.checkpointLoadFolder)]) fs) ∧
    (fs.is_directory l.config.checkpointLoadFolder = false →
      highestCheckpoint fs l.config.checkpointLoadFolder = -1) ∧
    (∀ entries, fs.directory_iterator l.config.checkpointLoadFolder = .ok entries →
      highestCheckpoint fs l.config.checkpointLoadFolder
        = (entries.filterMap fun entry =>
            if entry.isDirectory then stoll entry.name else none).foldl
            (fun highest v => max v highest) (-1) ∧
      (∀ entry ∈ entries, entry.isDirectory = true → ∀ v, stoll entry.name = some v →
        v ≤ highestCheckpoint fs l.config.checkpointLoadFolder) ∧
      (highestCheckpoint fs l.config.checkpointLoadFolder ≠ -1 →
        ∃ entry ∈ entries, entry.isDirectory = true ∧
          stoll entry.name = some (highestCheckpoint fs l.config.checkpointLoadFolder)) ∧
      ((∀ entry ∈ entries, entry.isDirectory = true → ∀ v, stoll entry.name = some v →
          0 ≤ v ∧ entry.name = to_string v) →
        (highestCheckpoint fs l.config.checkpointLoadFolder ≠ -1 ↔
          ∃ entry ∈ entries, entry.isDirectory = true ∧ (stoll entry.name).isSome = true) ∧
        (highestCheckpoint fs l.config.checkpointLoadFolder ≠ -1 →
          ∃ entry ∈ entries, entry.isDirectory = true ∧
            entry.name = to_string (highestCheckpoint fs l.config.checkpointLoadFolder)))) := by
  refine ⟨?_, ?_, ?_, ?_⟩
  · intro h
    simp [Load, hset, h]
  · intro h
    simp [Load, hset, h]
  · intro h
    simp [highestCheckpoint, h]
  · intro entries hentries
    have heq := highestCheckpoint_eq fs l.config.checkpointLoadFolder entries hentries
    obtain ⟨h1, h2, h3⟩ := foldl_max_ge
      (entries.filterMap fun entry => if entry.isDirectory then stoll entry.name else none) (-1)
    rw [← heq] at h1 h2 h3
    have hmem : ∀ entry ∈ entries, entry.isDirectory = true → ∀ v, stoll entry.name = some v →
        v ∈ entries.filterMap fun entry =>
          if entry.isDirectory then stoll entry.name else none := by
      intro entry he hd v hv
      rw [List.mem_filterMap]
      exact ⟨entry, he, by simp [hd, hv]⟩
    have hfound : highestCheckpoint fs l.config.checkpointLoadFolder ≠ -1 →
        ∃ entry ∈ entries, entry.isDirectory = true ∧
          stoll entry.name = some (highestCheckpoint fs l.config.checkpointLoadFolder) := by
      intro hne
      rcases h3 with h3 | h3
      · exact absurd h3 hne
      · rw [List.mem_filterMap] at h3
        obtain ⟨entry, he, hv⟩ := h3
        cases hd : entry.isDirectory with
        | false => rw [hd] at hv; simp at hv
        | true =>
          rw [hd] at hv
          exact ⟨entry, he, hd, by simpa using hv⟩
    refine ⟨heq, fun entry he hd v hv => h2 v (hmem entry he hd v hv), hfound, ?_⟩
    intro hcanon
    refine ⟨⟨fun hne => ?_, fun hex => ?_⟩, fun hne => ?_⟩
    · obtain ⟨entry, he, hd, hv⟩ := hfound hne
      exact ⟨entry, he, hd, by rw [hv]; rfl⟩
    · obtain ⟨entry, he, hd, hv⟩ := hex
      cases hs : stoll entry.name with
      | none => rw [hs] at hv; simp at hv
      | some v =>
        have hle := h2 v (hmem entry he hd v hs)
        have h0 := (hcanon entry he hd v hs).1
        intro hneg
        rw [hneg] at hle
        omega
    · obtain ⟨entry, he, hd, hv⟩ := hfound hne
      exact ⟨entry, he, hd, (hcanon entry he hd _ hv).2⟩

/-- C14 fails on the code: `Save` counts and removes checkpoint directories in
`checkpointLoadFolder`, not in `checkpointSaveFolder`.  With one checkpoint to keep, a save
folder holding `100` and `200` and a load folder holding `50` and `60`, saving at 300 steps
leaves `100`, `200` and `300` in the save folder and removes `50` from the load folder; with the
load folder unset, the directory iteration throws. -/
theorem save_prunes_load_folder :
    (Save sampleTorch sampleLearner sampleSaveFS).toOption.map
        (fun fs =>
          (fs.pathExists ["save", "100"], fs.pathExists ["save", "200"],
           fs.pathExists ["save", "300"], fs.pathExists ["load", "50"],
           fs.pathExists ["load", "60"]))
      = some (true, true, true, false, true) ∧
    Save sampleTorch
        { sampleLearner with
          config := { sampleLearner.config with checkpointLoadFolder := [] } } sampleSaveFS
      = .error Fault.backend :=
  ⟨rfl, rfl⟩

end Learner

/-- Witness of C15 amended: in the sample load folder the one directory is `5`, so the highest
value is 5 and `Load` loads the checkpoint directory `load/5`. -/
theorem load_highest_checkpoint_witness :
    sampleLearner.config.checkpointLoadFolder ≠ [] ∧
    Learner.highestCheckpoint sampleCheckpointFS sampleLearner.config.checkpointLoadFolder = 5 ∧
    Learner.Load sampleTorch sampleWorld.LoadRatingSet sampleLearner sampleCheckpointFS
      = sampleLearner.loadCheckpoint sampleTorch sampleWorld.LoadRatingSet ["load", "5"]
          sampleCheckpointFS :=
  ⟨by decide, by decide,
   (Learner.load_highest_checkpoint sampleTorch sampleWorld.LoadRatingSet sampleLearner
      sampleCheckpointFS (by decide)).2.1 (by decide)⟩
/-! ## Single-precision arithmetic -/

theorem roundHalfEven_err (q : ℚ) : |(roundHalfEven q : ℚ) - q| ≤ 1 / 2 := by
  have h1 : (⌊q⌋ : ℚ) ≤ q := Int.floor_le q
  have h2 : q < ⌊q⌋ + 1 := Int.lt_floor_add_one q
  unfold roundHalfEven
  dsimp only
  split_ifs with ha hb hc
  · rw [abs_le]; constructor <;> linarith
  · rw [abs_le]; push_cast; constructor <;> linarith
  · rw [abs_le]; constructor <;> linarith
  · rw [abs_le]; push_cast; constructor <;> linarith

theorem roundHalfEven_near (q : ℚ) (n : Int) (h : |q - n| < 1 / 2) : roundHalfEven q = n := by
  rw [abs_lt] at h
  obtain ⟨h1, h2⟩ := h
  unfold roundHalfEven
  dsimp only
  by_cases hq : (n : ℚ) ≤ q
  · have hf : ⌊q⌋ = n := Int.floor_eq_iff.2 ⟨hq, by linarith⟩
    rw [hf, if_pos (by linarith)]
  · have hf : ⌊q⌋ = n - 1 := Int.floor_eq_iff.2 ⟨by push_cast; linarith, by push_cast; linarith⟩
    rw [hf]
    push_cast
    rw [if_neg (by linarith), if_pos (by linarith)]
    ring

theorem float32_err (x : ℚ) (hx : (2 : ℚ) ^ (-126 : Int) ≤ x) :
    |float32 x - x| ≤ x / 16777216 := by
  have hpos : 0 < x := lt_of_lt_of_le (by positivity) hx
  have habs : |x| = x := abs_of_pos hpos
  have hlog : (-126 : Int) ≤ Int.log 2 x :=
    (Int.zpow_le_iff_le_log (by norm_num) hpos).1 (by exact_mod_cast hx)
  have hle : ((2 : ℕ) : ℚ) ^ Int.log 2 x ≤ x := Int.zpow_log_le_self (by norm_num) hpos
  unfold float32
  dsimp only
  rw [habs, max_eq_left hlog]
  generalize Int.log 2 x = e at *
  have hu : (0 : ℚ) < 2 ^ (e - 23) := by positivity
  have hr := roundHalfEven_err (x / 2 ^ (e - 23))
  have hsplit : (2 : ℚ) ^ e = 2 ^ (e - 23) * 8388608 := by
    rw [show e = (e - 23) + 23 by ring, zpow_add₀ (by norm_num)]
    norm_num
  have hle' : (2 : ℚ) ^ (e - 23) * 8388608 ≤ x := by
    rw [← hsplit]
    exact_mod_cast hle
  generalize (2 : ℚ) ^ (e - 23) = u at *
  have hxu : x = x / u * u := by field_simp
  have : |(roundHalfEven (x / u) : ℚ) * u - x| = |(roundHalfEven (x / u) : ℚ) - x / u| * u := by
    rw [← abs_of_pos hu, ← abs_mul, abs_of_pos hu]
    congr 1
    rw [sub_mul, ← hxu]
  rw [this]
  calc |(roundHalfEven (x / u) : ℚ) - x / u| * u ≤ 1 / 2 * u :=
        mul_le_mul_of_nonneg_right hr (le_of_lt hu)
    _ ≤ x / 16777216 := by linarith

theorem float32_err_of_one_le (x : ℚ) (hx : 1 ≤ x) : |float32 x - x| ≤ x / 16777216 :=
  float32_err x (le_trans (by norm_num) hx)

theorem float32_dyadic (n : Nat) (j : Int) (hn0 : 0 < n) (hn : n < 16777216) (hj : -149 ≤ j) :
    float32 ((n : ℚ) * 2 ^ j) = (n : ℚ) * 2 ^ j := by
  have hn0' : (0 : ℚ) < n := by exact_mod_cast hn0
  have hpos : (0 : ℚ) < (n : ℚ) * 2 ^ j := by positivity
  have hlt : (n : ℚ) * 2 ^ j < 2 ^ (j + 24) := by
    rw [zpow_add₀ (by norm_num), mul_comm]
    apply mul_lt_mul_of_pos_left _ (by positivity)
    norm_num
    exact_mod_cast hn
  have hlog : Int.log 2 ((n : ℚ) * 2 ^ j) < j + 24 :=
    (Int.lt_zpow_iff_log_lt (b := 2) (by norm_num) hpos).1 (by exact_mod_cast hlt)
  unfold float32
  dsimp only
  rw [abs_of_pos hpos]
  generalize hL : max (Int.log 2 ((n : ℚ) * 2 ^ j)) (-126) = L
  have hLj : L ≤ j + 23 := by
    rw [← hL]
    exact max_le (by omega) (by omega)
  obtain ⟨d, hd⟩ : ∃ d : Nat, (d : Int) = j + 23 - L := ⟨(j + 23 - L).toNat, Int.toNat_of_nonneg (by omega)⟩
  have hq : (n : ℚ) * 2 ^ j / 2 ^ (L - 23) = ((n * 2 ^ d : Nat) : Int) := by
    rw [mul_div_assoc, ← zpow_sub₀ (by norm_num)]
    have : j - (L - 23) = (d : Int) := by omega
    rw [this, zpow_natCast]
    push_cast
    ring
  rw [hq, roundHalfEven_near _ ((n * 2 ^ d : Nat) : Int) (by simp)]
  push_cast
  rw [mul_assoc, ← zpow_natCast, ← zpow_add₀ (by norm_num)]
  congr 2
  omega

theorem float32_natCast (n : Nat) (hn : n < 16777216) : float32 (n : ℚ) = n := by
  rcases Nat.eq_zero_or_pos n with h0 | h0
  · subst h0
    unfold float32
    dsimp only
    rw [roundHalfEven_near _ 0 (by simp)]
    simp
  · have := float32_dyadic n 0 h0 hn (by norm_num)
    simpa using this

/-! ## Creating the pool -/

theorem sum_ge_length_mul {β : Type} (f : β → Nat) (k : Nat) :
    ∀ l : List β, (∀ a ∈ l, k ≤ f a) → l.length * k ≤ (l.map f).sum := by
  intro l
  induction l with
  | nil => intro _; simp
  | cons x xs ih =>
    intro h
    have hx := h x (List.mem_cons_self _ _)
    have hxs := ih (fun a ha => h a (List.mem_cons_of_mem _ ha))
    simp only [List.length_cons, List.map_cons, List.sum_cons]
    rw [Nat.add_mul]
    omega

namespace ThreadAgentManager

variable {α : Type}

theorem createAgentsLoop_spec (playerAmount : Nat → Nat → Nat) (amount gamesPerAgent : Int) :
    ∀ (indices : List Nat) (mgr mgr' : ThreadAgentManager α),
      createAgentsLoop playerAmount amount gamesPerAgent indices mgr = .ok mgr' →
      mgr'.agents = mgr.agents ++ indices.map (fun i =>
        ThreadAgent.ctor
          (if mgr.renderSender && mgr.renderDuringTraining && i == 0 then 1
            else gamesPerAgent).toNat
          (mgr.maxCollect / amount.toNat) (playerAmount i) i) ∧
      mgr'.maxCollect = mgr.maxCollect ∧ mgr'.renderSender = mgr.renderSender ∧
      mgr'.renderDuringTraining = mgr.renderDuringTraining ∧
      mgr'.disableCollection = mgr.disableCollection := by
  intro indices
  induction indices with
  | nil =>
    intro mgr mgr' h
    simp only [createAgentsLoop] at h
    cases h
    simp
  | cons i rest ih =>
    intro mgr mgr' h
    rw [createAgentsLoop] at h
    dsimp only at h
    by_cases hneg : (if mgr.renderSender && mgr.renderDuringTraining && i == 0 then (1 : Int)
        else gamesPerAgent) < 0
    · rw [if_pos hneg] at h
      cases h
    · rw [if_neg hneg] at h
      obtain ⟨h1, h2, h3, h4, h5⟩ := ih _ mgr' h
      refine ⟨?_, h2, h3, h4, h5⟩
      rw [h1]
      simp

theorem createAgentsLoop_ok (playerAmount : Nat → Nat → Nat) (amount gamesPerAgent : Int)
    (hg : 0 ≤ gamesPerAgent) :
    ∀ (indices : List Nat) (mgr : ThreadAgentManager α),
      ∃ mgr', createAgentsLoop playerAmount amount gamesPerAgent indices mgr = .ok mgr' := by
  intro indices
  induction indices with
  | nil => intro mgr; exact ⟨mgr, rfl⟩
  | cons i rest ih =>
    intro mgr
    rw [createAgentsLoop]
    dsimp only
    have hneg : ¬ (if mgr.renderSender && mgr.renderDuringTraining && i == 0 then (1 : Int)
        else gamesPerAgent) < 0 := by
      split <;> omega
    rw [if_neg hneg]
    exact ih _

theorem CreateAgents_spec (mgr mgr' : ThreadAgentManager α) (playerAmount : Nat → Nat → Nat)
    (amount gamesPerAgent : Int)
    (h : mgr.CreateAgents playerAmount amount gamesPerAgent = .ok mgr') :
    mgr'.agents = mgr.agents ++ (List.range amount.toNat).map (fun i =>
        ThreadAgent.ctor
          (if mgr.renderSender && mgr.renderDuringTraining && i == 0 then 1
            else gamesPerAgent).toNat
          (mgr.maxCollect / amount.toNat) (playerAmount i) i) ∧
      mgr'.maxCollect = mgr.maxCollect ∧ mgr'.renderSender = mgr.renderSender ∧
      mgr'.renderDuringTraining = mgr.renderDuringTraining ∧
      mgr'.disableCollection = mgr.disableCollection :=
  createAgentsLoop_spec playerAmount amount gamesPerAgent _ mgr mgr' h

theorem not_spinning_of_le
    (MultiAppend : GameTrajectory α → List (GameTrajectory α) → Except Fault (GameTrajectory α))
    (mgr : ThreadAgentManager α) (amount : Nat) (h : amount ≤ mgr.totalSteps) :
    CollectTimesteps MultiAppend mgr amount ≠ .error Fault.spinning := by
  unfold CollectTimesteps
  rw [if_pos h]
  repeat' split
  all_goals intro hc; cases hc

theorem totalSteps_lt_spinning
    (MultiAppend : GameTrajectory α → List (GameTrajectory α) → Except Fault (GameTrajectory α))
    (mgr : ThreadAgentManager α) (amount : Nat) (h : mgr.totalSteps < amount) :
    CollectTimesteps MultiAppend mgr amount = .error Fault.spinning := by
  unfold CollectTimesteps
  rw [if_neg (by omega)]

end ThreadAgentManager

theorem ThreadAgent.passes_held {α : Type} (a : ThreadAgent α) (disableCollection : Bool)
    (done : Nat → Nat → Bool) (payload : Nat → Nat → Nat → α)
    (h : a.index = 0 ∨ a.stepsCollected > a.maxCollect) :
    ∀ k : Nat, a.passes true true disableCollection done payload k = a := by
  intro k
  induction k with
  | zero => rfl
  | succ k ih =>
    rw [ThreadAgent.passes, ih]
    rcases h with h0 | hcap
    · have : a.tick true true (done k) (payload k) = a := by
        simp [ThreadAgent.tick, ThreadAgent.render, h0]
      rw [this]
      split <;> rfl
    · have : a.canTick disableCollection = false := by
        simp [ThreadAgent.canTick, hcap]
      rw [this]
      rfl

namespace Learner

variable {β : Type}

theorem poolCap_ge (T : Nat) (hT : 1 ≤ T) : T ≤ poolCap T := by
  have hT1 : (1 : ℚ) ≤ T := by exact_mod_cast hT
  have h1 := float32_err_of_one_le (T : ℚ) hT1
  rw [abs_le] at h1
  have hx : (1 : ℚ) ≤ float32 (T : ℚ) * (3 / 2) := by linarith
  have h2 := float32_err_of_one_le _ hx
  rw [abs_le] at h2
  unfold poolCap
  apply Nat.le_floor
  nlinarith

theorem poolCap_exact (T : Nat) (hT : 3 * T < 16777216) : poolCap T = 3 * T / 2 := by
  unfold poolCap
  rw [float32_natCast T (by omega)]
  rcases Nat.eq_zero_or_pos T with h0 | h0
  · subst h0
    have := float32_natCast 0 (by norm_num)
    simp only [Nat.cast_zero] at this
    simp [this]
  · have hd := float32_dyadic (3 * T) (-1) (by omega) hT (by norm_num)
    have he : (T : ℚ) * (3 / 2) = ((3 * T : Nat) : ℚ) * 2 ^ (-1 : Int) := by
      push_cast
      rw [zpow_neg_one]
      ring
    have h2 : ((3 * T : Nat) : ℚ) * (2 : ℚ)⁻¹ = ((3 * T : Nat) : ℚ) / ((2 : Nat) : ℚ) := by
      rw [div_eq_mul_inv]
      norm_num
    rw [he, hd, zpow_neg_one, h2, Nat.floor_div_eq_div]

theorem createPool_spec (S : Startup) (config : LearnerConfig) (agentMgr : ThreadAgentManager β)
    (h : createPool S config = .ok agentMgr) :
    agentMgr.agents = (List.range config.numThreads.toNat).map (fun i =>
        ThreadAgent.ctor config.numGamesPerThread.toNat
          (poolCap config.timestepsPerIteration / config.numThreads.toNat)
          (S.playerAmount i) i) ∧
    agentMgr.renderSender = config.renderMode ∧
    (config.renderMode = true → agentMgr.renderDuringTraining = config.renderDuringTraining) := by
  unfold createPool at h
  split at h
  · cases h
  · rename_i mgr₀ h₀
    have hs := ThreadAgentManager.CreateAgents_spec _ mgr₀ _ _ _ h₀
    simp only [ThreadAgentManager.ctor, List.nil_append, Bool.false_and, Bool.false_eq_true,
      if_false] at hs
    cases hrm : config.renderMode
    · rw [hrm] at h
      simp only [Bool.false_eq_true, if_false, Except.ok.injEq] at h
      subst h
      exact ⟨hs.1, hs.2.2.1, fun hc => by cases hc⟩
    · rw [hrm] at h
      simp only [if_true, Except.ok.injEq] at h
      subst h
      exact ⟨hs.1, rfl, fun _ => rfl⟩

/-- C29 fails on the code: with rendering during training the constructor builds
`numThreads` workers that all get the cap `floor(M / numThreads)`, `M` being the pool cap
`static_cast<uint64_t>(timestepsPerIteration * 1.5f)`, although worker 0 renders and never
collects.  In every state of such a pool in which the workers other than worker 0 are over
their cap, no pass of any worker changes anything, so a wait of `CollectTimesteps` for more
than the counters hold never ends; with a single thread this is so from the start, for every
`timestepsPerIteration >= 1`.  What the claim computes is right: `M` is at least
`timestepsPerIteration` (and is `floor(1.5 * timestepsPerIteration)` below `2 ^ 24 / 3`), and
when every worker, worker 0 included, is over its cap the counters reach
`timestepsPerIteration`. -/
theorem render_pool_stalls
    (MultiAppend : GameTrajectory β → List (GameTrajectory β) → Except Fault (GameTrajectory β))
    (S : Startup) (config : LearnerConfig) (agentMgr : ThreadAgentManager β)
    (hr : config.renderMode = true) (hrt : config.renderDuringTraining = true)
    (h : createPool S config = .ok agentMgr) :
    (agentMgr.renderSender = true ∧ agentMgr.renderDuringTraining = true ∧
      agentMgr.agents.map (fun a => a.index) = List.range config.numThreads.toNat ∧
      ∀ a ∈ agentMgr.agents,
        a.maxCollect = poolCap config.timestepsPerIteration / config.numThreads.toNat ∧
        a.stepsCollected = 0) ∧
    (∀ mgr : ThreadAgentManager β,
      mgr.renderSender = true → mgr.renderDuringTraining = true →
      (∀ a ∈ mgr.agents, a.index ≠ 0 → a.stepsCollected > a.maxCollect) →
      (∀ a ∈ mgr.agents, ∀ (done : Nat → Nat → Bool) (payload : Nat → Nat → Nat → β) (k : Nat),
        a.passes mgr.renderSender mgr.renderDuringTraining mgr.disableCollection done payload k
          = a) ∧
      ∀ amount : Nat, mgr.totalSteps < amount →
        ThreadAgentManager.CollectTimesteps MultiAppend mgr amount = .error Fault.spinning) ∧
    (config.numThreads = 1 → 1 ≤ config.timestepsPerIteration →
      (∀ a ∈ agentMgr.agents, ∀ (done : Nat → Nat → Bool) (payload : Nat → Nat → Nat → β)
          (k : Nat),
        a.passes agentMgr.renderSender agentMgr.renderDuringTraining agentMgr.disableCollection
          done payload k = a) ∧
      ThreadAgentManager.CollectTimesteps MultiAppend agentMgr config.timestepsPerIteration
        = .error Fault.spinning) ∧
    (1 ≤ config.timestepsPerIteration →
      config.timestepsPerIteration ≤ poolCap config.timestepsPerIteration) ∧
    (3 * config.timestepsPerIteration < 16777216 →
      poolCap config.timestepsPerIteration = 3 * config.timestepsPerIteration / 2) ∧
    (1 ≤ config.numThreads → 1 ≤ config.timestepsPerIteration →
      ∀ mgr : ThreadAgentManager β, mgr.agents.length = config.numThreads.toNat →
      (∀ a ∈ mgr.agents,
        a.maxCollect = poolCap config.timestepsPerIteration / config.numThreads.toNat) →
      (∀ a ∈ mgr.agents, a.stepsCollected > a.maxCollect) →
      config.timestepsPerIteration ≤ mgr.totalSteps) := by
  obtain ⟨hagents, hrs, hrdt⟩ := createPool_spec S config agentMgr h
  rw [hr] at hrs
  have hrdt' : agentMgr.renderDuringTraining = true := by rw [hrdt hr, hrt]
  have hstall : ∀ mgr : ThreadAgentManager β,
      mgr.renderSender = true → mgr.renderDuringTraining = true →
      (∀ a ∈ mgr.agents, a.index ≠ 0 → a.stepsCollected > a.maxCollect) →
      (∀ a ∈ mgr.agents, ∀ (done : Nat → Nat → Bool) (payload : Nat → Nat → Nat → β) (k : Nat),
        a.passes mgr.renderSender mgr.renderDuringTraining mgr.disableCollection done payload k
          = a) := by
    intro mgr h1 h2 hover a ha done payload k
    rw [h1, h2]
    apply ThreadAgent.passes_held
    by_cases h0 : a.index = 0
    · exact Or.inl h0
    · exact Or.inr (hover a ha h0)
  refine ⟨⟨hrs, hrdt', ?_, ?_⟩, ?_, ?_, ?_, ?_, ?_⟩
  · rw [hagents, List.map_map]
    exact List.map_id _
  · intro a ha
    rw [hagents] at ha
    simp only [List.mem_map, List.mem_range] at ha
    obtain ⟨i, _, rfl⟩ := ha
    exact ⟨rfl, rfl⟩
  · intro mgr h1 h2 hover
    exact ⟨hstall mgr h1 h2 hover,
      fun amount hlt => ThreadAgentManager.totalSteps_lt_spinning MultiAppend mgr amount hlt⟩
  · intro hn hT
    have hag : agentMgr.agents = [ThreadAgent.ctor config.numGamesPerThread.toNat
        (poolCap config.timestepsPerIteration / config.numThreads.toNat)
        (S.playerAmount 0) 0] := by
      rw [hagents, hn]
      rfl
    refine ⟨hstall agentMgr hrs hrdt' ?_, ?_⟩
    · intro a ha hne
      rw [hag] at ha
      simp only [List.mem_singleton] at ha
      subst ha
      exact absurd rfl hne
    · apply ThreadAgentManager.totalSteps_lt_spinning
      unfold ThreadAgentManager.totalSteps
      rw [hag]
      simp only [List.map_cons, List.map_nil, List.sum_cons, List.sum_nil, ThreadAgent.ctor]
      omega
  · exact poolCap_ge _
  · exact poolCap_exact _
  · intro hn hT mgr hlen hcap hpaused
    have hn' : 1 ≤ config.numThreads.toNat := by omega
    have hsum : mgr.agents.length
        * (poolCap config.timestepsPerIteration / config.numThreads.toNat + 1)
        ≤ mgr.totalSteps := by
      unfold ThreadAgentManager.totalSteps
      apply sum_ge_length_mul
      intro a ha
      have h1 := hcap a ha
      have h2 := hpaused a ha
      omega
    have hlt : poolCap config.timestepsPerIteration
        < config.numThreads.toNat
          * (poolCap config.timestepsPerIteration / config.numThreads.toNat + 1) :=
      Nat.lt_mul_div_succ _ (by omega)
    rw [hlen] at hsum
    have := poolCap_ge config.timestepsPerIteration hT
    omega

theorem poolCap_six : poolCap 6 = 9 := poolCap_exact 6 (by norm_num)

end Learner

/-- Witness of C29: with 6 steps per iteration, two threads and single-player games the
constructor builds two workers with a cap of 4 each; after five passes worker 0, which renders,
holds no step and worker 1 holds 5, more than its cap; no further pass changes the pool, and
`CollectTimesteps(6)` waits for ever. -/
theorem render_pool_stalls_witness :
    Learner.createPool sampleSoloStartup sampleStallConfig = .ok sampleStallStart ∧
    sampleStallPool.agents.map (fun a => (a.index, a.stepsCollected, a.maxCollect))
      = [(0, 0, 4), (1, 5, 4)] ∧
    (∀ a ∈ sampleStallPool.agents, ∀ (done : Nat → Nat → Bool) (payload : Nat → Nat → Nat → Nat)
        (k : Nat), a.passes true true false done payload k = a) ∧
    sampleStallPool.totalSteps = 5 ∧
    ThreadAgentManager.CollectTimesteps GameTrajectory.MultiAppend sampleStallPool 6
      = .error Fault.spinning := by
  have h₀ : Learner.createPool sampleSoloStartup sampleStallConfig = .ok sampleStallStart := by
    unfold Learner.createPool
    rw [show Learner.poolCap sampleStallConfig.timestepsPerIteration = 9
      from Learner.poolCap_six]
    rfl
  have h := (Learner.render_pool_stalls GameTrajectory.MultiAppend sampleSoloStartup
    sampleStallConfig sampleStallStart rfl rfl h₀).2.1 sampleStallPool rfl rfl (by decide)
  exact ⟨h₀, by decide, h.1, by decide, h.2 6 (by decide)⟩
/-! ## Constructing the orchestrator -/

namespace Learner

variable {E : RandomEngine} {α β : Type}

theorem LoadStats_frame (LoadRatingSet : SkillJson → List (String × ℚ)) (l l' : Learner E α β)
    (path : Path) (fs : FileSystem) (h : l.LoadStats LoadRatingSet path fs = .ok l') :
    l'.config = l.config ∧ l'.agentMgr = l.agentMgr ∧ l'.metricSender = l.metricSender := by
  unfold LoadStats at h
  repeat' split at h
  all_goals cases h <;> exact ⟨rfl, rfl, rfl⟩

theorem loadCheckpoint_frame (T : Torch α) (LoadRatingSet : SkillJson → List (String × ℚ))
    (l l' : Learner E α β) (loadFolder : Path) (fs : FileSystem)
    (h : l.loadCheckpoint T LoadRatingSet loadFolder fs = .ok l') :
    l'.config = l.config ∧ l'.agentMgr = l.agentMgr ∧ l'.metricSender = l.metricSender := by
  unfold loadCheckpoint at h
  split at h
  · cases h
  · rename_i l₁ h₁
    split at h
    · cases h
    · cases h
      exact LoadStats_frame LoadRatingSet l l₁ _ fs h₁

theorem Load_frame (T : Torch α) (LoadRatingSet : SkillJson → List (String × ℚ))
    (l l' : Learner E α β) (fs : FileSystem) (h : l.Load T LoadRatingSet fs = .ok l') :
    l'.config = l.config ∧ l'.agentMgr = l.agentMgr ∧ l'.metricSender = l.metricSender := by
  unfold Load at h
  split at h
  · cases h
  · dsimp only at h
    split at h
    · exact loadCheckpoint_frame T LoadRatingSet l l' _ fs h
    · cases h
      exact ⟨rfl, rfl, rfl⟩

theorem initMetricSender_spec (S : Startup) (l l' : Learner E α β)
    (h : initMetricSender S l = .ok l') :
    l'.config = l.config ∧ l'.agentMgr = l.agentMgr ∧ l'.runID = l.runID ∧
    (l.config.sendMetrics = false → l'.metricSender = none) ∧
    (l.config.sendMetrics = true → l.runID ≠ "" → l'.metricSender.isSome = true) ∧
    (l.config.sendMetrics = true → l.runID = "" → l'.metricSender = l.metricSender) := by
  unfold initMetricSender at h
  split at h
  · rename_i hs
    split at h
    · rename_i hr
      split at h
      · cases h
      · cases h
        refine ⟨rfl, rfl, rfl, ?_, ?_, ?_⟩
        · intro hf
          rw [hs] at hf
          cases hf
        · intro _ _
          rfl
        · intro _ he
          exact absurd he hr
    · rename_i hr
      cases h
      refine ⟨rfl, rfl, rfl, ?_, ?_, ?_⟩
      · intro hf
        rw [hs] at hf
        cases hf
      · intro _ hne
        exact absurd hne hr
      · intro _ _
        rfl
  · rename_i hs
    cases h
    refine ⟨rfl, rfl, rfl, ?_, ?_, ?_⟩
    · intro _
      rfl
    · intro ht
      exact absurd ht hs
    · intro ht
      exact absurd ht hs

theorem adjustConfig_spec (time : Int) (_config config : LearnerConfig)
    (h : adjustConfig time _config = .ok config) :
    config.renderMode = _config.renderMode ∧
    config.renderDuringTraining = _config.renderDuringTraining ∧
    config.checkpointLoadFolder = _config.checkpointLoadFolder ∧
    config.ppo = _config.ppo ∧
    config.numThreads
      = (if _config.renderMode && !_config.renderDuringTraining then 1
          else _config.numThreads) ∧
    config.numGamesPerThread
      = (if _config.renderMode && !_config.renderDuringTraining then 1
          else _config.numGamesPerThread) ∧
    config.timestepsPerSave
      = (if _config.timestepsPerSave = 0 then (_config.timestepsPerIteration : Int)
          else _config.timestepsPerSave) := by
  unfold adjustConfig at h
  dsimp only at h
  split_ifs at h <;> cases h <;> simp_all
  all_goals
    cases hrm : _config.renderMode <;> cases hrd : _config.renderDuringTraining <;> simp_all

theorem adjustConfig_render (time : Int) (_config config : LearnerConfig)
    (h : adjustConfig time _config = .ok config)
    (hr : _config.renderMode = true) (hrt : _config.renderDuringTraining = true) :
    config.numThreads = _config.numThreads ∧
    config.numGamesPerThread = _config.numGamesPerThread ∧
    config.renderMode = true ∧ config.renderDuringTraining = true := by
  obtain ⟨h1, h2, _, _, h5, h6, _⟩ := adjustConfig_spec time _config config h
  rw [hr, hrt] at h5 h6
  exact ⟨h5, h6, h1.trans hr, h2.trans hrt⟩

/-- The parts of a successful construction. -/
theorem ctor_parts (W : World E α β) (S : Startup) (_config : LearnerConfig) (fs : FileSystem)
    (l : Learner E α β) (h : ctor W S _config fs = .ok l) :
    ∃ (agentMgr : ThreadAgentManager β) (l₁ : Learner E α β),
      adjustConfig S.time _config = .ok l.config ∧
      createPool S l.config = .ok agentMgr ∧ l.agentMgr = agentMgr ∧
      l₁.config = l.config ∧
      (l.config.checkpointLoadFolder = [] → l₁.runID = "" ∧ l₁.metricSender = none) ∧
      l₁.metricSender = none ∧
      initMetricSender S l₁ = .ok l := by
  unfold ctor at h
  split at h
  · cases h
  · rename_i config hcfg
    split at h
    · cases h
    · split at h
      · cases h
      · split at h
        · cases h
        · rename_i agentMgr hpool
          dsimp only at h
          split at h
          · cases h
          · rename_i l₁ hload
            obtain ⟨hc, ha, hr, _, _, _⟩ := initMetricSender_spec S l₁ l h
            by_cases hf : config.checkpointLoadFolder = []
            · rw [if_neg (not_not.mpr hf)] at hload
              cases hload
              have hc' : l.config = config := hc
              rw [hc']
              exact ⟨agentMgr, _, hcfg, hpool, ha, rfl, fun _ => ⟨rfl, rfl⟩, rfl, h⟩
            · rw [if_pos hf] at hload
              obtain ⟨h1, h2, h3⟩ := Load_frame W.torch W.LoadRatingSet _ l₁ fs hload
              have hc' : l.config = config := hc.trans h1
              rw [hc']
              refine ⟨agentMgr, l₁, hcfg, hpool, ha.trans h2, h1, fun he => absurd he hf, h3, h⟩

/-- C21 fails on the code: the constructor of `Learner` calls `CreateAgents` before it sets
`renderSender` and `renderDuringTraining` on the manager, so the test in `CreateAgents` sees the
defaults.  For every configuration with `renderMode` and `renderDuringTraining` both on, a
constructed learner has `numThreads` workers and every one of them, worker 0 included, has
`numGamesPerThread` games, although the flags are set on the manager afterwards. -/
theorem render_worker_zero_games (W : World E α β) (S : Startup) (_config : LearnerConfig)
    (fs : FileSystem) (l : Learner E α β) (h : ctor W S _config fs = .ok l)
    (hr : _config.renderMode = true) (hrt : _config.renderDuringTraining = true) :
    l.agentMgr.agents.length = _config.numThreads.toNat ∧
    (∀ a ∈ l.agentMgr.agents, a.numGames = _config.numGamesPerThread.toNat) ∧
    l.agentMgr.renderSender = true ∧ l.agentMgr.renderDuringTraining = true := by
  obtain ⟨agentMgr, l₁, hcfg, hpool, ha, _, _, _, _⟩ := ctor_parts W S _config fs l h
  obtain ⟨hn, hg, hr', hrt'⟩ := adjustConfig_render S.time _config l.config hcfg hr hrt
  unfold createPool at hpool
  split at hpool
  · cases hpool
  · rename_i mgr₀ hcreate
    obtain ⟨hagents, _, _, _, _⟩ := ThreadAgentManager.CreateAgents_spec _ mgr₀ _ _ _ hcreate
    rw [hr'] at hpool
    simp only [if_true] at hpool
    cases hpool
    rw [ha]
    refine ⟨?_, ?_, rfl, hrt'⟩
    · rw [hagents, hn]
      simp [ThreadAgentManager.ctor]
    · intro a hmem
      rw [hagents] at hmem
      simp only [ThreadAgentManager.ctor, List.nil_append, List.mem_map, List.mem_range,
        Bool.false_and, Bool.false_eq_true, if_false] at hmem
      obtain ⟨i, _, rfl⟩ := hmem
      rw [← hg]
      rfl

/-- C28 fails on the code: the constructor creates the `MetricSender` only when `runID` is not
empty.  For every constructed learner with `sendMetrics` on, a sender exists exactly when a run
ID came from a checkpoint; with no load folder configured there is none, and then `SaveStats`
on a path it can open and the report of a learning iteration both dereference the missing
sender.  With `sendMetrics` off the member is null. -/
theorem metric_sender_missing (W : World E α β) (S : Startup) (_config : LearnerConfig)
    (fs : FileSystem) (l : Learner E α β) (h : ctor W S _config fs = .ok l) :
    (l.config.sendMetrics = false → l.metricSender = none) ∧
    (l.config.sendMetrics = true → (l.metricSender.isSome = true ↔ l.runID ≠ "")) ∧
    (l.config.sendMetrics = true → l.config.checkpointLoadFolder = [] →
      l.metricSender = none ∧
      (∀ (path : Path) (fs' : FileSystem),
        (fs'.write path (FileContent.raw "")).isSome = true →
        l.SaveStats path fs' = .error Fault.undefined) ∧
      (∀ timestepsCollected, reportPhase W l timestepsCollected = .error Fault.undefined)) := by
  obtain ⟨agentMgr, l₁, hcfg, hpool, ha, hc₁, hfresh, hnone, hinit⟩ :=
    ctor_parts W S _config fs l h
  obtain ⟨_, _, hrun, hoff, hon, hempty⟩ := initMetricSender_spec S l₁ l hinit
  rw [hc₁] at hoff hon hempty
  refine ⟨hoff, fun hs => ?_, fun hs hf => ?_⟩
  · constructor
    · intro hsome hr
      rw [hrun] at hr
      rw [hempty hs hr, hnone] at hsome
      cases hsome
    · intro hr
      rw [hrun] at hr
      exact hon hs hr
  · have hm : l.metricSender = none := by
      rw [hempty hs (hfresh hf).1]
      exact hnone
    refine ⟨hm, ?_, ?_⟩
    · intro path fs' hw
      have hj : l.statsJson = none := by
        simp [statsJson, hs, hm]
      unfold SaveStats
      cases hx : fs'.write path (FileContent.raw "") with
      | none => rw [hx] at hw; cases hw
      | some _ => simp [hj]
    · intro timestepsCollected
      unfold reportPhase
      dsimp only
      by_cases hcd : l.config.collectionDuringLearn = true
      · simp [hcd, hs, hm]
      · simp [hcd, hs, hm, setDisableCollection]

end Learner

theorem sampleRenderLearner_eq :
    Learner.ctor sampleWorld sampleStartup sampleRenderConfig [] = .ok sampleRenderLearner := by
  rfl

theorem sampleMetricsLearner_eq :
    Learner.ctor sampleWorld sampleStartup sampleMetricsConfig [] = .ok sampleMetricsLearner := by
  rfl

/-- Witness of C21: with two threads, three games per thread and rendering during training,
the constructor returns a learner whose two workers both have three games; the same manager
with the flags set before `CreateAgents` would give worker 0 one game. -/
theorem render_worker_zero_games_witness :
    sampleRenderConfig.renderMode = true ∧ sampleRenderConfig.renderDuringTraining = true ∧
    sampleRenderLearner.agentMgr.agents.length = 2 ∧
    (∀ a ∈ sampleRenderLearner.agentMgr.agents, a.numGames = 3) ∧
    (ThreadAgentManager.CreateAgents
        { (ThreadAgentManager.ctor 9 : ThreadAgentManager Nat) with
          renderSender := true, renderDuringTraining := true }
        sampleStartup.playerAmount 2 3).toOption.map
        (fun mgr => mgr.agents.map fun a => a.numGames) = some [1, 3] := by
  have h := Learner.render_worker_zero_games sampleWorld sampleStartup sampleRenderConfig []
    sampleRenderLearner sampleRenderLearner_eq rfl rfl
  exact ⟨rfl, rfl, h.1, h.2.1, by decide⟩

/-- Witness of C28: for a configuration that sends metrics and loads no checkpoint, the
constructor returns a learner without a sender, whose `SaveStats` and whose report of a
learning iteration dereference it. -/
theorem metric_sender_missing_witness :
    sampleMetricsLearner.config.sendMetrics = true ∧
    sampleMetricsLearner.metricSender = none ∧
    sampleMetricsLearner.SaveStats ["stats.json"] [] = .error Fault.undefined ∧
    Learner.reportPhase sampleWorld sampleMetricsLearner 6 = .error Fault.undefined := by
  have h := (Learner.metric_sender_missing sampleWorld sampleStartup sampleMetricsConfig []
    sampleMetricsLearner sampleMetricsLearner_eq).2.2 rfl rfl
  exact ⟨rfl, h.1, h.2.1 ["stats.json"] [] rfl, h.2.2 6⟩
/-! ## The phases of an iteration -/

namespace ThreadAgentManager

variable {α : Type}

theorem CollectTimesteps_disableCollection
    (MultiAppend : GameTrajectory α → List (GameTrajectory α) → Except Fault (GameTrajectory α))
    (mgr mgr' : ThreadAgentManager α) (amount : Nat) (result : GameTrajectory α)
    (h : CollectTimesteps MultiAppend mgr amount = .ok (result, mgr')) :
    mgr'.disableCollection = mgr.disableCollection := by
  unfold CollectTimesteps at h
  repeat' split at h
  all_goals cases h
  rfl

end ThreadAgentManager

namespace Learner

variable {E : RandomEngine} {α β : Type}

theorem saveIfDue_spec (W : World E α β) (s s' : LoopState E α β) (timestepsCollected : Nat)
    (h : saveIfDue W s timestepsCollected = .ok s') :
    (s.tsSinceSave + timestepsCollected > s.learner.config.timestepsPerSave
        ∧ s.learner.config.checkpointSaveFolder ≠ [] →
      s'.tsSinceSave = 0 ∧ s.learner.Save W.torch s.fs = .ok s'.fs ∧
      s'.log = s.log ++ [Event.Save, Event.ResetMetrics]) ∧
    (¬ (s.tsSinceSave + timestepsCollected > s.learner.config.timestepsPerSave
        ∧ s.learner.config.checkpointSaveFolder ≠ []) →
      s'.tsSinceSave = s.tsSinceSave + timestepsCollected ∧ s'.fs = s.fs ∧
      s'.log = s.log ++ [Event.ResetMetrics]) := by
  unfold saveIfDue at h
  dsimp only at h
  split at h
  · rename_i hdue
    split at h
    · cases h
    · rename_i fs' hsave
      cases h
      exact ⟨fun _ => ⟨rfl, hsave, rfl⟩, fun hn => absurd hdue hn⟩
  · rename_i hdue
    cases h
    exact ⟨fun hd => absurd hd hdue, fun _ => ⟨rfl, rfl, rfl⟩⟩

theorem beforeLearn_spec (W : World E α β) (l l₀ : Learner E α β)
    (timesteps : GameTrajectory β) (h : beforeLearn W l timesteps = .ok l₀) :
    l₀.config = l.config ∧ l₀.ppo = l.ppo ∧ l₀.agentMgr.agents = l.agentMgr.agents ∧
    l₀.agentMgr.disableCollection
      = (!l.config.collectionDuringLearn || !l.ppo.device.is_cpu
          || l.agentMgr.disableCollection) := by
  unfold beforeLearn at h
  simp only at h
  repeat' split at h
  all_goals cases h
  all_goals simp_all [setDisableCollection]

theorem learnPhase_spec (W : World E α β) (l l₁ : Learner E α β)
    (timesteps : GameTrajectory β) (h : learnPhase W l timesteps = .ok l₁) :
    ∃ (l₀ : Learner E α β) (ppo : PPOLearner) (expBuffer : ExperienceBuffer E α),
      beforeLearn W l timesteps = .ok l₀ ∧
      PPOLearner.Learn W.torch W.cudaSupport W.hardware_concurrency l₀.ppo l₀.expBuffer
        = .ok (ppo, expBuffer) ∧
      l₁.config = l₀.config ∧
      l₁.agentMgr.disableCollection
        = (if l₀.config.collectionDuringLearn && !l₀.ppo.device.is_cpu then false
            else l₀.agentMgr.disableCollection) := by
  unfold learnPhase at h
  split at h
  · cases h
  · rename_i l₀ h₀
    dsimp only at h
    split at h
    · cases h
    · rename_i ppo expBuffer hlearn
      cases h
      refine ⟨l₀, ppo, expBuffer, h₀, hlearn, ?_, ?_⟩
      · split_ifs <;> rfl
      · split_ifs <;> rfl

theorem reportPhase_spec (W : World E α β) (l l₂ : Learner E α β) (timestepsCollected : Nat)
    (calls : List Event) (h : reportPhase W l timestepsCollected = .ok (l₂, calls)) :
    l₂.agentMgr.disableCollection
      = (if !l.config.collectionDuringLearn then false else l.agentMgr.disableCollection) ∧
    Event.GetMetrics ∈ calls ∧ Event.Save ∉ calls ∧ Event.ResetMetrics ∉ calls := by
  unfold reportPhase at h
  dsimp only at h
  repeat' split at h
  all_goals cases h
  all_goals simp_all [setDisableCollection]

/-- The phases of an iteration in which some learning rate is not zero. -/
theorem iteration_learning (W : World E α β) (s s' : LoopState E α β)
    (hlr : ¬ (s.learner.config.ppo.policyLR = 0 ∧ s.learner.config.ppo.criticLR = 0))
    (h : iteration W s = .ok s') :
    ∃ (timesteps : GameTrajectory β) (agentMgr : ThreadAgentManager β)
      (l₁ l₂ : Learner E α β) (calls : List Event),
      ThreadAgentManager.CollectTimesteps W.MultiAppend (W.workers s.learner.agentMgr)
        s.learner.config.timestepsPerIteration = .ok (timesteps, agentMgr) ∧
      learnPhase W
        { s.learner with agentMgr := agentMgr,
                         totalTimesteps := s.learner.totalTimesteps + timesteps.size }
        timesteps = .ok l₁ ∧
      reportPhase W l₁ timesteps.size = .ok (l₂, calls) ∧
      saveIfDue W
        { s with learner := l₂,
                 log := s.log ++ [Event.SetStepCallback,
                   Event.CollectTimesteps s.learner.config.timestepsPerIteration]
                   ++ [Event.AddNewExperience, Event.Learn] ++ calls }
        timesteps.size = .ok s' := by
  unfold iteration at h
  dsimp only at h
  split at h
  · cases h
  · rename_i timesteps agentMgr hcol
    rw [if_neg hlr] at h
    split at h
    · cases h
    · rename_i l₁ h₁
      split at h
      · cases h
      · rename_i l₂ calls h₂
        exact ⟨timesteps, agentMgr, l₁, l₂, calls, hcol, h₁, h₂, h⟩

/-- The result of an iteration in which both learning rates are zero. -/
theorem iteration_zero_lr (W : World E α β) (s s' : LoopState E α β)
    (hp : s.learner.config.ppo.policyLR = 0) (hc : s.learner.config.ppo.criticLR = 0)
    (h : iteration W s = .ok s') :
    ∃ (timesteps : GameTrajectory β) (agentMgr : ThreadAgentManager β),
      ThreadAgentManager.CollectTimesteps W.MultiAppend (W.workers s.learner.agentMgr)
        s.learner.config.timestepsPerIteration = .ok (timesteps, agentMgr) ∧
      s' = { s with
             learner := { s.learner with
               agentMgr := agentMgr,
               totalTimesteps := s.learner.totalTimesteps + timesteps.size },
             log := s.log ++ [Event.SetStepCallback,
               Event.CollectTimesteps s.learner.config.timestepsPerIteration] } := by
  unfold iteration at h
  dsimp only at h
  split at h
  · cases h
  · rename_i timesteps agentMgr hcol
    rw [if_pos ⟨hp, hc⟩] at h
    cases h
    exact ⟨timesteps, agentMgr, hcol, rfl⟩

/-- C22 as stated fails: the sample learner has both learning rates zero, a save folder, and a
checkpoint due after any step; its iteration collects ten steps and returns with no metrics
aggregated, the counter of steps since the last save still 0, no file written and no worker
metrics reset. -/
theorem zero_lr_no_housekeeping :
    sampleLoopState.learner.config.ppo.policyLR = 0 ∧
    sampleLoopState.learner.config.ppo.criticLR = 0 ∧
    sampleLoopState.learner.config.checkpointSaveFolder ≠ [] ∧
    sampleLoopState.learner.config.timestepsPerSave = 0 ∧
    (iteration sampleWorld sampleLoopState).toOption.map
        (fun s => (s.learner.totalTimesteps, s.log, s.tsSinceSave, s.fs))
      = some (310, [Event.SetStepCallback, Event.CollectTimesteps 6], 0, []) := by
  refine ⟨rfl, rfl, by decide, rfl, ?_⟩
  rfl

/-- C22 amended: when both learning rates are zero, an iteration skips `AddNewExperience` and
PPO learning and the end-of-iteration housekeeping as well: it makes no call after
`CollectTimesteps`, so it aggregates no metrics, leaves the counter of steps since the last save
and the file system as they were, and does not reset the worker metrics; only the pool and
`totalTimesteps` change. -/
theorem zero_lr_skips_housekeeping (W : World E α β) (s s' : LoopState E α β)
    (hp : s.learner.config.ppo.policyLR = 0) (hc : s.learner.config.ppo.criticLR = 0)
    (h : iteration W s = .ok s') :
    s'.log = s.log ++ [Event.SetStepCallback,
      Event.CollectTimesteps s.learner.config.timestepsPerIteration] ∧
    (∀ e ∈ [Event.AddNewExperience, Event.Learn, Event.GetMetrics, Event.DisplayReport,
        Event.Send, Event.Save, Event.ResetMetrics], e ∉ s'.log.drop s.log.length) ∧
    s'.tsSinceSave = s.tsSinceSave ∧ s'.fs = s.fs ∧
    s'.learner.ppo = s.learner.ppo ∧ s'.learner.expBuffer = s.learner.expBuffer ∧
    ∃ (timesteps : GameTrajectory β) (agentMgr : ThreadAgentManager β),
      ThreadAgentManager.CollectTimesteps W.MultiAppend (W.workers s.learner.agentMgr)
        s.learner.config.timestepsPerIteration = .ok (timesteps, agentMgr) ∧
      s'.learner.agentMgr = agentMgr ∧
      s'.learner.totalTimesteps = s.learner.totalTimesteps + timesteps.size := by
  obtain ⟨timesteps, agentMgr, hcol, hs'⟩ := iteration_zero_lr W s s' hp hc h
  subst hs'
  refine ⟨rfl, ?_, rfl, rfl, rfl, rfl, timesteps, agentMgr, hcol, rfl, rfl⟩
  intro e he
  simp only [List.drop_left]
  intro hmem
  simp only [List.mem_cons, List.mem_singleton, List.not_mem_nil, or_false] at he hmem
  rcases he with rfl | rfl | rfl | rfl | rfl | rfl | rfl <;>
    rcases hmem with hm | hm <;> cases hm

end Learner

theorem sampleZeroIteration_eq :
    Learner.iteration sampleWorld sampleLoopState = .ok sampleZeroIteration := by
  rfl

theorem sampleTrainingIteration_eq :
    Learner.iteration sampleWorld sampleTrainingState = .ok sampleTrainingIteration := by
  rfl

/-- Witness of C22 amended: the iteration of the sample loop state, whose learning rates are
zero, logs the collection only and leaves counter and file system alone. -/
theorem zero_lr_skips_housekeeping_witness :
    sampleLoopState.learner.config.ppo.policyLR = 0 ∧
    sampleLoopState.learner.config.ppo.criticLR = 0 ∧
    Learner.iteration sampleWorld sampleLoopState = .ok sampleZeroIteration ∧
    sampleZeroIteration.log = [Event.SetStepCallback, Event.CollectTimesteps 6] ∧
    sampleZeroIteration.tsSinceSave = 0 ∧ sampleZeroIteration.fs = [] := by
  have h := Learner.zero_lr_skips_housekeeping sampleWorld sampleLoopState sampleZeroIteration
    rfl rfl sampleZeroIteration_eq
  exact ⟨rfl, rfl, sampleZeroIteration_eq, h.1, h.2.2.1, h.2.2.2.1⟩
/-! ## Saving when due, and the pause of collection -/

namespace Learner

variable {E : RandomEngine} {α β : Type}

/-- C23 as stated fails: the iteration of a learner whose learning rates are both zero
completes without touching the counter of steps since the last save.  In the sample state the
counter is 5, ten steps are collected, 15 exceeds `timestepsPerSave = 8` and a save folder is
set, yet the counter is still 5 afterwards and no checkpoint is written. -/
theorem save_counter_not_advanced :
    sampleDueState.tsSinceSave = 5 ∧
    sampleDueState.learner.config.timestepsPerSave = 8 ∧
    sampleDueState.learner.config.checkpointSaveFolder ≠ [] ∧
    (iteration sampleWorld sampleDueState).toOption.map
        (fun s => (s.learner.totalTimesteps - sampleDueState.learner.totalTimesteps,
          s.tsSinceSave, s.fs))
      = some (10, 5, []) := by
  refine ⟨rfl, rfl, by decide, ?_⟩
  rfl

/-- C23 amended: in each completed iteration in which some learning rate is not zero, the
orchestrator adds the collected timestep count to its counter of steps since the last save and
writes a checkpoint if and only if that counter then strictly exceeds `timestepsPerSave` and a
checkpoint save folder is configured; after a save the counter is 0, otherwise it holds the
sum; and the constructor stores `timestepsPerIteration` for a configured `timestepsPerSave` of
0.  (An iteration with both learning rates zero leaves the counter alone.) -/
theorem save_when_due (W : World E α β) (s s' : LoopState E α β)
    (hlr : ¬ (s.learner.config.ppo.policyLR = 0 ∧ s.learner.config.ppo.criticLR = 0))
    (h : iteration W s = .ok s') :
    (∃ (timesteps : GameTrajectory β) (agentMgr : ThreadAgentManager β),
      ThreadAgentManager.CollectTimesteps W.MultiAppend (W.workers s.learner.agentMgr)
        s.learner.config.timestepsPerIteration = .ok (timesteps, agentMgr) ∧
      (s.tsSinceSave + timesteps.size > s.learner.config.timestepsPerSave
          ∧ s.learner.config.checkpointSaveFolder ≠ [] →
        s'.tsSinceSave = 0 ∧ s'.learner.Save W.torch s.fs = .ok s'.fs ∧
        Event.Save ∈ s'.log.drop s.log.length) ∧
      (¬ (s.tsSinceSave + timesteps.size > s.learner.config.timestepsPerSave
          ∧ s.learner.config.checkpointSaveFolder ≠ []) →
        s'.tsSinceSave = s.tsSinceSave + timesteps.size ∧ s'.fs = s.fs ∧
        Event.Save ∉ s'.log.drop s.log.length)) ∧
    (∀ (S : Startup) (_config : LearnerConfig) (fs : FileSystem) (l : Learner E α β),
      ctor W S _config fs = .ok l →
      l.config.timestepsPerSave
        = (if _config.timestepsPerSave = 0 then (_config.timestepsPerIteration : Int)
            else _config.timestepsPerSave)) := by
  constructor
  · obtain ⟨timesteps, agentMgr, l₁, l₂, calls, hcol, h₁, h₂, hsave⟩ :=
      iteration_learning W s s' hlr h
    have hc₁ := learnPhase_config W _ l₁ timesteps h₁
    have hcfg : l₂.config = s.learner.config :=
      (reportPhase_config W l₁ l₂ _ calls h₂).trans hc₁
    have hl : s'.learner = l₂ := saveIfDue_learner W _ s' _ hsave
    obtain ⟨hdue, hnot⟩ := saveIfDue_spec W _ s' _ hsave
    dsimp only at hdue hnot
    rw [hcfg] at hdue hnot
    obtain ⟨_, _, hnosave, _⟩ := reportPhase_spec W l₁ l₂ _ calls h₂
    refine ⟨timesteps, agentMgr, hcol, ?_, ?_⟩
    · intro hd
      obtain ⟨h1, h2, h3⟩ := hdue hd
      refine ⟨h1, by rw [hl]; exact h2, ?_⟩
      rw [h3]
      simp only [List.append_assoc, List.drop_left]
      simp
    · intro hd
      obtain ⟨h1, h2, h3⟩ := hnot hd
      refine ⟨h1, h2, ?_⟩
      rw [h3]
      simp only [List.append_assoc, List.drop_left]
      simp [hnosave]
  · intro S _config fs l hl
    obtain ⟨_, _, hcfg, _⟩ := ctor_parts W S _config fs l hl
    exact (adjustConfig_spec S.time _config l.config hcfg).2.2.2.2.2.2

theorem createPool_disableCollection (S : Startup) (config : LearnerConfig)
    (agentMgr : ThreadAgentManager β) (h : createPool S config = .ok agentMgr) :
    agentMgr.disableCollection = false := by
  unfold createPool at h
  split at h
  · cases h
  · rename_i mgr₀ hcreate
    obtain ⟨_, _, _, _, hd⟩ := ThreadAgentManager.CreateAgents_spec _ mgr₀ _ _ _ hcreate
    cases h
    split_ifs <;> exact hd

theorem learning_disableCollection (W : World E α β) (s s' : LoopState E α β)
    (hworkers : ∀ mgr, (W.workers mgr).disableCollection = mgr.disableCollection)
    (hstart : s.learner.agentMgr.disableCollection = false)
    (hlr : ¬ (s.learner.config.ppo.policyLR = 0 ∧ s.learner.config.ppo.criticLR = 0))
    (h : iteration W s = .ok s') :
    (∃ (timesteps : GameTrajectory β) (agentMgr : ThreadAgentManager β) (l₀ : Learner E α β)
        (ppo : PPOLearner) (expBuffer : ExperienceBuffer E α),
      ThreadAgentManager.CollectTimesteps W.MultiAppend (W.workers s.learner.agentMgr)
        s.learner.config.timestepsPerIteration = .ok (timesteps, agentMgr) ∧
      beforeLearn W
        { s.learner with agentMgr := agentMgr,
                         totalTimesteps := s.learner.totalTimesteps + timesteps.size }
        timesteps = .ok l₀ ∧
      PPOLearner.Learn W.torch W.cudaSupport W.hardware_concurrency l₀.ppo l₀.expBuffer
        = .ok (ppo, expBuffer) ∧
      (l₀.agentMgr.disableCollection = true ↔
        (s.learner.config.collectionDuringLearn = false
          ∨ s.learner.ppo.device.is_cpu = false)) ∧
      (l₀.agentMgr.disableCollection = true →
        ∀ a ∈ l₀.agentMgr.agents, a.canTick l₀.agentMgr.disableCollection = false)) ∧
    s'.learner.agentMgr.disableCollection = false := by
  obtain ⟨timesteps, agentMgr, l₁, l₂, calls, hcol, h₁, h₂, hsave⟩ :=
    iteration_learning W s s' hlr h
  obtain ⟨l₀, ppo, expBuffer, h₀, hlearn, hc₁, hd₁⟩ := learnPhase_spec W _ l₁ timesteps h₁
  obtain ⟨hc₀, hp₀, _, hd₀⟩ := beforeLearn_spec W _ l₀ timesteps h₀
  obtain ⟨hd₂, _, _, _⟩ := reportPhase_spec W l₁ l₂ _ calls h₂
  have hl : s'.learner = l₂ := saveIfDue_learner W _ s' _ hsave
  have hmgr : agentMgr.disableCollection = false := by
    rw [ThreadAgentManager.CollectTimesteps_disableCollection W.MultiAppend _ agentMgr _
      timesteps hcol, hworkers, hstart]
  dsimp only at hc₀ hp₀ hd₀
  rw [hmgr] at hd₀
  rw [hc₀, hp₀] at hd₁
  rw [hc₁, hc₀] at hd₂
  refine ⟨⟨timesteps, agentMgr, l₀, ppo, expBuffer, hcol, h₀, hlearn, ?_, ?_⟩, ?_⟩
  · rw [hd₀]
    cases s.learner.config.collectionDuringLearn <;> cases s.learner.ppo.device.is_cpu <;> simp
  · intro ht a _
    rw [ht]
    simp [ThreadAgent.canTick]
  · rw [hl, hd₂, hd₁, hd₀]
    cases s.learner.config.collectionDuringLearn <;> cases s.learner.ppo.device.is_cpu <;> simp

/-- C24: the workers only read `disableCollection`.  It is false in a constructed learner and
false again at the end of every iteration that starts with it false, so every iteration starts
with collection enabled.  In every such iteration that learns, `disableCollection` is true when
`ppo->Learn` is called, and so for the whole call since only the orchestrator writes it, if and
only if `collectionDuringLearn` is false or the device is not CPU; and while it is true no
worker passes its wait. -/
theorem collection_frozen_during_learn (W : World E α β)
    (hworkers : ∀ mgr, (W.workers mgr).disableCollection = mgr.disableCollection) :
    (∀ (S : Startup) (_config : LearnerConfig) (fs : FileSystem) (l : Learner E α β),
      ctor W S _config fs = .ok l → l.agentMgr.disableCollection = false) ∧
    (∀ s s' : LoopState E α β, s.learner.agentMgr.disableCollection = false →
      iteration W s = .ok s' → s'.learner.agentMgr.disableCollection = false) ∧
    (∀ s s' : LoopState E α β, s.learner.agentMgr.disableCollection = false →
      ¬ (s.learner.config.ppo.policyLR = 0 ∧ s.learner.config.ppo.criticLR = 0) →
      iteration W s = .ok s' →
      ∃ (timesteps : GameTrajectory β) (agentMgr : ThreadAgentManager β) (l₀ : Learner E α β)
          (ppo : PPOLearner) (expBuffer : ExperienceBuffer E α),
        ThreadAgentManager.CollectTimesteps W.MultiAppend (W.workers s.learner.agentMgr)
          s.learner.config.timestepsPerIteration = .ok (timesteps, agentMgr) ∧
        beforeLearn W
          { s.learner with agentMgr := agentMgr,
                           totalTimesteps := s.learner.totalTimesteps + timesteps.size }
          timesteps = .ok l₀ ∧
        PPOLearner.Learn W.torch W.cudaSupport W.hardware_concurrency l₀.ppo l₀.expBuffer
          = .ok (ppo, expBuffer) ∧
        (l₀.agentMgr.disableCollection = true ↔
          (s.learner.config.collectionDuringLearn = false
            ∨ s.learner.ppo.device.is_cpu = false)) ∧
        (l₀.agentMgr.disableCollection = true →
          ∀ a ∈ l₀.agentMgr.agents, a.canTick l₀.agentMgr.disableCollection = false)) := by
  refine ⟨?_, ?_, ?_⟩
  · intro S _config fs l hl
    obtain ⟨agentMgr, _, _, hpool, ha, _⟩ := ctor_parts W S _config fs l hl
    rw [ha]
    exact createPool_disableCollection S l.config agentMgr hpool
  · intro s s' hstart h
    by_cases hlr : s.learner.config.ppo.policyLR = 0 ∧ s.learner.config.ppo.criticLR = 0
    · obtain ⟨timesteps, agentMgr, hcol, hs'⟩ := iteration_zero_lr W s s' hlr.1 hlr.2 h
      subst hs'
      dsimp only
      rw [ThreadAgentManager.CollectTimesteps_disableCollection W.MultiAppend _ agentMgr _
        timesteps hcol, hworkers, hstart]
    · exact (learning_disableCollection W s s' hworkers hstart hlr h).2
  · intro s s' hstart hlr h
    exact (learning_disableCollection W s s' hworkers hstart hlr h).1

end Learner

/-- Witness of C23 amended: the training state has counted 5 steps, collects 10 and saves every
8; its iteration writes the checkpoint `save/310` and resets the counter. -/
theorem save_when_due_witness :
    ¬ (sampleTrainingState.learner.config.ppo.policyLR = 0
        ∧ sampleTrainingState.learner.config.ppo.criticLR = 0) ∧
    Learner.iteration sampleWorld sampleTrainingState = .ok sampleTrainingIteration ∧
    sampleTrainingIteration.tsSinceSave = 0 ∧
    sampleTrainingIteration.fs.pathExists ["save", "310", "RUNNING_STATS.json"] = true ∧
    (∃ timesteps agentMgr,
      ThreadAgentManager.CollectTimesteps sampleWorld.MultiAppend
        (sampleWorld.workers sampleTrainingState.learner.agentMgr)
        sampleTrainingState.learner.config.timestepsPerIteration = .ok (timesteps, agentMgr)) := by
  have hlr : ¬ (sampleTrainingState.learner.config.ppo.policyLR = 0
      ∧ sampleTrainingState.learner.config.ppo.criticLR = 0) := by
    intro hz
    exact absurd hz.1 (by decide)
  obtain ⟨timesteps, agentMgr, hcol, _, _⟩ :=
    (Learner.save_when_due sampleWorld sampleTrainingState sampleTrainingIteration hlr
      sampleTrainingIteration_eq).1
  exact ⟨hlr, sampleTrainingIteration_eq, rfl, by decide, timesteps, agentMgr, hcol⟩

/-- Witness of C24: the training learner runs on CPU with `collectionDuringLearn` off; its
iteration starts and ends with collection enabled. -/
theorem collection_frozen_during_learn_witness :
    sampleTrainingState.learner.agentMgr.disableCollection = false ∧
    sampleTrainingState.learner.config.collectionDuringLearn = false ∧
    Learner.iteration sampleWorld sampleTrainingState = .ok sampleTrainingIteration ∧
    sampleTrainingIteration.learner.agentMgr.disableCollection = false := by
  have h := (Learner.collection_frozen_during_learn sampleWorld (fun _ => rfl)).2.1
    sampleTrainingState sampleTrainingIteration rfl sampleTrainingIteration_eq
  exact ⟨rfl, rfl, sampleTrainingIteration_eq, h⟩
/-! ## Mini-batch dispatch -/

theorem strided_sum (B s : Int) (hB : 0 ≤ B) :
    ∀ j : Nat, (∀ i : Nat, i < j → (i : Int) * s < B) →
      ((List.range j).map fun i : Nat => min (((i : Int) + 1) * s) B - (i : Int) * s).sum
        = min ((j : Int) * s) B := by
  intro j
  induction j with
  | zero =>
    intro _
    simp [hB]
  | succ j ih =>
    intro h1
    have hj := h1 j (Nat.lt_succ_self j)
    have ih' := ih (fun i hi => h1 i (Nat.lt_succ_of_lt hi))
    rw [List.range_succ, List.map_append, List.sum_append, ih']
    simp only [List.map_cons, List.map_nil, List.sum_cons, List.sum_nil, add_zero]
    rw [min_eq_left (le_of_lt hj)]
    push_cast
    ring

theorem strided_cover (B s : Int) (hs : 0 < s) (k : Nat)
    (h2 : B ≤ (k : Int) * s) (x : Int) (hx0 : 0 ≤ x) (hxB : x < B) :
    ∃! i : Nat, i < k ∧ (i : Int) * s ≤ x ∧ x < min (((i : Int) + 1) * s) B := by
  have hq0 : 0 ≤ x / s := Int.ediv_nonneg hx0 (le_of_lt hs)
  have hlo : x / s * s ≤ x := Int.ediv_mul_le x (ne_of_gt hs)
  have hhi : x < (x / s + 1) * s := Int.lt_ediv_add_one_mul_self x hs
  have hcast : (((x / s).toNat : Nat) : Int) = x / s := Int.toNat_of_nonneg hq0
  refine ⟨(x / s).toNat, ⟨?_, ?_, ?_⟩, ?_⟩
  · have hlt : ((x / s).toNat : Int) * s < (k : Int) * s := by
      rw [hcast]
      linarith
    have := lt_of_mul_lt_mul_right hlt (le_of_lt hs)
    exact_mod_cast this
  · rw [hcast]
    exact hlo
  · rw [hcast]
    exact lt_min hhi hxB
  · rintro j ⟨_, hj1, hj2⟩
    have hj2' : x < ((j : Int) + 1) * s := lt_of_lt_of_le hj2 (min_le_left _ _)
    have hji : (j : Int) = x / s := by
      have h1 : (j : Int) < x / s + 1 := by
        have : (j : Int) * s < (x / s + 1) * s := lt_of_le_of_lt hj1 hhi
        exact lt_of_mul_lt_mul_right this (le_of_lt hs)
      have h3 : x / s < (j : Int) + 1 := by
        have : x / s * s < ((j : Int) + 1) * s := lt_of_le_of_lt hlo hj2'
        exact lt_of_mul_lt_mul_right this (le_of_lt hs)
      omega
    omega

theorem sum_map_div (l : List Nat) (f : Nat → Int) (B : ℚ) :
    (l.map fun i => ((f i : Int) : ℚ) / B).sum = (((l.map f).sum : Int) : ℚ) / B := by
  induction l with
  | nil => simp
  | cons x xs ih =>
    simp only [List.map_cons, List.sum_cons, ih]
    push_cast
    ring

namespace PPOLearner

variable {α : Type}

theorem dispatchLoop_spec (batchSize stride : Int) :
    ∀ (k fuel : Nat) (mbs : Int) (jobs : List (Int × Int)),
      k < fuel → (∀ i : Nat, i < k → mbs + (i : Int) * stride < batchSize) →
      batchSize ≤ mbs + (k : Int) * stride →
      dispatchLoop batchSize stride fuel mbs jobs
        = .ok (jobs ++ (List.range k).map fun i : Nat =>
            (mbs + (i : Int) * stride, min (mbs + ((i : Int) + 1) * stride) batchSize)) := by
  intro k
  induction k with
  | zero =>
    intro fuel mbs jobs hf _ h2
    cases fuel with
    | zero => omega
    | succ fuel =>
      have hge : ¬ mbs < batchSize := by
        simp only [Nat.cast_zero, zero_mul, add_zero] at h2
        omega
      simp [dispatchLoop, hge]
  | succ k ih =>
    intro fuel mbs jobs hf h1 h2
    cases fuel with
    | zero => omega
    | succ fuel =>
      have hlt : mbs < batchSize := by
        have := h1 0 (Nat.succ_pos k)
        simpa using this
      have hih := ih fuel (mbs + stride) (jobs ++ [(mbs, min (mbs + stride) batchSize)])
        (by omega)
        (fun i hi => by
          have := h1 (i + 1) (by omega)
          push_cast at this
          linarith)
        (by
          push_cast at h2
          linarith)
      rw [dispatchLoop, if_pos hlt]
      dsimp only
      rw [hih, List.range_succ_eq_map, List.map_cons, List.map_map, List.append_assoc]
      congr 2
      simp only [List.singleton_append, Nat.cast_zero, zero_mul, add_zero, zero_add, one_mul]
      congr 1
      apply List.map_congr_left
      intro i _
      simp only [Function.comp, Nat.cast_succ]
      congr 1
      · ring
      · congr 1
        ring

theorem dispatchLoop_stuck (batchSize : Int) (hB : 0 < batchSize) :
    ∀ (fuel : Nat) (jobs : List (Int × Int)),
      dispatchLoop batchSize 0 fuel 0 jobs = .error Fault.fuel := by
  intro fuel
  induction fuel with
  | zero => intro jobs; rfl
  | succ fuel ih =>
    intro jobs
    rw [dispatchLoop, if_pos hB]
    dsimp only
    rw [add_zero]
    exact ih _

/-- C30 fails on the code: the CPU dispatch advances by `batchSize / p`, the integer quotient,
which is 0 when the pool has more threads than the batch has rows; the loop then never ends
(it fails for every amount of fuel), starting jobs over the empty range `[0, 0)`.  With
`1 <= p <= batchSize` the loop ends, and the ranges it dispatches are non-empty, every index
below `batchSize` is in exactly one of them, and the quotients `(stop - start) / batchSize`,
taken exactly, sum to 1. -/
theorem cpu_dispatch (hardware_concurrency : Nat) (ppo : PPOLearner) (p : Nat)
    (hdev : ppo.device.is_cpu = true)
    (hpool : (match ppo.minibatchThreadPool with
      | some threads => threads
      | none => hardware_concurrency + hardware_concurrency / 2) = p)
    (hB : 1 ≤ ppo.config.batchSize) (hp : 1 ≤ p) :
    (ppo.config.batchSize < (p : Int) →
      Int.tdiv ppo.config.batchSize (p : Int) = 0 ∧
      (∀ (fuel : Nat) (jobs : List (Int × Int)),
        dispatchLoop ppo.config.batchSize (Int.tdiv ppo.config.batchSize (p : Int)) fuel 0 jobs
          = .error Fault.fuel) ∧
      dispatch hardware_concurrency ppo = .error Fault.fuel) ∧
    ((p : Int) ≤ ppo.config.batchSize →
      ∃ k : Nat,
        dispatch hardware_concurrency ppo
          = .ok ((List.range k).map (fun i : Nat =>
              ((i : Int) * Int.tdiv ppo.config.batchSize (p : Int),
               min (((i : Int) + 1) * Int.tdiv ppo.config.batchSize (p : Int))
                 ppo.config.batchSize)),
            some p) ∧
        (∀ i : Nat, i < k →
          (i : Int) * Int.tdiv ppo.config.batchSize (p : Int)
            < min (((i : Int) + 1) * Int.tdiv ppo.config.batchSize (p : Int))
                ppo.config.batchSize) ∧
        (∀ x : Int, 0 ≤ x → x < ppo.config.batchSize →
          ∃! i : Nat, i < k ∧ (i : Int) * Int.tdiv ppo.config.batchSize (p : Int) ≤ x
            ∧ x < min (((i : Int) + 1) * Int.tdiv ppo.config.batchSize (p : Int))
                ppo.config.batchSize) ∧
        ((List.range k).map (fun i : Nat =>
          (((min (((i : Int) + 1) * Int.tdiv ppo.config.batchSize (p : Int))
                ppo.config.batchSize
              - (i : Int) * Int.tdiv ppo.config.batchSize (p : Int) : Int) : ℚ)
            / (ppo.config.batchSize : ℚ)))).sum = 1) := by
  have hp0 : (0 : Int) < p := by exact_mod_cast hp
  have hB0 : 0 ≤ ppo.config.batchSize := by omega
  have htdiv : Int.tdiv ppo.config.batchSize (p : Int) = ppo.config.batchSize / (p : Int) :=
    Int.tdiv_eq_ediv hB0 (le_of_lt hp0)
  have hpne : p ≠ 0 := by omega
  constructor
  · intro hlt
    have hz : Int.tdiv ppo.config.batchSize (p : Int) = 0 := by
      rw [htdiv]
      exact Int.ediv_eq_zero_of_lt hB0 hlt
    refine ⟨hz, ?_, ?_⟩
    · intro fuel jobs
      rw [hz]
      exact dispatchLoop_stuck ppo.config.batchSize (by omega) fuel jobs
    · unfold dispatch
      simp only [hdev, if_true, hpool, hpne, if_false, hz]
      rw [dispatchLoop_stuck ppo.config.batchSize (by omega)]
  · intro hle
    generalize hs : Int.tdiv ppo.config.batchSize (p : Int) = s at *
    have hlo : s * (p : Int) ≤ ppo.config.batchSize := by
      rw [htdiv]
      exact Int.ediv_mul_le _ (ne_of_gt hp0)
    have hhi : ppo.config.batchSize < (s + 1) * (p : Int) := by
      rw [htdiv]
      exact Int.lt_ediv_add_one_mul_self _ hp0
    have hs1 : 1 ≤ s := by
      by_contra hcon
      have h0 : s + 1 ≤ 1 := by omega
      have : (s + 1) * (p : Int) ≤ 1 * (p : Int) :=
        mul_le_mul_of_nonneg_right h0 (le_of_lt hp0)
      linarith
    have hs0 : 0 < s := by omega
    have hqlo : (ppo.config.batchSize + s - 1) / s * s ≤ ppo.config.batchSize + s - 1 :=
      Int.ediv_mul_le _ (ne_of_gt hs0)
    have hqhi : ppo.config.batchSize + s - 1 < ((ppo.config.batchSize + s - 1) / s + 1) * s :=
      Int.lt_ediv_add_one_mul_self _ hs0
    have hq0 : 0 ≤ (ppo.config.batchSize + s - 1) / s :=
      Int.ediv_nonneg (by omega) (le_of_lt hs0)
    generalize hq : (ppo.config.batchSize + s - 1) / s = q at *
    have hcast : ((q.toNat : Nat) : Int) = q := Int.toNat_of_nonneg hq0
    have h2 : ppo.config.batchSize ≤ (q.toNat : Int) * s := by
      rw [hcast]
      linarith
    have h1 : ∀ i : Nat, i < q.toNat → (i : Int) * s < ppo.config.batchSize := by
      intro i hi
      have hiq : (i : Int) + 1 ≤ q := by omega
      have : ((i : Int) + 1) * s ≤ q * s := mul_le_mul_of_nonneg_right hiq (le_of_lt hs0)
      linarith
    have hfuel : q.toNat < ppo.config.batchSize.toNat + 1 := by
      have hqB : q ≤ ppo.config.batchSize := by
        by_contra hcon
        have h3 : ppo.config.batchSize + 1 ≤ q := by omega
        have h4 : (ppo.config.batchSize + 1) * s ≤ q * s :=
          mul_le_mul_of_nonneg_right h3 (le_of_lt hs0)
        have h5 : ppo.config.batchSize * 1 ≤ ppo.config.batchSize * s :=
          mul_le_mul_of_nonneg_left hs1 hB0
        linarith
      omega
    refine ⟨q.toNat, ?_, ?_, ?_, ?_⟩
    · have hspec := dispatchLoop_spec ppo.config.batchSize s q.toNat
        (ppo.config.batchSize.toNat + 1) 0 [] hfuel
        (fun i hi => by
          have := h1 i hi
          linarith)
        (by linarith)
      unfold dispatch
      simp only [hdev, if_true, hpool, hpne, if_false, hs, hspec, List.nil_append, zero_add]
    · intro i hi
      have := h1 i hi
      exact lt_min (by linarith) this
    · intro x hx0 hxB
      exact strided_cover ppo.config.batchSize s hs0 q.toNat h2 x hx0 hxB
    · rw [sum_map_div (List.range q.toNat)
        (fun i : Nat => min (((i : Int) + 1) * s) ppo.config.batchSize - (i : Int) * s)
        (ppo.config.batchSize : ℚ),
        strided_sum ppo.config.batchSize s hB0 q.toNat h1, min_eq_right h2]
      have hne : (ppo.config.batchSize : ℚ) ≠ 0 := by
        have : ppo.config.batchSize ≠ 0 := by omega
        exact_mod_cast this
      exact div_self hne

end PPOLearner

/-- Witness of C30: with 2 hardware threads the pool has 3 threads; a batch of 2 rows gives a
stride of 0 and a loop that does not end, a batch of 4 rows is dispatched in four ranges. -/
theorem cpu_dispatch_witness :
    sampleTinyBatchPPO.device.is_cpu = true ∧
    Int.tdiv sampleTinyBatchPPO.config.batchSize 3 = 0 ∧
    (∀ fuel jobs, PPOLearner.dispatchLoop 2 0 fuel 0 jobs = .error Fault.fuel) ∧
    PPOLearner.dispatch 2 sampleTinyBatchPPO = .error Fault.fuel ∧
    PPOLearner.dispatch 2 samplePPO = .ok ([(0, 1), (1, 2), (2, 3), (3, 4)], some 3) := by
  have h := (PPOLearner.cpu_dispatch 2 sampleTinyBatchPPO 3 rfl rfl (by decide) (by decide)).1
    (by decide)
  exact ⟨rfl, h.1, h.2.1, h.2.2, rfl⟩
/-! ## Counting model updates -/

namespace ExperienceBuffer

variable {E : RandomEngine} {α : Type}

theorem GetAllBatchesShuffled_length (b b' : ExperienceBuffer E α) (batchSize : Int)
    (out : List (SampleSet α)) (h : GetAllBatchesShuffled b batchSize = .ok (out, b')) :
    out.length = b.curSize / batchSize.toNat := by
  by_cases hcond : b.curSize = 0 ∨ batchSize ≤ 0
  · unfold GetAllBatchesShuffled at h
    rw [if_pos hcond] at h
    cases h
    rcases hcond with h0 | h0
    · simp [h0]
    · have : batchSize.toNat = 0 := by omega
      simp [this]
  · rw [GetAllBatchesShuffled_eq b batchSize hcond] at h
    generalize hm : List.mapM b._GetSamples
      (blocksOf (E.shuffle b.rng (List.range b.curSize)).1 batchSize.toNat b.curSize 0) = m
      at h
    cases m with
    | error e => cases h
    | ok r =>
      simp only [Except.map] at h
      cases h
      have hf := mapM_ok_forall₂ _ _ _ hm
      rw [← hf.length_eq, blocksOf_length]

theorem GetAllBatchesShuffled_none (b : ExperienceBuffer E α) (batchSize : Int)
    (h : b.curSize / batchSize.toNat = 0) :
    ∃ b', GetAllBatchesShuffled b batchSize = .ok ([], b') ∧ b'.curSize = b.curSize := by
  by_cases hcond : b.curSize = 0 ∨ batchSize ≤ 0
  · refine ⟨b, ?_, rfl⟩
    unfold GetAllBatchesShuffled
    rw [if_pos hcond]
  · rw [GetAllBatchesShuffled_eq b batchSize hcond]
    have hnil : blocksOf (E.shuffle b.rng (List.range b.curSize)).1 batchSize.toNat b.curSize 0
        = [] := by
      apply List.eq_nil_of_length_eq_zero
      rw [blocksOf_length, h]
    rw [hnil, List.mapM_nil]
    exact ⟨_, rfl, rfl⟩

end ExperienceBuffer

namespace PPOLearner

variable {E : RandomEngine} {α : Type}

theorem learnBatch_count (T : Torch α) (hardware_concurrency : Nat)
    (trainPolicy trainCritic : Bool) (st st' : LearnState) (batch : SampleSet α)
    (h : learnBatch T hardware_concurrency trainPolicy trainCritic st batch = .ok st') :
    st'.numIterations = st.numIterations + 1 ∧
    st'.ppo.cumulativeModelUpdates = st.ppo.cumulativeModelUpdates := by
  unfold learnBatch at h
  split at h
  · cases h
  · cases h
    exact ⟨rfl, rfl⟩

theorem learnBatches_count (T : Torch α) (hardware_concurrency : Nat)
    (trainPolicy trainCritic : Bool) :
    ∀ (batches : List (SampleSet α)) (st st' : LearnState),
      learnBatches T hardware_concurrency trainPolicy trainCritic st batches = .ok st' →
      st'.numIterations = st.numIterations + batches.length ∧
      st'.ppo.cumulativeModelUpdates = st.ppo.cumulativeModelUpdates := by
  intro batches
  induction batches with
  | nil =>
    intro st st' h
    simp only [learnBatches] at h
    cases h
    simp
  | cons batch rest ih =>
    intro st st' h
    simp only [learnBatches] at h
    split at h
    · cases h
    · rename_i st₁ h₁
      obtain ⟨i₁, u₁⟩ := learnBatch_count T _ _ _ st st₁ batch h₁
      obtain ⟨i₂, u₂⟩ := ih st₁ st' h
      refine ⟨?_, u₂.trans u₁⟩
      rw [i₂, i₁, List.length_cons]
      push_cast
      ring

theorem learnEpochs_count (T : Torch α) (hardware_concurrency : Nat)
    (trainPolicy trainCritic : Bool) :
    ∀ (epochs : Nat) (st st' : LearnState) (expBuffer expBuffer' : ExperienceBuffer E α),
      learnEpochs T hardware_concurrency trainPolicy trainCritic epochs st expBuffer
          = .ok (st', expBuffer') →
      st'.numIterations
        = st.numIterations
          + ((epochs * (expBuffer.curSize / st.ppo.config.batchSize.toNat) : Nat) : Int) ∧
      st'.ppo.cumulativeModelUpdates = st.ppo.cumulativeModelUpdates := by
  intro epochs
  induction epochs with
  | zero =>
    intro st st' expBuffer expBuffer' h
    simp only [learnEpochs] at h
    cases h
    simp
  | succ epochs ih =>
    intro st st' expBuffer expBuffer' h
    simp only [learnEpochs] at h
    split at h
    · cases h
    · rename_i batches buf₁ hget
      split at h
      · cases h
      · rename_i st₁ h₁
        have hlen := ExperienceBuffer.GetAllBatchesShuffled_length expBuffer buf₁ _ batches hget
        have hcur := (ExperienceBuffer.GetAllBatchesShuffled_frame expBuffer buf₁ _ batches
          hget).2.1
        have hcfg := (learnBatches_frame T hardware_concurrency trainPolicy trainCritic batches
          st st₁ h₁).1
        obtain ⟨i₁, u₁⟩ := learnBatches_count T _ _ _ batches st st₁ h₁
        obtain ⟨i₂, u₂⟩ := ih st₁ st' buf₁ expBuffer' h
        refine ⟨?_, u₂.trans u₁⟩
        rw [i₂, i₁, hlen, hcur, hcfg]
        push_cast
        ring

theorem learnEpochs_none (T : Torch α) (hardware_concurrency : Nat)
    (trainPolicy trainCritic : Bool) (st : LearnState) :
    ∀ (epochs : Nat) (expBuffer : ExperienceBuffer E α),
      expBuffer.curSize / st.ppo.config.batchSize.toNat = 0 →
      ∃ expBuffer',
        learnEpochs T hardware_concurrency trainPolicy trainCritic epochs st expBuffer
          = .ok (st, expBuffer') := by
  intro epochs
  induction epochs with
  | zero =>
    intro expBuffer _
    exact ⟨expBuffer, rfl⟩
  | succ epochs ih =>
    intro expBuffer h0
    obtain ⟨buf₁, hget, hcur⟩ :=
      ExperienceBuffer.GetAllBatchesShuffled_none expBuffer st.ppo.config.batchSize h0
    obtain ⟨buf₂, h₂⟩ := ih buf₁ (by rw [hcur]; exact h0)
    refine ⟨buf₂, ?_⟩
    simp only [learnEpochs, hget, learnBatches, h₂]

/-- C27 as stated fails: over the sample buffer of 8 rows with batches of 16 rows no batch is
processed and no parameter changes, yet `Learn` increases `cumulativeModelUpdates` by 1, where
`epochs * floor(curSize / batchSize)` is 0. -/
theorem no_batch_counts_one_update :
    sampleBigBatchPPO.config.epochs.toNat
        * (sampleBuffer.curSize / sampleBigBatchPPO.config.batchSize.toNat) = 0 ∧
    sampleBigBatchPPO.cumulativeModelUpdates = 0 ∧
    (Learn sampleTorch false 2 sampleBigBatchPPO sampleBuffer).toOption.map
        (fun r => (r.1.cumulativeModelUpdates, r.1.policy, r.1.valueNet))
      = some (1, sampleBigBatchPPO.policy, sampleBigBatchPPO.valueNet) := by
  refine ⟨by decide, rfl, ?_⟩
  rfl

/-- C27 amended: when `Learn` returns, it has increased `cumulativeModelUpdates` by the number
of batches it processed, `epochs * floor(curSize / batchSize)`, when that number is at least 1,
and by 1 when it processed no batch (the count is raised to 1 before it is added); and with no
batch to process `Learn` does return, past the autocast check, with the learner otherwise
unchanged. -/
theorem model_updates_count (T : Torch α) (cudaSupport : Bool) (hardware_concurrency : Nat)
    (ppo ppo' : PPOLearner) (expBuffer expBuffer' : ExperienceBuffer E α)
    (h : Learn T cudaSupport hardware_concurrency ppo expBuffer = .ok (ppo', expBuffer')) :
    ppo'.cumulativeModelUpdates
      = ppo.cumulativeModelUpdates
        + max ((ppo.config.epochs.toNat
            * (expBuffer.curSize / ppo.config.batchSize.toNat) : Nat) : Int) 1 ∧
    (1 ≤ ppo.config.epochs.toNat * (expBuffer.curSize / ppo.config.batchSize.toNat) →
      ppo'.cumulativeModelUpdates
        = ppo.cumulativeModelUpdates
          + ((ppo.config.epochs.toNat
              * (expBuffer.curSize / ppo.config.batchSize.toNat) : Nat) : Int)) ∧
    (ppo.config.epochs.toNat * (expBuffer.curSize / ppo.config.batchSize.toNat) = 0 →
      ppo'.cumulativeModelUpdates = ppo.cumulativeModelUpdates + 1) ∧
    (expBuffer.curSize / ppo.config.batchSize.toNat = 0 →
      ppo' = { ppo with cumulativeModelUpdates := ppo.cumulativeModelUpdates + 1 }) := by
  have hmain : ppo'.cumulativeModelUpdates
      = ppo.cumulativeModelUpdates
        + max ((ppo.config.epochs.toNat
            * (expBuffer.curSize / ppo.config.batchSize.toNat) : Nat) : Int) 1 ∧
      (expBuffer.curSize / ppo.config.batchSize.toNat = 0 →
        ppo' = { ppo with cumulativeModelUpdates := ppo.cumulativeModelUpdates + 1 }) := by
    unfold Learn at h
    simp only at h
    split at h
    · exact absurd h (by simp)
    · split at h
      · exact absurd h (by simp)
      · rename_i st buf hep
        injection h with h
        injection h with h₂ h₃
        subst h₂
        obtain ⟨hcount, hframe⟩ :=
          learnEpochs_count T hardware_concurrency _ _ _ _ st expBuffer buf hep
        dsimp only at hcount hframe
        refine ⟨?_, ?_⟩
        · dsimp only
          rw [hcount, hframe]
          simp
        · intro h0
          obtain ⟨buf₂, h₂⟩ := learnEpochs_none T hardware_concurrency
            (decide (ppo.config.policyLR ≠ 0)) (decide (ppo.config.criticLR ≠ 0))
            { ppo := ppo, numIterations := 0, numMinibatchIterations := 0 }
            ppo.config.epochs.toNat expBuffer h0
          rw [h₂] at hep
          cases hep
          rfl
  refine ⟨hmain.1, ?_, ?_, hmain.2⟩
  · intro h1
    rw [hmain.1, max_eq_left (by exact_mod_cast h1)]
  · intro h0
    rw [hmain.1, h0]
    rfl

end PPOLearner

theorem sampleTrainingLearn_eq :
    PPOLearner.Learn sampleTorch false 2 sampleTrainingLearner.ppo sampleBuffer
      = .ok (sampleTrainingLearn.1, sampleTrainingLearn.2) := by
  rfl

/-- Witness of C27 amended: one epoch over the sample buffer of 8 rows with batches of 4 rows
processes two batches and adds 2 to the counter. -/
theorem model_updates_count_witness :
    PPOLearner.Learn sampleTorch false 2 sampleTrainingLearner.ppo sampleBuffer
      = .ok (sampleTrainingLearn.1, sampleTrainingLearn.2) ∧
    sampleTrainingLearner.ppo.cumulativeModelUpdates = 0 ∧
    sampleTrainingLearn.1.cumulativeModelUpdates = 2 := by
  have h := (PPOLearner.model_updates_count sampleTorch false 2 sampleTrainingLearner.ppo
    sampleTrainingLearn.1 sampleBuffer sampleTrainingLearn.2 sampleTrainingLearn_eq).2.1
    (by decide)
  exact ⟨sampleTrainingLearn_eq, rfl, h.trans (by decide)⟩
/-! ## Value predictions of `AddNewExperience` -/

namespace Learner

theorem chunk_input {σ : Type} (states nextStates : List σ) (last : σ)
    (hlast : nextStates[states.length - 1]? = some last) (i stop : Nat)
    (hi : i < stop) (hstop : stop ≤ states.length + 1) :
    (if stop = states.length + 1 then
        match nextStates[states.length - 1]? with
        | none => .error Fault.backend
        | some finalNextState =>
          .ok ((states.drop i).take
            ((if stop > states.length then states.length else stop) - i) ++ [finalNextState])
      else (.ok ((states.drop i).take
            ((if stop > states.length then states.length else stop) - i)) :
          Except Fault (List σ)))
      = .ok (((states ++ [last]).drop i).take (stop - i)) := by
  by_cases hs : stop = states.length + 1
  · rw [if_pos hs, hlast]
    dsimp only
    have hgt : stop > states.length := by omega
    rw [if_pos hgt]
    have hle : i ≤ states.length := by omega
    rw [List.drop_append_of_le_length hle]
    have h1 : (states.drop i).take (states.length - i) = states.drop i := by
      apply List.take_of_length_le
      simp
    have h2 : (states.drop i ++ [last]).take (stop - i) = states.drop i ++ [last] := by
      apply List.take_of_length_le
      simp
      omega
    rw [h1, h2]
  · rw [if_neg hs]
    have hle : stop ≤ states.length := by omega
    have hngt : ¬ stop > states.length := by omega
    rw [if_neg hngt]
    have hi' : i ≤ states.length := by omega
    rw [List.drop_append_of_le_length hi', List.take_append_of_le_length]
    simp
    omega

theorem valPredsLoop_spec {σ : Type} (Forward : List σ → List ℚ) (V : σ → ℚ)
    (states nextStates : List σ) (last : σ) (miniBatchSize : Nat)
    (hlast : nextStates[states.length - 1]? = some last) (hm : 1 ≤ miniBatchSize)
    (hF : ∀ xs, (Forward xs).length = xs.length) :
    ∀ (k fuel i : Nat) (tensor : List ℚ) (chunks : List ValChunk),
      k < fuel → (∀ j : Nat, j < k → i + j * miniBatchSize < states.length + 1) →
      states.length + 1 ≤ i + k * miniBatchSize → tensor.length = states.length + 1 →
      ∃ tensor',
        valPredsLoop Forward states nextStates miniBatchSize states.length
            (states.length + 1) fuel i tensor chunks
          = .ok (tensor', chunks ++ (List.range k).map fun j : Nat =>
              { start := i + j * miniBatchSize,
                stop := min (i + j * miniBatchSize + miniBatchSize) (states.length + 1),
                fed := min (i + j * miniBatchSize + miniBatchSize) (states.length + 1)
                  - (i + j * miniBatchSize),
                appended := decide (min (i + j * miniBatchSize + miniBatchSize)
                  (states.length + 1) = states.length + 1) }) ∧
        tensor'.length = states.length + 1 ∧
        ((∀ xs, Forward xs = xs.map V) →
          tensor' = tensor.take i ++ ((states ++ [last]).map V).drop i) := by
  intro k
  induction k with
  | zero =>
    intro fuel i tensor chunks hf _ h2 hlen
    cases fuel with
    | zero => omega
    | succ fuel =>
      have hge : ¬ i < states.length + 1 := by omega
      refine ⟨tensor, ?_, hlen, ?_⟩
      · rw [valPredsLoop, if_neg hge]
        simp
      · intro _
        have h1 : tensor.take i = tensor := List.take_of_length_le (by omega)
        have h3 : ((states ++ [last]).map V).drop i = [] := by
          apply List.drop_of_length_le
          simp
          omega
        rw [h1, h3, List.append_nil]
  | succ k ih =>
    intro fuel i tensor chunks hf h1 h2 hlen
    cases fuel with
    | zero => omega
    | succ fuel =>
      have hlt : i < states.length + 1 := by
        have := h1 0 (Nat.succ_pos k)
        simpa using this
      have hstop1 : i < min (i + miniBatchSize) (states.length + 1) := by
        apply lt_min <;> omega
      have hstop2 : min (i + miniBatchSize) (states.length + 1) ≤ states.length + 1 :=
        min_le_right _ _
      have hin := chunk_input states nextStates last hlast i
        (min (i + miniBatchSize) (states.length + 1)) hstop1 hstop2
      have hinlen : (((states ++ [last]).drop i).take
          (min (i + miniBatchSize) (states.length + 1) - i)).length
          = min (i + miniBatchSize) (states.length + 1) - i := by
        simp
        omega
      have hassert : ¬ (Forward (((states ++ [last]).drop i).take
          (min (i + miniBatchSize) (states.length + 1) - i))).length
          ≠ min (i + miniBatchSize) (states.length + 1) - i := by
        rw [hF, hinlen]
        simp
      have hlen₁ : (tensor.take i ++ Forward (((states ++ [last]).drop i).take
          (min (i + miniBatchSize) (states.length + 1) - i))
          ++ tensor.drop (min (i + miniBatchSize) (states.length + 1))).length
          = states.length + 1 := by
        simp only [List.length_append, List.length_take, List.length_drop, hF, hinlen, hlen]
        omega
      obtain ⟨tensor', hrun, hlen', hcontent⟩ := ih fuel (i + miniBatchSize) _
        (chunks ++ [ValChunk.mk i (min (i + miniBatchSize) (states.length + 1))
            (((states ++ [last]).drop i).take
              (min (i + miniBatchSize) (states.length + 1) - i)).length
            (decide (min (i + miniBatchSize) (states.length + 1) = states.length + 1))])
        (by omega)
        (fun j hj => by
          have := h1 (j + 1) (by omega)
          rw [Nat.add_mul, Nat.one_mul] at this
          omega)
        (by
          rw [Nat.add_mul, Nat.one_mul] at h2
          omega)
        hlen₁
      refine ⟨tensor', ?_, hlen', ?_⟩
      · rw [valPredsLoop, if_pos hlt]
        dsimp only
        rw [hin]
        dsimp only
        rw [if_neg hassert, hrun, List.range_succ_eq_map, List.map_cons, List.map_map,
          List.append_assoc, hinlen]
        congr 2
        simp only [List.singleton_append, Nat.zero_mul, Nat.add_zero]
        refine congrArg (fun l => chunks ++ _ :: l) ?_
        apply List.map_congr_left
        intro j _
        have e : i + miniBatchSize + j * miniBatchSize = i + (j + 1) * miniBatchSize := by
          rw [Nat.add_mul, Nat.one_mul]
          omega
        simp only [Function.comp, Nat.succ_eq_add_one, e]
      · intro hrow
        rw [hcontent hrow, hrow]
        have hfm : ((states ++ [last]).map V).length = states.length + 1 := by simp
        by_cases hcase : i + miniBatchSize ≤ states.length + 1
        · have hmin : min (i + miniBatchSize) (states.length + 1) = i + miniBatchSize :=
            min_eq_left hcase
          rw [hmin]
          have hpart : (((states ++ [last]).drop i).take (i + miniBatchSize - i)).map V
              = (((states ++ [last]).map V).drop i).take miniBatchSize := by
            rw [Nat.add_sub_cancel_left, List.map_take, List.map_drop]
          rw [hpart]
          have hlenA : (tensor.take i
              ++ (((states ++ [last]).map V).drop i).take miniBatchSize).length
              = i + miniBatchSize := by
            simp only [List.length_append, List.length_take, List.length_drop, hlen, hfm]
            omega
          rw [List.take_append_of_le_length (by rw [hlenA]), List.take_of_length_le
            (by rw [hlenA]), List.append_assoc]
          congr 1
          have hsplit := List.take_append_drop miniBatchSize (((states ++ [last]).map V).drop i)
          rw [List.drop_drop] at hsplit
          exact hsplit
        · have hmin : min (i + miniBatchSize) (states.length + 1) = states.length + 1 :=
            min_eq_right (by omega)
          rw [hmin]
          have hd1 : tensor.drop (states.length + 1) = [] :=
            List.drop_of_length_le (by omega)
          have hd2 : ((states ++ [last]).map V).drop (i + miniBatchSize) = [] :=
            List.drop_of_length_le (by omega)
          have hpart : (((states ++ [last]).drop i).take (states.length + 1 - i)).map V
              = ((states ++ [last]).map V).drop i := by
            rw [List.map_take, List.map_drop]
            apply List.take_of_length_le
            simp
          rw [hd1, hd2, hpart, List.append_nil, List.append_nil]
          apply List.take_of_length_le
          simp only [List.length_append, List.length_take, List.length_drop, hlen, hfm]
          omega

theorem nat_strided_cover (L s k : Nat) (hs : 1 ≤ s) (h2 : L ≤ k * s) (x : Nat)
    (hx : x < L) :
    ∃! j : Nat, j < k ∧ j * s ≤ x ∧ x < min (j * s + s) L := by
  have hlo : x / s * s ≤ x := Nat.div_mul_le_self x s
  have hhi : x < x / s * s + s := by
    have := Nat.lt_mul_div_succ x (show 0 < s by omega)
    rw [Nat.mul_add, Nat.mul_one, Nat.mul_comm] at this
    exact this
  refine ⟨x / s, ⟨?_, hlo, lt_min hhi hx⟩, ?_⟩
  · have : x / s * s < k * s := by omega
    exact Nat.lt_of_mul_lt_mul_right this
  · rintro j ⟨_, hj1, hj2⟩
    have hj2' : x < (j + 1) * s := by
      have := lt_of_lt_of_le hj2 (min_le_left _ _)
      rw [Nat.add_mul, Nat.one_mul]
      exact this
    exact (Nat.div_eq_of_lt_le hj1 hj2').symm

/-- C26: for every trajectory with `N >= 1` rows and every `miniBatchSize >= 1`, with a value
network that returns one prediction per row, the chunk loop of `AddNewExperience` returns a
prediction array of `N + 1` entries; its passes are the chunks
`[j * miniBatchSize, min((j + 1) * miniBatchSize, N + 1))` in order, each non-empty and of at
most `miniBatchSize` indices, every index below `N + 1` lying in exactly one; each pass feeds
exactly `end - start` rows to the network, so the assertion holds; exactly the last pass appends
the last next-state; and when the network works row by row the array is `V` of each of the `N`
states followed by `V` of the final next-state. -/
theorem value_predictions_chunks {σ : Type} (Forward : List σ → List ℚ)
    (states nextStates : List σ) (miniBatchSize : Nat)
    (hN : 1 ≤ states.length) (hnext : nextStates.length = states.length)
    (hm : 1 ≤ miniBatchSize) (hF : ∀ xs, (Forward xs).length = xs.length) :
    ∃ (valPreds : List ℚ) (chunks : List ValChunk) (last : σ),
      valuePredictions Forward states nextStates miniBatchSize = .ok (valPreds, chunks) ∧
      valPreds.length = states.length + 1 ∧
      nextStates[states.length - 1]? = some last ∧
      chunks = (List.range ((states.length + miniBatchSize) / miniBatchSize)).map
        (fun j : Nat =>
          { start := j * miniBatchSize,
            stop := min (j * miniBatchSize + miniBatchSize) (states.length + 1),
            fed := min (j * miniBatchSize + miniBatchSize) (states.length + 1)
              - j * miniBatchSize,
            appended := decide (j + 1 = (states.length + miniBatchSize) / miniBatchSize) }) ∧
      (∀ c ∈ chunks, c.start < c.stop ∧ c.stop - c.start ≤ miniBatchSize ∧
        c.stop ≤ states.length + 1 ∧ c.fed = c.stop - c.start) ∧
      (∀ x : Nat, x < states.length + 1 →
        ∃! j : Nat, j < (states.length + miniBatchSize) / miniBatchSize ∧
          j * miniBatchSize ≤ x ∧
          x < min (j * miniBatchSize + miniBatchSize) (states.length + 1)) ∧
      (∀ V : σ → ℚ, (∀ xs, Forward xs = xs.map V) →
        valPreds = states.map V ++ [V last]) := by
  have hm0 : 0 < miniBatchSize := by omega
  have hlast : ∃ last, nextStates[states.length - 1]? = some last := by
    have hlt : states.length - 1 < nextStates.length := by omega
    exact ⟨nextStates[states.length - 1], List.getElem?_eq_getElem hlt⟩
  obtain ⟨last, hlast⟩ := hlast
  have hklo : (states.length + miniBatchSize) / miniBatchSize * miniBatchSize
      ≤ states.length + miniBatchSize := Nat.div_mul_le_self _ _
  have hkhi : states.length + miniBatchSize
      < (states.length + miniBatchSize) / miniBatchSize * miniBatchSize + miniBatchSize := by
    have := Nat.lt_mul_div_succ (states.length + miniBatchSize) hm0
    rw [Nat.mul_add, Nat.mul_one, Nat.mul_comm] at this
    exact this
  generalize hk : (states.length + miniBatchSize) / miniBatchSize = k at *
  have h2 : states.length + 1 ≤ k * miniBatchSize := by omega
  have h1 : ∀ j : Nat, j < k → j * miniBatchSize < states.length + 1 := by
    intro j hj
    have : (j + 1) * miniBatchSize ≤ k * miniBatchSize := Nat.mul_le_mul_right _ hj
    rw [Nat.add_mul, Nat.one_mul] at this
    omega
  have hkle : k ≤ states.length + 1 := by
    by_contra hcon
    have h3 : (states.length + 1 + 1) * miniBatchSize ≤ k * miniBatchSize :=
      Nat.mul_le_mul_right _ (by omega)
    have h4 : (states.length + 1) * 1 ≤ (states.length + 1) * miniBatchSize :=
      Nat.mul_le_mul_left _ hm
    rw [Nat.add_mul _ 1, Nat.one_mul] at h3
    omega
  have hlast_iff : ∀ j : Nat, j < k →
      (min (j * miniBatchSize + miniBatchSize) (states.length + 1) = states.length + 1
        ↔ j + 1 = k) := by
    intro j hj
    constructor
    · intro hmin
      by_contra hne
      have hj1 : j + 1 < k := by omega
      have := h1 (j + 1) hj1
      rw [Nat.add_mul, Nat.one_mul] at this
      have hle : states.length + 1 ≤ j * miniBatchSize + miniBatchSize := by
        rw [← hmin]
        exact min_le_left _ _
      omega
    · intro hjk
      apply min_eq_right
      rw [← hjk, Nat.add_mul, Nat.one_mul] at h2
      exact h2
  obtain ⟨valPreds, hrun, hlen, hcontent⟩ :=
    valPredsLoop_spec Forward (fun _ => 0) states nextStates last miniBatchSize hlast hm hF
      k (states.length + 1 + 1) 0 (List.replicate (states.length + 1) 0) []
      (by omega) (fun j hj => by simpa using h1 j hj) (by simpa using h2) (by simp)
  have hchunks : (List.range k).map (fun j : Nat =>
      ({ start := 0 + j * miniBatchSize,
         stop := min (0 + j * miniBatchSize + miniBatchSize) (states.length + 1),
         fed := min (0 + j * miniBatchSize + miniBatchSize) (states.length + 1)
           - (0 + j * miniBatchSize),
         appended := decide (min (0 + j * miniBatchSize + miniBatchSize)
           (states.length + 1) = states.length + 1) } : ValChunk))
      = (List.range k).map (fun j : Nat =>
      ({ start := j * miniBatchSize,
         stop := min (j * miniBatchSize + miniBatchSize) (states.length + 1),
         fed := min (j * miniBatchSize + miniBatchSize) (states.length + 1)
           - j * miniBatchSize,
         appended := decide (j + 1 = k) } : ValChunk)) := by
    apply List.map_congr_left
    intro j hj
    rw [List.mem_range] at hj
    simp only [Nat.zero_add]
    congr 1
    exact decide_eq_decide.mpr (hlast_iff j hj)
  refine ⟨valPreds, _, last, ?_, hlen, hlast, rfl, ?_, ?_, ?_⟩
  · unfold valuePredictions
    dsimp only
    rw [hrun, List.nil_append, hchunks]
  · intro c hc
    simp only [List.mem_map, List.mem_range] at hc
    obtain ⟨j, hj, rfl⟩ := hc
    have := h1 j hj
    dsimp only
    refine ⟨lt_min (by omega) this, ?_, min_le_right _ _, rfl⟩
    have : min (j * miniBatchSize + miniBatchSize) (states.length + 1)
        ≤ j * miniBatchSize + miniBatchSize := min_le_left _ _
    omega
  · intro x hx
    exact nat_strided_cover (states.length + 1) miniBatchSize k hm h2 x hx
  · intro V hrow
    obtain ⟨valPreds', hrun', _, hcontent'⟩ :=
      valPredsLoop_spec Forward V states nextStates last miniBatchSize hlast hm hF
        k (states.length + 1 + 1) 0 (List.replicate (states.length + 1) 0) []
        (by omega) (fun j hj => by simpa using h1 j hj) (by simpa using h2) (by simp)
    rw [hrun] at hrun'
    cases hrun'
    have := hcontent' hrow
    simpa using this

end Learner

/-- Witness of C26: five rows in chunks of two give the chunks `[0, 2)`, `[2, 4)` and `[4, 6)`,
the last one with the final next-state appended, and six predictions. -/
theorem value_predictions_chunks_witness :
    (Learner.valuePredictions sampleValueNet [1, 2, 3, 4, 5] [2, 3, 4, 5, 6] 2).toOption.map
        (fun r => r.2)
      = some [{ start := 0, stop := 2, fed := 2, appended := false },
              { start := 2, stop := 4, fed := 2, appended := false },
              { start := 4, stop := 6, fed := 2, appended := true }] ∧
    ∃ valPreds chunks,
      Learner.valuePredictions sampleValueNet [1, 2, 3, 4, 5] [2, 3, 4, 5, 6] 2
        = .ok (valPreds, chunks) ∧
      valPreds.length = 6 ∧ valPreds = [1, 2, 3, 4, 5, 6] := by
  refine ⟨by decide, ?_⟩
  obtain ⟨valPreds, chunks, last, h1, h2, h3, _, _, _, h7⟩ :=
    Learner.value_predictions_chunks sampleValueNet [1, 2, 3, 4, 5] [2, 3, 4, 5, 6] 2
      (by decide) rfl (by decide) (fun xs => by simp [sampleValueNet])
  have hl : last = 6 := by
    simp at h3
    exact h3.symm
  have h := h7 (fun x : Nat => (x : ℚ)) (fun xs => rfl)
  subst hl
  exact ⟨valPreds, chunks, h1, h2, by rw [h]; simp⟩

end RLGPC
